import Mathlib

/-!
# GamePlay font encoder (`TTFFontEncoder.cpp`): embedding and verification

The development embeds the two encoder entry points `writeFont` and
`writeFontFromImage` together with their helpers `drawBitmap`, `writeUint`
and `writeString`.

Conventions of the embedding.

* C strings (`const char*`, `const wchar_t*`) are the lists of their
  characters before the terminator; bytes and characters are naturals.
* `int` variables are integers and `unsigned` variables are naturals, both
  unbounded: lengths, counts and texture dimensions are not reduced modulo
  `2^32`.  Reduced are: the argument of `uintBytes`, which emits four bytes;
  the byte length of the texture, a product that the source computes in
  `unsigned int` (`imageWidth * imageHeight`, also the size of the image
  buffer, and `width * height * 4`), modulo `2^32`; and a negative `int` that
  is converted to an unsigned type (`toUint`, `toSizeT`).
* `FILE*` is the list of bytes written so far; `fwrite` appends, `ftell` is
  the length.
* `FT_Load_Char` is an external call.  Its result is an arbitrary function of
  the pass of `writeFont` that makes the call and of the character.
* A float `(float)a / (float)b` is kept as the exact fraction `a / b`; its
  four bytes are a parameter of the configuration.
* Memory read outside an object is undefined in C; the embedding reads `0`
  there.  A write outside the object is dropped.
* `writeFontFromImage` reads the RGBA bytes of the image through an
  `unsigned long*`, one `unsigned long` to a pixel; the embedding takes
  `sizeof(unsigned long)` to be 4 accordingly.
* The loops `while (textureSizeFound == false)` and `for (;;)` take a bound
  on their number of iterations; `none` means that the bound ran out.
-/

namespace gameplay

/-! ## Configuration and external data -/

/-- Constants that the encoder takes from headers (`GPBFile.h`,
`TTFFontEncoder.h`) and the platform: byte order, the bytes of a float, and
whether `calloc` of a glyph array of a given length returns memory.  The first
and fifth character of the magic are not legible in the source at hand and
are fields here. -/
structure Config where
  magicOpen : Nat
  magicClose : Nat
  versionMajor : Nat
  versionMinor : Nat
  GLYPH_PADDING : Nat
  START_INDEX : Nat
  END_INDEX : Nat
  bigEndian : Bool
  floatBytes : Int → Int → List Nat
  callocOk : Nat → Bool

/-- Exact value of a C expression `(float)num / (float)den`. -/
structure Frac where
  num : Int
  den : Int
deriving DecidableEq, Repr

/-- Record of the glyph array: `index`, `width` and `uvCoords[0..3]`. -/
structure Glyph where
  index : Nat
  width : Int
  uv0 : Frac
  uv1 : Frac
  uv2 : Frac
  uv3 : Frac
deriving DecidableEq, Repr

/-- Entry of a glyph array fresh from `calloc`. -/
def Glyph.zero : Glyph :=
  ⟨0, 0, ⟨0, 1⟩, ⟨0, 1⟩, ⟨0, 1⟩, ⟨0, 1⟩⟩

/-- Part of `FT_GlyphSlot` that the encoder reads after `FT_Load_Char`. -/
structure GlyphSlot where
  rows : Int
  pitch : Int
  bitmap_top : Int
  buffer : List Nat
deriving DecidableEq, Repr

/-- Passes of `writeFont` that call `FT_Load_Char`: the measuring loop, one
search pass per value of `powerOf2`, and the drawing loop. -/
inductive Pass where
  | measure : Pass
  | search : Nat → Pass
  | draw : Pass
deriving DecidableEq, Repr

/-- FreeType side of `writeFont`: which of the setup calls succeed, the
family name, and the slot that `FT_Load_Char` fills. -/
structure Face where
  initError : Bool
  newFaceError : Bool
  setCharSizeError : Bool
  family_name : List Nat
  load : Pass → Nat → GlyphSlot

/-- Values on which the block that writes the output file (lines 271-315 and
420-463) runs: the Ref id, the family, style and size, the glyph array with
the number of its records to write, the texture dimensions, the byte length
and the buffer the pixel bytes are read from. -/
structure GpbFont where
  id : List Nat
  family : List Nat
  style : Nat
  size : Nat
  glyphArray : List Glyph
  glyphCount : Nat
  textureWidth : Nat
  textureHeight : Nat
  textureSize : Nat
  pixels : List Nat
deriving DecidableEq, Repr

/-- Outcome of an encoder run: the returned `int` and what the run hands to
the block that writes the output file, `none` when the run never opens the
file.  The bytes of the file are `Run.out`. -/
structure Run where
  ret : Int
  file : Option GpbFont
deriving DecidableEq, Repr

/-! ## Byte-level helpers -/

/-- Four bytes of an `unsigned int` in the byte order of the platform. -/
def uintBytes (bigEndian : Bool) (i : Nat) : List Nat :=
  let v := i % 4294967296
  let le := [v % 256, v / 256 % 256, v / 65536 % 256, v / 16777216 % 256]
  if bigEndian then le.reverse else le

/-- Conversion of an `int` to `unsigned int`. -/
def toUint (i : Int) : Nat :=
  (i % 4294967296).toNat

/-- Output stream. -/
structure FILE where
  bytes : List Nat
deriving DecidableEq, Repr

/-- Model of `fopen(path, "wb")`. -/
def fopen : FILE :=
  ⟨[]⟩

/-- Model of `fwrite` of a byte block. -/
def fwrite (fp : FILE) (block : List Nat) : FILE :=
  ⟨fp.bytes ++ block⟩

/-- Model of `ftell`. -/
def ftell (fp : FILE) : Nat :=
  fp.bytes.length

/-- Read of `n` bytes from the start of an object. -/
def readBytes (mem : List Nat) (n : Nat) : List Nat :=
  (List.range n).map (fun k => mem.getD k 0)

/-- Embedding of `writeUint`. -/
def writeUint (cfg : Config) (fp : FILE) (i : Nat) : FILE :=
  fwrite fp (uintBytes cfg.bigEndian i)

/-- Embedding of `writeString`. -/
def writeString (cfg : Config) (fp : FILE) (str : List Nat) : FILE :=
  let len := str.length
  let fp := fwrite fp (uintBytes cfg.bigEndian len)
  if len > 0 then fwrite fp str else fp

/-- Bytes of one `Glyph` of the array (`sizeof(Glyph)` bytes: two unsigned
integers and four floats). -/
def glyphBytes (cfg : Config) (g : Glyph) : List Nat :=
  uintBytes cfg.bigEndian g.index ++ uintBytes cfg.bigEndian (toUint g.width) ++
    cfg.floatBytes g.uv0.num g.uv0.den ++ cfg.floatBytes g.uv1.num g.uv1.den ++
    cfg.floatBytes g.uv2.num g.uv2.den ++ cfg.floatBytes g.uv3.num g.uv3.den

/-- The first `count` records of a glyph array. -/
def glyphRecords (glyphArray : List Glyph) (count : Nat) : List Glyph :=
  (List.range count).map (fun k => glyphArray.getD k Glyph.zero)

/-- Model of `fwrite(glyphArray, sizeof(Glyph), count, fp)`. -/
def fwriteGlyphs (cfg : Config) (fp : FILE) (glyphArray : List Glyph) (count : Nat) : FILE :=
  fwrite fp ((glyphRecords glyphArray count).map (glyphBytes cfg)).flatten

/-- The array `fileHeader[9]`. -/
def fileHeader (cfg : Config) : List Nat :=
  [cfg.magicOpen, 0x47, 0x50, 0x42, cfg.magicClose, 0x0D, 0x0A, 0x1A, 0x0A]

/-- The two characters of `GPB_VERSION`. -/
def gpbVersion (cfg : Config) : List Nat :=
  [cfg.versionMajor, cfg.versionMinor]

/-! ## `drawBitmap` -/

/-- Conversion of an `int` to `size_t`, taken to be 64 bits wide: a value that
is not negative is kept, a negative value wraps. -/
def toSizeT (i : Int) : Nat :=
  if 0 ≤ i then i.toNat else (i % 18446744073709551616).toNat

/-- Read of `mem[k]` for an offset `k` that may lie before or behind the
object: `0` there. -/
def readAt (mem : List Nat) (k : Int) : Nat :=
  if 0 ≤ k then mem.getD k.toNat 0 else 0

/-- Bytes of the destination after `memcpy`, from the byte of position `k`
on. -/
def memcpyFrom (off : Int) (src : List Nat) (start : Int) (n : Nat) :
    List Nat → Int → List Nat
  | [], _ => []
  | b :: rest, k =>
    (if off ≤ k ∧ k < off + (n : Int) then readAt src (start + (k - off)) else b) ::
      memcpyFrom off src start n rest (k + 1)

/-- Model of `memcpy(dst + off, src + start, n)` on byte lists: the bytes of
the destination at the positions `off, ..., off + n - 1` become the bytes of
the source from `start` on; what falls outside the destination is not
written. -/
def memcpyAt (dst : List Nat) (off : Int) (src : List Nat) (start : Int) (n : Nat) : List Nat :=
  memcpyFrom off src start n dst 0

/-- Loop of `drawBitmap`: `i` rows are left to copy.  `dstOff` and `srcOff`
are the offsets of `dstBitmap` and `srcBitmap`; `memcpy` takes `srcWidth` as a
`size_t`. -/
def drawRows (dstWidth : Int) (srcBitmap : List Nat) (srcWidth : Int) :
    Nat → List Nat → Int → Int → List Nat
  | 0, dst, _, _ => dst
  | i + 1, dst, dstOff, srcOff =>
    drawRows dstWidth srcBitmap srcWidth i
      (memcpyAt dst dstOff srcBitmap srcOff (toSizeT srcWidth))
      (dstOff + dstWidth) (srcOff + srcWidth)

/-- Embedding of `drawBitmap`. -/
def drawBitmap (dstBitmap : List Nat) (x y dstWidth : Int) (srcBitmap : List Nat)
    (srcWidth srcHeight : Int) : List Nat :=
  drawRows dstWidth srcBitmap srcWidth srcHeight.toNat dstBitmap (x + y * dstWidth) 0

/-! ## `writeFont` -/

/-- Characters of the wide string stored in an array: those before the first
zero. -/
def wcsOf (mem : List Nat) : List Nat :=
  mem.takeWhile (fun ch => ch != 0)

/-- The array `defaultSet`: the codes from `START_INDEX` up to, and without,
`END_INDEX`, then the terminator. -/
def defaultSet (cfg : Config) : List Nat :=
  (List.range (cfg.END_INDEX - cfg.START_INDEX)).map (fun k => cfg.START_INDEX + k) ++ [0]

/-- Character set that `writeFont` works on: the given one, or the default
set when the argument is `NULL` or empty. -/
def effectiveSet (cfg : Config) (characterSet : Option (List Nat)) : List Nat :=
  match characterSet with
  | none => wcsOf (defaultSet cfg)
  | some cs => if cs.length = 0 then wcsOf (defaultSet cfg) else cs

/-- First loop of `writeFont` (lines 105-122): `actualfontHeight` and
`rowSize` before the padding is added. -/
def measureLoop (m : Nat → GlyphSlot) : List Nat → Int → Int → Int × Int
  | [], actualfontHeight, rowSize => (actualfontHeight, rowSize)
  | ch :: rest, actualfontHeight, rowSize =>
    let slot := m ch
    let bitmapRows := slot.rows
    let actualfontHeight := if actualfontHeight < bitmapRows then bitmapRows else actualfontHeight
    let bitmapRows :=
      if slot.rows > slot.bitmap_top then bitmapRows + (slot.rows - slot.bitmap_top) else bitmapRows
    let rowSize := if rowSize < bitmapRows then bitmapRows else rowSize
    measureLoop m rest actualfontHeight rowSize

/-- The pen of the packing loops: `penX`, `penY` and `row`. -/
structure Pen where
  penX : Int
  penY : Int
  row : Int
deriving DecidableEq, Repr

/-- State at the exit of the `for` loop of one search pass. -/
structure SearchState where
  penX : Int
  penY : Int
  row : Int
  textureSizeFound : Bool
  broke : Bool
deriving DecidableEq, Repr

/-- Body of the `for` loop of a search pass up to line 184 (lines 152-184):
the pen after the glyph, and whether `powerOf2++; break;` was taken.  The
assignment `penY += ...` of line 179 is overwritten by line 184 before any
use and is left out. -/
def searchStep (cfg : Config) (m : Nat → GlyphSlot) (rowSize : Int)
    (imageWidth imageHeight : Nat) (ch : Nat) (pen : Pen) : Pen × Bool :=
  let slot := m ch
  let glyphWidth := slot.pitch
  let advance := glyphWidth + (cfg.GLYPH_PADDING : Int)
  if pen.penX + advance > (imageWidth : Int) then
    let penX := 0
    let row := pen.row + 1
    let penY := row * rowSize
    if penY + rowSize > (imageHeight : Int) then (⟨penX, penY, row⟩, true)
    else (⟨penX + advance, row * rowSize, row⟩, false)
  else (⟨pen.penX + advance, pen.row * rowSize, pen.row⟩, false)

/-- The `for` loop inside `while (textureSizeFound == false)` (lines 150-192).
`broke` records that the loop was left through `break`. -/
def searchFor (cfg : Config) (m : Nat → GlyphSlot) (rowSize : Int)
    (imageWidth imageHeight : Nat) : List Nat → Pen → Bool → SearchState
  | [], pen, found => ⟨pen.penX, pen.penY, pen.row, found, false⟩
  | ch :: rest, pen, found =>
    match searchStep cfg m rowSize imageWidth imageHeight ch pen with
    | (pen, true) => ⟨pen.penX, pen.penY, pen.row, found, true⟩
    | (pen, false) =>
      let found := if rest.length = 0 then true else found
      searchFor cfg m rowSize imageWidth imageHeight rest pen found

/-- Values that the size search leaves behind. -/
structure SearchResult where
  imageWidth : Nat
  imageHeight : Nat
  penX : Int
  penY : Int
  row : Int
  powerOf2 : Nat
deriving DecidableEq, Repr

/-- The loop `while (textureSizeFound == false)` (lines 140-193), started at
`powerOf2`, with a bound on the number of iterations. -/
def sizeSearch (cfg : Config) (face : Face) (cs : List Nat) (rowSize : Int) :
    Nat → Nat → Option SearchResult
  | 0, _ => none
  | fuel + 1, powerOf2 =>
    let imageWidth := 2 ^ powerOf2
    let imageHeight := 2 ^ powerOf2
    let s := searchFor cfg (face.load (Pass.search powerOf2)) rowSize
      imageWidth imageHeight cs ⟨0, 0, 0⟩ false
    let powerOf2 := if s.broke then powerOf2 + 1 else powerOf2
    if s.textureSizeFound then some ⟨imageWidth, imageHeight, s.penX, s.penY, s.row, powerOf2⟩
    else sizeSearch cfg face cs rowSize fuel powerOf2

/-- The loop `for (;;)` that tightens the height (lines 196-208), started at
`powerOf2`, with a bound on the number of iterations; the result is the new
`imageHeight`. -/
def tightenHeight (penY rowSize : Int) : Nat → Nat → Option Nat
  | 0, _ => none
  | fuel + 1, powerOf2 =>
    if penY + rowSize ≥ ((2 ^ powerOf2 : Nat) : Int) then tightenHeight penY rowSize fuel (powerOf2 + 1)
    else some (2 ^ powerOf2)

/-- State of the drawing loop. -/
structure DrawState where
  penX : Int
  penY : Int
  row : Int
  i : Nat
  glyphArray : List Glyph
  imageBuffer : List Nat
deriving DecidableEq, Repr

/-- Body of the drawing loop after the wrap (lines 247-267), run with the
pen that the wrap leaves. -/
def drawGlyph (cfg : Config) (m : Nat → GlyphSlot) (actualfontHeight rowSize : Int)
    (imageWidth imageHeight : Nat) (ch : Nat) (st : DrawState) (penX penY row : Int) :
    DrawState :=
  let slot := m ch
  let glyphBuffer := slot.buffer
  let glyphWidth := slot.pitch
  let glyphHeight := slot.rows
  let advance := glyphWidth + (cfg.GLYPH_PADDING : Int)
  let penY := penY + ((actualfontHeight - glyphHeight) + (glyphHeight - slot.bitmap_top))
  let imageBuffer :=
    drawBitmap st.imageBuffer penX penY imageWidth glyphBuffer glyphWidth glyphHeight
  let penY := row * rowSize
  let glyph : Glyph :=
    { index := ch
      width := advance - (cfg.GLYPH_PADDING : Int)
      uv0 := ⟨penX, imageWidth⟩
      uv1 := ⟨penY, imageHeight⟩
      uv2 := ⟨penX + advance - (cfg.GLYPH_PADDING : Int), imageWidth⟩
      uv3 := ⟨penY + rowSize, imageHeight⟩ }
  let glyphArray := st.glyphArray.set st.i glyph
  let penX := penX + advance
  ⟨penX, penY, row, st.i + 1, glyphArray, imageBuffer⟩

/-- Body of the drawing loop (lines 219-267); `none` is the exit
`Image size exceeded!` with `return -1`. -/
def drawStep (cfg : Config) (m : Nat → GlyphSlot) (actualfontHeight rowSize : Int)
    (imageWidth imageHeight : Nat) (ch : Nat) (st : DrawState) : Option DrawState :=
  let slot := m ch
  let glyphWidth := slot.pitch
  let advance := glyphWidth + (cfg.GLYPH_PADDING : Int)
  if st.penX + advance > (imageWidth : Int) then
    let penX := 0
    let row := st.row + 1
    let penY := row * rowSize
    if penY + rowSize > (imageHeight : Int) then none
    else some (drawGlyph cfg m actualfontHeight rowSize imageWidth imageHeight ch st penX penY row)
  else
    some (drawGlyph cfg m actualfontHeight rowSize imageWidth imageHeight ch st
      st.penX st.penY st.row)

/-- The drawing loop (lines 217-268). -/
def drawFor (cfg : Config) (m : Nat → GlyphSlot) (actualfontHeight rowSize : Int)
    (imageWidth imageHeight : Nat) : List Nat → DrawState → Option DrawState
  | [], st => some st
  | ch :: rest, st =>
    match drawStep cfg m actualfontHeight rowSize imageWidth imageHeight ch st with
    | none => none
    | some st => drawFor cfg m actualfontHeight rowSize imageWidth imageHeight rest st

/-- The block from `fopen` to `fclose` (lines 271-315 and 420-463), which the
two encoders share up to the values written. -/
def writeGpb (cfg : Config) (f : GpbFont) : FILE :=
  let gpbFp := fopen
  let gpbFp := fwrite gpbFp (fileHeader cfg)
  let gpbFp := fwrite gpbFp (gpbVersion cfg)
  let gpbFp := writeUint cfg gpbFp 1
  let gpbFp := writeString cfg gpbFp f.id
  let gpbFp := writeUint cfg gpbFp 128
  let gpbFp := writeUint cfg gpbFp (ftell gpbFp + 4)
  let gpbFp := writeString cfg gpbFp f.family
  let gpbFp := writeUint cfg gpbFp f.style
  let gpbFp := writeUint cfg gpbFp f.size
  let gpbFp := writeString cfg gpbFp []
  let gpbFp := writeUint cfg gpbFp f.glyphCount
  let gpbFp := fwriteGlyphs cfg gpbFp f.glyphArray f.glyphCount
  let gpbFp := writeUint cfg gpbFp f.textureWidth
  let gpbFp := writeUint cfg gpbFp f.textureHeight
  let gpbFp := writeUint cfg gpbFp f.textureSize
  fwrite gpbFp (readBytes f.pixels f.textureSize)

/-- Bytes of the output file of a run, `none` when the file was never
opened. -/
def Run.out (cfg : Config) (r : Run) : Option (List Nat) :=
  r.file.map (fun f => (writeGpb cfg f).bytes)

/-- Glyph records that a run writes to the file. -/
def Run.glyphs (r : Run) : List Glyph :=
  match r.file with
  | none => []
  | some f => glyphRecords f.glyphArray f.glyphCount

/-- Embedding of `writeFont`.  `inFilePath` and `fontSize` reach the function
only through FreeType and are part of `face`; `outFilePath` names the file
that `Run.file` describes; the optional preview image is a second file and is
left out.  `fuel` bounds each of the two open loops.  `rowSize` is never
negative, so its conversion to `unsigned int` for `writeUint` is `toNat`.  The
product `imageWidth * imageHeight` is an `unsigned int` in the source, where
it is the size of `imageBuffer` and the value of `textureSize`. -/
def writeFont (cfg : Config) (face : Face) (fuel : Nat) (id : List Nat)
    (characterSet : Option (List Nat)) : Option Run :=
  let characterSet := effectiveSet cfg characterSet
  if cfg.callocOk characterSet.length = false then some ⟨-1, none⟩
  else if face.initError = true then some ⟨-1, none⟩
  else if face.newFaceError = true then some ⟨-1, none⟩
  else if face.setCharSizeError = true then some ⟨-1, none⟩
  else
    let measured := measureLoop (face.load Pass.measure) characterSet 0 0
    let actualfontHeight := measured.1
    let rowSize := measured.2 + (cfg.GLYPH_PADDING : Int)
    match sizeSearch cfg face characterSet rowSize fuel 2 with
    | none => none
    | some found =>
      match tightenHeight found.penY rowSize fuel 1 with
      | none => none
      | some imageHeight =>
        let imageWidth := found.imageWidth
        let imageBuffer := List.replicate (imageWidth * imageHeight % 4294967296) 0
        let glyphArray := List.replicate characterSet.length Glyph.zero
        match drawFor cfg (face.load Pass.draw) actualfontHeight rowSize imageWidth imageHeight
            characterSet ⟨0, 0, 0, 0, glyphArray, imageBuffer⟩ with
        | none => some ⟨-1, none⟩
        | some st =>
          let glyphSetSize := characterSet.length
          let textureSize := imageWidth * imageHeight % 4294967296
          some ⟨0, some ⟨id, face.family_name, 0, rowSize.toNat, st.glyphArray, glyphSetSize,
            imageWidth, imageHeight, textureSize, st.imageBuffer⟩⟩

/-! ## `writeFontFromImage` -/

/-- Values of `Image::Format`. -/
inductive Format where
  | LUMINANCE : Format
  | RGB : Format
  | RGBA : Format
deriving DecidableEq, Repr

/-- Loaded image: what `getFormat`, `getBpp`, `getWidth`, `getHeight` and
`getData` return. -/
structure Image where
  format : Format
  bpp : Nat
  width : Nat
  height : Nat
  data : List Nat
deriving DecidableEq, Repr

/-- Read of `data[k]` through the `unsigned long*` view of the pixel bytes
(four bytes to a pixel). -/
def pixelAt (cfg : Config) (data : List Nat) (k : Nat) : Nat :=
  let b0 := data.getD (4 * k) 0
  let b1 := data.getD (4 * k + 1) 0
  let b2 := data.getD (4 * k + 2) 0
  let b3 := data.getD (4 * k + 3) 0
  if cfg.bigEndian then b0 * 16777216 + b1 * 65536 + b2 * 256 + b3
  else b0 + b1 * 256 + b2 * 65536 + b3 * 16777216

/-- The inner `while` (lines 398-402) that looks for the break colour; the
result is `(newscanline, charWidth)`.  The first argument bounds the number of
iterations; `scanGlyph_exit` shows that the loop condition is false at the
result when the bound is `width`. -/
def scanGlyph (cfg : Config) (data : List Nat) (breakcolor x width : Nat) :
    Nat → Nat → Nat → Nat × Nat
  | 0, newscanline, charWidth => (newscanline, charWidth)
  | fuel + 1, newscanline, charWidth =>
    if (pixelAt cfg data newscanline &&& 0x00ffffff) ≠ breakcolor ∧ x + charWidth < width then
      scanGlyph cfg data breakcolor x width fuel (newscanline + 1) (charWidth + 1)
    else (newscanline, charWidth)

/-- State of the loop over the character set in `writeFontFromImage`;
`scanline` and `oldscanline` are offsets into `data`. -/
structure ImageState where
  scanline : Nat
  oldscanline : Nat
  x : Nat
  y : Nat
  glyphsCount : Nat
  glyphArray : List Glyph
deriving DecidableEq, Repr

/-- Body of the loop `while( *characterSet )` (lines 376-416); `none` is
the exit `Invalid image pixels data or character set.` with `return -1`. -/
def imageStep (cfg : Config) (data : List Nat) (width height charHeight breakcolor : Nat)
    (ch : Nat) (st : ImageState) : Option ImageState :=
  if ch = 10 then
    let scanline := st.scanline + width * charHeight
    let x := 0
    let y := st.y + charHeight
    if y ≥ height then none
    else some { st with scanline := scanline, oldscanline := scanline, x := x, y := y }
  else if ch ≠ 13 then
    let scanned := scanGlyph cfg data breakcolor st.x width width (st.oldscanline + 1) 1
    let newscanline := scanned.1
    let charWidth := scanned.2
    let glyph : Glyph :=
      { index := ch
        width := (charWidth : Int)
        uv0 := ⟨(st.x : Int), (width : Int)⟩
        uv1 := ⟨((st.y + 1 : Nat) : Int), (height : Int)⟩
        uv2 := ⟨((st.x + charWidth : Nat) : Int), (width : Int)⟩
        uv3 := ⟨((st.y + charHeight + 1 : Nat) : Int), (height : Int)⟩ }
    some { st with oldscanline := newscanline, x := st.x + charWidth,
                   glyphsCount := st.glyphsCount + 1,
                   glyphArray := st.glyphArray.set st.glyphsCount glyph }
  else some st

/-- The loop `while( *characterSet )` (lines 374-417). -/
def imageFor (cfg : Config) (data : List Nat) (width height charHeight breakcolor : Nat) :
    List Nat → ImageState → Option ImageState
  | [], st => some st
  | ch :: rest, st =>
    match imageStep cfg data width height charHeight breakcolor ch st with
    | none => none
    | some st => imageFor cfg data width height charHeight breakcolor rest st

/-- Embedding of `writeFontFromImage`.  `image` is the result of
`Image::create(inFilePath)`, `none` for `NULL`.  The product
`width * height * 4` is an `unsigned int` in the source. -/
def writeFontFromImage (cfg : Config) (image : Option Image) (fontSize : Nat) (id : List Nat)
    (characterSet : List Nat) : Run :=
  match image with
  | none => ⟨-1, none⟩
  | some image =>
    if cfg.callocOk characterSet.length = false then ⟨-1, none⟩
    else if image.format ≠ Format.RGBA ∨ image.bpp ≠ 4 then ⟨-1, none⟩
    else
      let width := image.width
      let height := image.height
      let charHeight := fontSize
      let data := image.data
      let breakcolor := pixelAt cfg data 0 &&& 0x00ffffff
      let glyphArray := List.replicate characterSet.length Glyph.zero
      match imageFor cfg data width height charHeight breakcolor characterSet
          ⟨0, 0, 0, 0, 0, glyphArray⟩ with
      | none => ⟨-1, none⟩
      | some st =>
        let textureSize := width * height * 4 % 4294967296
        ⟨0, some ⟨id, id, 5, charHeight, st.glyphArray, st.glyphsCount, width, height,
          textureSize, data⟩⟩

/-! ## Format description (section 6 of the specification) -/

/-- Field `uint` of the format description: four bytes in native order. -/
def uintField (cfg : Config) (n : Nat) : List Nat :=
  uintBytes cfg.bigEndian n

/-- Field `str(s)` of the format description: `uint |s|`, then the bytes of
`s`. -/
def strField (cfg : Config) (s : List Nat) : List Nat :=
  uintField cfg s.length ++ s

/-- Header, version and Ref table of the format description, for one entry
of type 128. -/
def refTable (cfg : Config) (id : List Nat) (offset : Nat) : List Nat :=
  fileHeader cfg ++ gpbVersion cfg ++ uintField cfg 1 ++ strField cfg id ++ uintField cfg 128 ++
    uintField cfg offset

/-- Font record of the format description. -/
def fontRecord (cfg : Config) (family : List Nat) (style size : Nat) (glyphs : List Glyph)
    (textureWidth textureHeight : Nat) (pixels : List Nat) : List Nat :=
  strField cfg family ++ uintField cfg style ++ uintField cfg size ++ strField cfg [] ++
    uintField cfg glyphs.length ++ (glyphs.map (glyphBytes cfg)).flatten ++
    uintField cfg textureWidth ++ uintField cfg textureHeight ++ uintField cfg pixels.length ++
    pixels

/-- The whole file of the format description. -/
def gpbLayout (cfg : Config) (id family : List Nat) (offset style size : Nat)
    (glyphs : List Glyph) (textureWidth textureHeight : Nat) (pixels : List Nat) : List Nat :=
  refTable cfg id offset ++
    fontRecord cfg family style size glyphs textureWidth textureHeight pixels

/-- The `rowSize` of `writeFont` after the padding is added. -/
def rowSizeOf (cfg : Config) (face : Face) (cs : List Nat) : Int :=
  (measureLoop (face.load Pass.measure) cs 0 0).2 + (cfg.GLYPH_PADDING : Int)

/-- The `actualfontHeight` of `writeFont`. -/
def fontHeightOf (face : Face) (cs : List Nat) : Int :=
  (measureLoop (face.load Pass.measure) cs 0 0).1

/-- State in which the drawing loop of `writeFont` starts. -/
def drawInit (cs : List Nat) (imageWidth imageHeight : Nat) : DrawState :=
  ⟨0, 0, 0, 0, List.replicate cs.length Glyph.zero,
    List.replicate (imageWidth * imageHeight % 4294967296) 0⟩

/-! ## Concrete inputs -/

/-- Sample configuration: padding 4, default set 32..126, little-endian. -/
def sampleConfig : Config :=
  ⟨0xAB, 0xBB, 1, 2, 4, 32, 127, false, fun _ _ => [0, 0, 0, 0], fun _ => true⟩

/-- Sample face: every glyph is one pixel wide and high. -/
def sampleFace : Face :=
  ⟨false, false, false, [70], fun _ _ => ⟨1, 1, 1, [255]⟩⟩

/-- Sample image: two by two pixels, RGBA. -/
def sampleImage : Image :=
  ⟨Format.RGBA, 4, 2, 2, [1, 1, 1, 1, 2, 2, 2, 2, 3, 3, 3, 3, 4, 4, 4, 4]⟩

/-- Characters of a set for which `writeFontFromImage` makes a glyph: those
that are neither `'\n'` nor `'\r'`. -/
def glyphChars (cs : List Nat) : List Nat :=
  cs.filter (fun ch => decide (ch ≠ 10 ∧ ch ≠ 13))

/-! ## Position of the pen in the drawing loop -/

/-- Pen (`penX`, `row`) after one glyph of the drawing loop, the check of the
image height left aside. -/
def packStep (cfg : Config) (m : Nat → GlyphSlot) (imageWidth : Nat) (pen : Int × Int)
    (ch : Nat) : Int × Int :=
  if pen.1 + ((m ch).pitch + (cfg.GLYPH_PADDING : Int)) > (imageWidth : Int) then
    ((m ch).pitch + (cfg.GLYPH_PADDING : Int), pen.2 + 1)
  else (pen.1 + ((m ch).pitch + (cfg.GLYPH_PADDING : Int)), pen.2)

/-- Pen (`penX`, `row`) with which the drawing loop reaches the glyph after
the characters `cs`. -/
def packPen (cfg : Config) (m : Nat → GlyphSlot) (imageWidth : Nat) (cs : List Nat) :
    Int × Int :=
  cs.foldl (packStep cfg m imageWidth) (0, 0)

/-- At the character of index `k` the drawing loop wraps to a new row and
finds `penY + rowSize > imageHeight` there. -/
def wrapExceeds (cfg : Config) (m : Nat → GlyphSlot) (rowSize : Int)
    (imageWidth imageHeight : Nat) (cs : List Nat) (k : Nat) : Prop :=
  ∃ ch, cs[k]? = some ch ∧
    (packPen cfg m imageWidth (cs.take k)).1 + ((m ch).pitch + (cfg.GLYPH_PADDING : Int)) >
      (imageWidth : Int) ∧
    ((packPen cfg m imageWidth (cs.take k)).2 + 1) * rowSize + rowSize > (imageHeight : Int)

/-- Face whose glyphs are wider in the drawing pass than in the passes
before it. -/
def growingFace : Face :=
  ⟨false, false, false, [70], fun pass _ =>
    match pass with
    | Pass.draw => ⟨1, 10, 1, []⟩
    | _ => ⟨1, 0, 1, []⟩⟩

/-! ## Failure of `writeFontFromImage`, in the words of the specification -/

/-- The image fails to load, or the glyph array cannot be allocated, or the
image is not RGBA with four bytes to a pixel, or the character set holds
`n ≥ 1` line feeds with `n * fontSize` at least the height of the image. -/
def imageEncodeFails (cfg : Config) (image : Option Image) (fontSize : Nat)
    (characterSet : List Nat) : Prop :=
  image = none ∨ cfg.callocOk characterSet.length = false ∨
    (∃ img, image = some img ∧ (img.format ≠ Format.RGBA ∨ img.bpp ≠ 4)) ∨
    (∃ img, image = some img ∧ characterSet.count 10 ≥ 1 ∧
      characterSet.count 10 * fontSize ≥ img.height)

/-- Face with one enormous glyph: a thousand million pixels wide and high. -/
def hugeGlyphFace : Face :=
  ⟨false, false, false, [70], fun _ _ => ⟨1000000000, 1000000000, 1000000000, []⟩⟩

/-- Face whose glyph is a long dash: 100 pixels wide, 8 rows, top bearing
8. -/
def dashFace : Face :=
  ⟨false, false, false, [70], fun _ _ => ⟨8, 100, 8, List.replicate 800 255⟩⟩

/-- Face whose glyph is 10 pixels wide and 12 rows high, top bearing 12: with
padding 4 the row is 16 pixels high. -/
def exactFitFace : Face :=
  ⟨false, false, false, [70], fun _ _ => ⟨12, 10, 12, List.replicate 120 255⟩⟩

/-! ## `Font.h`: the enumerations `Style` and `Justify` -/

/-- The enumeration `Font::Style`. -/
inductive Style where
  | PLAIN : Style
  | BOLD : Style
  | ITALIC : Style
  | BOLD_ITALIC : Style
  | TEXTURED : Style
deriving DecidableEq, Repr

/-- Integer value of a `Font::Style`. -/
def Style.val : Style → Nat
  | Style.PLAIN => 0
  | Style.BOLD => 1
  | Style.ITALIC => 2
  | Style.BOLD_ITALIC => 4
  | Style.TEXTURED => 5

/-- Value of `Font::ALIGN_LEFT`. -/
def ALIGN_LEFT : Nat := 0x01

/-- Value of `Font::ALIGN_HCENTER`. -/
def ALIGN_HCENTER : Nat := 0x02

/-- Value of `Font::ALIGN_RIGHT`. -/
def ALIGN_RIGHT : Nat := 0x04

/-- Value of `Font::ALIGN_TOP`. -/
def ALIGN_TOP : Nat := 0x10

/-- Value of `Font::ALIGN_VCENTER`. -/
def ALIGN_VCENTER : Nat := 0x20

/-- Value of `Font::ALIGN_BOTTOM`. -/
def ALIGN_BOTTOM : Nat := 0x40

/-- Value of `Font::ALIGN_TOP_LEFT`. -/
def ALIGN_TOP_LEFT : Nat := ALIGN_TOP ||| ALIGN_LEFT

/-- Value of `Font::ALIGN_VCENTER_LEFT`. -/
def ALIGN_VCENTER_LEFT : Nat := ALIGN_VCENTER ||| ALIGN_LEFT

/-- Value of `Font::ALIGN_BOTTOM_LEFT`. -/
def ALIGN_BOTTOM_LEFT : Nat := ALIGN_BOTTOM ||| ALIGN_LEFT

/-- Value of `Font::ALIGN_TOP_HCENTER`. -/
def ALIGN_TOP_HCENTER : Nat := ALIGN_TOP ||| ALIGN_HCENTER

/-- Value of `Font::ALIGN_VCENTER_HCENTER`. -/
def ALIGN_VCENTER_HCENTER : Nat := ALIGN_VCENTER ||| ALIGN_HCENTER

/-- Value of `Font::ALIGN_BOTTOM_HCENTER`. -/
def ALIGN_BOTTOM_HCENTER : Nat := ALIGN_BOTTOM ||| ALIGN_HCENTER

/-- Value of `Font::ALIGN_TOP_RIGHT`. -/
def ALIGN_TOP_RIGHT : Nat := ALIGN_TOP ||| ALIGN_RIGHT

/-- Value of `Font::ALIGN_VCENTER_RIGHT`. -/
def ALIGN_VCENTER_RIGHT : Nat := ALIGN_VCENTER ||| ALIGN_RIGHT

/-- Value of `Font::ALIGN_BOTTOM_RIGHT`. -/
def ALIGN_BOTTOM_RIGHT : Nat := ALIGN_BOTTOM ||| ALIGN_RIGHT

/-- The three horizontal flags of `Font::Justify`. -/
def horizontalFlags : List Nat := [ALIGN_LEFT, ALIGN_HCENTER, ALIGN_RIGHT]

/-- The three vertical flags of `Font::Justify`. -/
def verticalFlags : List Nat := [ALIGN_TOP, ALIGN_VCENTER, ALIGN_BOTTOM]

/-- The nine combined values of `Font::Justify`, in the order of the
enumeration. -/
def combinedJustify : List Nat :=
  [ALIGN_TOP_LEFT, ALIGN_VCENTER_LEFT, ALIGN_BOTTOM_LEFT, ALIGN_TOP_HCENTER,
    ALIGN_VCENTER_HCENTER, ALIGN_BOTTOM_HCENTER, ALIGN_TOP_RIGHT, ALIGN_VCENTER_RIGHT,
    ALIGN_BOTTOM_RIGHT]

/-- Rational value of a texture coordinate, before the rounding to `float`. -/
def Frac.val (f : Frac) : ℚ :=
  (f.num : ℚ) / (f.den : ℚ)

/-- The texture coordinates of a glyph record are fractions over the texture
dimensions whose differences are the width of the record and the size of the
font. -/
def cellConsistent (textureWidth textureHeight size : Int) (g : Glyph) : Prop :=
  g.uv0.den = textureWidth ∧ g.uv2.den = textureWidth ∧ g.uv2.num - g.uv0.num = g.width ∧
    g.uv1.den = textureHeight ∧ g.uv3.den = textureHeight ∧ g.uv3.num - g.uv1.num = size

/-! ## Text layout (`Font.cpp` and `Text.cpp` are not in the sources)

`Font.h` and `Text.h` declare the layout functions; their bodies are not at
hand.  The definitions of this section follow sections 3 and 4 of the
specification.  Coordinates are exact rationals. -/

/-- The class `Font::Glyph` of `Font.h`: character code, width in pixels and
the texture coordinates `uvs[0..3]`. -/
structure FontGlyph where
  code : Nat
  width : Nat
  u0 : ℚ
  v0 : ℚ
  u1 : ℚ
  v1 : ℚ
deriving DecidableEq

/-- Modelled from the spec: the `GlyphAtlas` of the data model, one size of a
font (the members `_size`, `_glyphs` and `_spacing` of the class `Font`, whose
member functions are in `Font.cpp`, not in the sources). -/
structure GlyphAtlas where
  nativeSize : Nat
  glyphs : List FontGlyph
  characterSpacing : ℚ
deriving DecidableEq

/-- Modelled from the spec: one step of `Font::findClosestSize` (`Font.cpp` is
not in the sources): of two atlases the one whose native size is nearer to the
request, the larger one when both are as near. -/
def closerSize (size : Int) (best next : GlyphAtlas) : GlyphAtlas :=
  if |(next.nativeSize : Int) - size| < |(best.nativeSize : Int) - size| ∨
      (|(next.nativeSize : Int) - size| = |(best.nativeSize : Int) - size| ∧
        next.nativeSize > best.nativeSize) then next
  else best

/-- Modelled from the spec: `Font::findClosestSize` (`Font.cpp` is not in the
sources), which selects among the atlases of a family, the font itself and
its further sizes `_sizes`, the one whose native size has minimal absolute
difference to the request, ties broken by preferring the larger size. -/
def findClosestSize (font : GlyphAtlas) (sizes : List GlyphAtlas) (size : Int) : GlyphAtlas :=
  sizes.foldl (closerSize size) font

/-- Atlas of a given native size without glyphs, with the default character
spacing. -/
def atlasOfSize (n : Nat) : GlyphAtlas :=
  ⟨n, [], 1 / 8⟩

/-- Modelled from the spec: a rectangle (`Rectangle`, whose header is not in
the sources): corner and extent. -/
structure Rect where
  x : ℚ
  y : ℚ
  width : ℚ
  height : ℚ
deriving DecidableEq

/-- Modelled from the spec: the `LayoutOptions` of the data model, the
arguments of `Font::drawText` and `Font::createText` after the text. -/
structure LayoutOptions where
  area : Rect
  drawSize : ℚ
  justify : Nat
  wrap : Bool
  rightToLeft : Bool
  clip : Option Rect
deriving DecidableEq

/-- Modelled from the spec: the `GlyphQuad` of the data model, without its
colour: corner and extent of the quad and its texture rectangle. -/
structure GlyphQuad where
  x : ℚ
  y : ℚ
  width : ℚ
  height : ℚ
  u0 : ℚ
  v0 : ℚ
  u1 : ℚ
  v1 : ℚ
deriving DecidableEq

/-- Modelled from the spec: a font family for the layout (the class `Font`
with its `_sizes`; `Font.cpp` is not in the sources), with the width of a tab
stop, which the specification leaves to the implementation. -/
structure FontFamily where
  font : GlyphAtlas
  sizes : List GlyphAtlas
  tabStop : ℚ
deriving DecidableEq

/-- Modelled from the spec: `Font::getGlyphByCode` (`Font.cpp` is not in the
sources): the glyph of the atlas with the given code, `none` for `NULL`. -/
def getGlyphByCode (atlas : GlyphAtlas) (characterCode : Nat) : Option FontGlyph :=
  atlas.glyphs.find? (fun g => g.code == characterCode)

/-- Modelled from the spec: the atlas that the size selector picks for a draw
size, the font itself for the draw size 0 (the layout functions are in
`Font.cpp`, not in the sources). -/
def selectAtlas (family : FontFamily) (drawSize : ℚ) : GlyphAtlas :=
  if drawSize = 0 then family.font
  else findClosestSize family.font family.sizes ⌊drawSize⌋

/-- Modelled from the spec: the size at which the text is drawn, the native
size for the draw size 0 (the layout functions are in `Font.cpp`, not in the
sources). -/
def effectiveSize (atlas : GlyphAtlas) (drawSize : ℚ) : ℚ :=
  if drawSize = 0 then (atlas.nativeSize : ℚ) else drawSize

/-- Modelled from the spec: the scale factor `drawSize / nativeSize` of the
layout (`Font.cpp` is not in the sources). -/
def layoutScale (atlas : GlyphAtlas) (size : ℚ) : ℚ :=
  size / (atlas.nativeSize : ℚ)

/-- Modelled from the spec: the advance of the pen over a character in the
layout (`Font.cpp` is not in the sources): `(glyph.width + characterSpacing *
drawSize) * scale` for a character of the atlas, zero for an unsupported
one. -/
def charAdvance (atlas : GlyphAtlas) (size : ℚ) (ch : Nat) : ℚ :=
  match getGlyphByCode atlas ch with
  | some g => ((g.width : ℚ) + atlas.characterSpacing * size) * layoutScale atlas size
  | none => 0

/-- Modelled from the spec: the delimiters of the measurer, space, tab and
newline (`Font::handleDelimiters` is in `Font.cpp`, not in the sources). -/
def isDelimiter (ch : Nat) : Bool :=
  ch == 32 || ch == 9 || ch == 10

/-- Modelled from the spec: width of the word token at the head of a text,
the run of characters before the next delimiter (`Font::getTokenWidth` is in
`Font.cpp`, not in the sources). -/
def tokenWidth (atlas : GlyphAtlas) (size : ℚ) : List Nat → ℚ
  | [] => 0
  | ch :: rest =>
    if isDelimiter ch then 0 else charAdvance atlas size ch + tokenWidth atlas size rest

/-- Modelled from the spec: the fixed stop to which a tab moves the pen (the
measurer is in `Font.cpp`, not in the sources): the next multiple of the tab
stop width. -/
def nextTabStop (tabStop penX : ℚ) : ℚ :=
  if tabStop ≤ 0 then penX else ((⌊penX / tabStop⌋ : Int) + 1 : ℚ) * tabStop

/-- Modelled from the spec: where the line walk puts one character: its
line, the pen before it relative to the start of the line, and its advance. -/
structure Placed where
  ch : Nat
  line : Nat
  penX : ℚ
  advance : ℚ
deriving DecidableEq

/-- Modelled from the spec: the line walk of the measurer
(`Font::getMeasurementInfo` is in `Font.cpp`, not in the sources).  The text
is scanned from left to right with a pen.  A newline always ends the line.  A
tab moves the pen to the next stop.  With `wrap`, a word token that begins
after the start of a line and would end beyond the width of the area starts a
new line.  The result is the place of every character and the index of the
line on which the walk ends. -/
def lineWalk (atlas : GlyphAtlas) (size tabStop : ℚ) (wrap : Bool) (areaWidth : ℚ) :
    List Nat → ℚ → Nat → Bool → List Placed × Nat
  | [], _, line, _ => ([], line)
  | ch :: rest, penX, line, tokenStart =>
    if ch = 10 then
      let tail := lineWalk atlas size tabStop wrap areaWidth rest 0 (line + 1) true
      (⟨ch, line, penX, 0⟩ :: tail.1, tail.2)
    else if ch = 9 then
      let stop := nextTabStop tabStop penX
      let tail := lineWalk atlas size tabStop wrap areaWidth rest stop line true
      (⟨ch, line, penX, stop - penX⟩ :: tail.1, tail.2)
    else
      let breaks : Bool := wrap && tokenStart && ch != 32 && decide (0 < penX) &&
        decide (areaWidth < penX + tokenWidth atlas size (ch :: rest))
      let penX := if breaks then 0 else penX
      let line := if breaks then line + 1 else line
      let advance := charAdvance atlas size ch
      let tail := lineWalk atlas size tabStop wrap areaWidth rest (penX + advance) line (ch == 32)
      (⟨ch, line, penX, advance⟩ :: tail.1, tail.2)

/-- Modelled from the spec: the measured lines of a text
(`Font::getMeasurementInfo` is in `Font.cpp`, not in the sources): the place
of every character and the number of lines, zero for the empty text. -/
def measureLines (family : FontFamily) (text : List Nat) (options : LayoutOptions) :
    List Placed × Nat :=
  let atlas := selectAtlas family options.drawSize
  let size := effectiveSize atlas options.drawSize
  let walked := lineWalk atlas size family.tabStop options.wrap options.area.width text 0 0 true
  if text.length = 0 then ([], 0) else (walked.1, walked.2 + 1)

/-- Modelled from the spec: the `lineLengths` of `Font::getMeasurementInfo`
(`Font.cpp` is not in the sources): the number of characters of every line. -/
def lineLengths (family : FontFamily) (text : List Nat) (options : LayoutOptions) : List Nat :=
  let measured := measureLines family text options
  (List.range measured.2).map (fun l => (measured.1.filter (fun p => p.line == l)).length)

/-- Modelled from the spec: measured width of a line, the furthest pen
position on it (`Font::addLineInfo` is in `Font.cpp`, not in the sources). -/
def lineWidth (placed : List Placed) (line : Nat) : ℚ :=
  (placed.filter (fun p => p.line == line)).foldl (fun w p => max w (p.penX + p.advance)) 0

/-- Modelled from the spec: the start of a line after horizontal
justification against the area (`Font::addLineInfo` is in `Font.cpp`, not in
the sources). -/
def lineStartX (area : Rect) (justify : Nat) (width : ℚ) : ℚ :=
  if justify &&& 0x0F = ALIGN_HCENTER then area.x + (area.width - width) / 2
  else if justify &&& 0x0F = ALIGN_RIGHT then area.x + area.width - width
  else area.x

/-- Modelled from the spec: the top of the block of lines after vertical
justification against the area (the measurer is in `Font.cpp`, not in the
sources). -/
def blockStartY (area : Rect) (justify : Nat) (height : ℚ) : ℚ :=
  if justify &&& 0xF0 = ALIGN_VCENTER then area.y + (area.height - height) / 2
  else if justify &&& 0xF0 = ALIGN_BOTTOM then area.y + area.height - height
  else area.y

/-- Modelled from the spec: the position of a placed character in the area
(the layout functions are in `Font.cpp`, not in the sources): the start of
its line plus its pen, mirrored within the line for right-to-left text, and
the top of the block plus its line times the draw size. -/
def placedPosition (options : LayoutOptions) (size : ℚ) (placed : List Placed) (lines : Nat)
    (p : Placed) : ℚ × ℚ :=
  let width := lineWidth placed p.line
  let startX := lineStartX options.area options.justify width
  let startY := blockStartY options.area options.justify ((lines : ℚ) * size)
  let x := if options.rightToLeft then startX + (width - p.penX - p.advance) else startX + p.penX
  (x, startY + (p.line : ℚ) * size)

/-- Modelled from the spec: the intersection of a quad with the clip region
(the layout functions are in `Font.cpp`, not in the sources): a quad outside
the region is dropped; otherwise position and texture rectangle are cut to
the region, the texture rectangle in proportion. -/
def clipQuad (clip : Rect) (q : GlyphQuad) : Option GlyphQuad :=
  if q.x + q.width ≤ clip.x ∨ clip.x + clip.width ≤ q.x ∨
      q.y + q.height ≤ clip.y ∨ clip.y + clip.height ≤ q.y then none
  else
    let left := max q.x clip.x
    let right := min (q.x + q.width) (clip.x + clip.width)
    let top := max q.y clip.y
    let bottom := min (q.y + q.height) (clip.y + clip.height)
    some ⟨left, top, right - left, bottom - top,
      q.u0 + (left - q.x) / q.width * (q.u1 - q.u0),
      q.v0 + (top - q.y) / q.height * (q.v1 - q.v0),
      q.u0 + (right - q.x) / q.width * (q.u1 - q.u0),
      q.v0 + (bottom - q.y) / q.height * (q.v1 - q.v0)⟩

/-- Modelled from the spec: the quad of one placed character (the layout
functions are in `Font.cpp`, not in the sources): none for a tab, a newline
or an unsupported character; otherwise a quad at the position of the
character, of size `(glyph.width * scale, fontHeight * scale)`, with the
texture rectangle of the glyph, cut to the clip region when there is one. -/
def quadOf (atlas : GlyphAtlas) (options : LayoutOptions) (size : ℚ) (placed : List Placed)
    (lines : Nat) (p : Placed) : Option GlyphQuad :=
  if p.ch = 9 ∨ p.ch = 10 then none
  else
    match getGlyphByCode atlas p.ch with
    | none => none
    | some g =>
      let pos := placedPosition options size placed lines p
      let q : GlyphQuad :=
        ⟨pos.1, pos.2, (g.width : ℚ) * layoutScale atlas size,
          (atlas.nativeSize : ℚ) * layoutScale atlas size, g.u0, g.v0, g.u1, g.v1⟩
      match options.clip with
      | none => some q
      | some clip => clipQuad clip q

/-- Modelled from the spec: `layout(text, options)`, the quads of
`Font::drawText` and `Font::createText` (`Font.cpp` is not in the sources):
the quads of the characters in logical order. -/
def layout (family : FontFamily) (text : List Nat) (options : LayoutOptions) : List GlyphQuad :=
  let atlas := selectAtlas family options.drawSize
  let size := effectiveSize atlas options.drawSize
  let measured := measureLines family text options
  measured.1.filterMap (quadOf atlas options size measured.1 measured.2)

/-- Modelled from the spec: the locations of the characters of a text, by
index (the layout functions are in `Font.cpp`, not in the sources). -/
def charLocations (family : FontFamily) (text : List Nat) (options : LayoutOptions) :
    List (ℚ × ℚ) :=
  let atlas := selectAtlas family options.drawSize
  let size := effectiveSize atlas options.drawSize
  let measured := measureLines family text options
  measured.1.map (placedPosition options size measured.1 measured.2)

/-- Modelled from the spec: `Font::getLocationAtIndex` (`Font.cpp` is not in
the sources): the location of the character of the given index, `none` when
the text has no such character. -/
def getLocationAtIndex (family : FontFamily) (text : List Nat) (options : LayoutOptions)
    (destIndex : Nat) : Option (ℚ × ℚ) :=
  (charLocations family text options)[destIndex]?

/-- Modelled from the spec: distance of two locations, for the nearest
character boundary (the layout functions are in `Font.cpp`, not in the
sources). -/
def locationDistance (a b : ℚ × ℚ) : ℚ :=
  |a.1 - b.1| + |a.2 - b.2|

/-- Modelled from the spec: index of the nearest location of a list, the
first one of the nearest (the layout functions are in `Font.cpp`, not in the
sources); the second argument is the index of the head of the list. -/
def nearestIndex (target : ℚ × ℚ) : List (ℚ × ℚ) → Nat → Option (Nat × ℚ)
  | [], _ => none
  | loc :: rest, i =>
    match nearestIndex target rest (i + 1) with
    | none => some (i, locationDistance loc target)
    | some (j, d) =>
      if locationDistance loc target ≤ d then some (i, locationDistance loc target)
      else some (j, d)

/-- Modelled from the spec: `Font::getIndexAtLocation` (`Font.cpp` is not in
the sources): the index of the character boundary nearest to the location,
found by the same line walk; `none` for the empty text. -/
def getIndexAtLocation (family : FontFamily) (text : List Nat) (options : LayoutOptions)
    (inLocation : ℚ × ℚ) : Option Nat :=
  (nearestIndex inLocation (charLocations family text options) 0).map (fun r => r.1)

/-- The atlas of the scenario of the specification: glyphs for `A` (width 10)
and `B` (width 12) at native size 20, with a given character spacing. -/
def scenarioAtlas (spacing : ℚ) : GlyphAtlas :=
  ⟨20, [⟨65, 10, 0, 0, 1 / 10, 1 / 10⟩, ⟨66, 12, 1 / 10, 0, 2 / 10, 1 / 10⟩], spacing⟩

/-- The font family of the scenario, with the one size. -/
def scenarioFamily (spacing : ℚ) : FontFamily :=
  ⟨scenarioAtlas spacing, [], 80⟩

/-- The layout options of the scenario: area `(0, 0, 100, 50)`, draw size 20,
`ALIGN_TOP_LEFT`, no wrap, left to right, no clip region. -/
def scenarioOptions : LayoutOptions :=
  ⟨⟨0, 0, 100, 50⟩, 20, ALIGN_TOP_LEFT, false, false, none⟩

/-- Small configuration: padding 4, default set 65..67, little-endian. -/
def smallConfig : Config :=
  ⟨0xAB, 0xBB, 1, 2, 4, 65, 68, false, fun _ _ => [0, 0, 0, 0], fun _ => true⟩

/-- One pass of the loop `while (textureSizeFound == false)` at the value `p`
of `powerOf2`: the `for` loop over the character set in the square of side
`2^p`, with the glyphs that FreeType loads in this pass. -/
def searchPass (cfg : Config) (face : Face) (cs : List Nat) (rowSize : Int) (p : Nat) :
    SearchState :=
  searchFor cfg (face.load (Pass.search p)) rowSize (2 ^ p) (2 ^ p) cs ⟨0, 0, 0⟩ false

/-- Rows that a glyph takes in its row of the atlas according to the
description of the size field: the rows of the bitmap, and once more the rows
by which the bitmap is higher than its top bearing. -/
def glyphExtent (slot : GlyphSlot) : Int :=
  slot.rows + max 0 (slot.rows - slot.bitmap_top)

/-- Maximum of the extents of the glyphs of a character set, `0` for the
empty set. -/
def maxExtent (m : Nat → GlyphSlot) (cs : List Nat) : Int :=
  (cs.map (fun ch => glyphExtent (m ch))).foldl max 0

/-! ## Cells of the atlas -/

/-- The pixel `(px, py)` lies in the atlas cell of a glyph record: the columns
from `penX` up to, and without, `penX + advance`, and the rows from
`row * rowSize` up to, and without, `(row + 1) * rowSize`.  In the record
`penX` is the numerator of `uvCoords[0]`, `penX + advance - GLYPH_PADDING`
that of `uvCoords[2]`, and `row * rowSize` and `row * rowSize + rowSize` are
those of `uvCoords[1]` and `uvCoords[3]`. -/
def inCell (cfg : Config) (g : Glyph) (px py : Int) : Prop :=
  g.uv0.num ≤ px ∧ px < g.uv2.num + (cfg.GLYPH_PADDING : Int) ∧ g.uv1.num ≤ py ∧ py < g.uv3.num

/-- The point `(u, v)` lies in the interior of the UV rectangle of a glyph
record. -/
def inUvInterior (g : Glyph) (u v : ℚ) : Prop :=
  g.uv0.val < u ∧ u < g.uv2.val ∧ g.uv1.val < v ∧ v < g.uv3.val

/-- The cell of `a` ends above the cell of `b`, or left of it. -/
def cellBefore (pad : Int) (a b : Glyph) : Prop :=
  a.uv3.num ≤ b.uv1.num ∨ a.uv2.num + pad ≤ b.uv0.num

/-- Invariant of the drawing loop: the cells of the records written so far
come one before the other, and each of them ends above the row of the pen or
lies in this row left of the pen. -/
def cellsBehindPen (pad rowSize : Int) (records : List Glyph) (penX row : Int) : Prop :=
  records.Pairwise (cellBefore pad) ∧
  ∀ g ∈ records, g.uv3.num ≤ row * rowSize ∨
    (g.uv3.num = (row + 1) * rowSize ∧ g.uv2.num + pad ≤ penX)

/-- Face whose glyph is an apostrophe: 3 pixels wide and 6 rows high, with
its top 16 rows above the baseline. -/
def apostropheFace : Face :=
  ⟨false, false, false, [70], fun _ _ => ⟨6, 3, 16, List.replicate 18 255⟩⟩

/-- Face with a letter of 8 rows that stands on the baseline, and an
underscore (code 95) of 2 rows whose top is 3 rows below the baseline; both
are 2 pixels wide. -/
def underscoreFace : Face :=
  ⟨false, false, false, [70], fun _ ch =>
    if ch = 95 then ⟨2, 2, -3, List.replicate 4 255⟩ else ⟨8, 2, 8, List.replicate 16 255⟩⟩

/-- Glyph strip of 4 by 2 pixels, RGBA: the first line holds the break colour
(magenta) at the columns 0 and 2, so that the strip has two glyphs, each 2
pixels wide. -/
def stripImage : Image :=
  ⟨Format.RGBA, 4, 4, 2,
    [255, 0, 255, 255, 9, 9, 9, 255, 255, 0, 255, 255, 9, 9, 9, 255,
     9, 9, 9, 255, 9, 9, 9, 255, 9, 9, 9, 255, 9, 9, 9, 255]⟩

/-! ## `lua_FontStyle.cpp` -/

/-- The string `enumStringEmpty`. -/
def enumStringEmpty : List Nat := []

/-- The string `"PLAIN"`. -/
def luaEnumString_FontStyle_PLAIN : List Nat := [80, 76, 65, 73, 78]

/-- The string `"BOLD"`. -/
def luaEnumString_FontStyle_BOLD : List Nat := [66, 79, 76, 68]

/-- The string `"ITALIC"`. -/
def luaEnumString_FontStyle_ITALIC : List Nat := [73, 84, 65, 76, 73, 67]

/-- The string `"BOLD_ITALIC"`. -/
def luaEnumString_FontStyle_BOLD_ITALIC : List Nat :=
  [66, 79, 76, 68, 95, 73, 84, 65, 76, 73, 67]

/-- The string `"TEXTURED"`. -/
def luaEnumString_FontStyle_TEXTURED : List Nat := [84, 69, 88, 84, 85, 82, 69, 68]

/-- Embedding of `lua_enumFromString_FontStyle`; `strcmp(s, t) == 0` is the
equality of the two strings.  `GP_ERROR` is a macro of `Base.h`, which is not
among the sources at hand: it reports the error, and whether control returns
from it is the parameter `errorReturns`; `none` is a call that does not
return. -/
def lua_enumFromString_FontStyle (errorReturns : Bool) (s : List Nat) : Option Style :=
  if s = luaEnumString_FontStyle_PLAIN then some Style.PLAIN
  else if s = luaEnumString_FontStyle_BOLD then some Style.BOLD
  else if s = luaEnumString_FontStyle_ITALIC then some Style.ITALIC
  else if s = luaEnumString_FontStyle_BOLD_ITALIC then some Style.BOLD_ITALIC
  else if s = luaEnumString_FontStyle_TEXTURED then some Style.TEXTURED
  else if errorReturns then some Style.PLAIN else none

/-- Embedding of `lua_stringFromEnum_FontStyle`; the argument is the integer
value of the `Font::Style`, which need not be the value of an enumerator. -/
def lua_stringFromEnum_FontStyle (errorReturns : Bool) (e : Nat) : Option (List Nat) :=
  if e = Style.PLAIN.val then some luaEnumString_FontStyle_PLAIN
  else if e = Style.BOLD.val then some luaEnumString_FontStyle_BOLD
  else if e = Style.ITALIC.val then some luaEnumString_FontStyle_ITALIC
  else if e = Style.BOLD_ITALIC.val then some luaEnumString_FontStyle_BOLD_ITALIC
  else if e = Style.TEXTURED.val then some luaEnumString_FontStyle_TEXTURED
  else if errorReturns then some enumStringEmpty else none

/-- The five names of the values of `Font::Style`. -/
def styleNames : List (List Nat) :=
  [luaEnumString_FontStyle_PLAIN, luaEnumString_FontStyle_BOLD, luaEnumString_FontStyle_ITALIC,
    luaEnumString_FontStyle_BOLD_ITALIC, luaEnumString_FontStyle_TEXTURED]

/-- RGBA image of 32768 by 32768 pixels, all of one colour; its pixel bytes
number `2^32`. -/
def wideImage : Image :=
  ⟨Format.RGBA, 4, 32768, 32768, List.replicate 4294967296 255⟩

end gameplay

/-! # Theorems -/

namespace gameplay

/-! ## Helper lemmas: bytes -/

theorem uintBytes_length (b : Bool) (n : Nat) : (uintBytes b n).length = 4 := by
  unfold uintBytes
  cases b <;> simp

theorem readBytes_length (mem : List Nat) (n : Nat) : (readBytes mem n).length = n := by
  simp [readBytes]

theorem glyphRecords_length (arr : List Glyph) (n : Nat) : (glyphRecords arr n).length = n := by
  simp [glyphRecords]

theorem writeString_bytes (cfg : Config) (fp : FILE) (s : List Nat) :
    (writeString cfg fp s).bytes = fp.bytes ++ strField cfg s := by
  unfold writeString strField uintField
  cases s with
  | nil => simp [fwrite]
  | cons a t => simp [fwrite]

theorem refTable_length (cfg : Config) (id : List Nat) (offset : Nat) :
    (refTable cfg id offset).length = 27 + id.length := by
  simp [refTable, strField, uintField, uintBytes_length, fileHeader, gpbVersion]
  omega

theorem writeGpb_bytes (cfg : Config) (f : GpbFont) :
    (writeGpb cfg f).bytes =
      gpbLayout cfg f.id f.family (27 + f.id.length) f.style f.size
        (glyphRecords f.glyphArray f.glyphCount) f.textureWidth f.textureHeight
        (readBytes f.pixels f.textureSize) := by
  have hoff : ftell (writeUint cfg (writeString cfg (writeUint cfg (fwrite (fwrite fopen
      (fileHeader cfg)) (gpbVersion cfg)) 1) f.id) 128) + 4 = 27 + f.id.length := by
    simp [ftell, writeUint, writeString_bytes, fwrite, fopen, strField, uintField,
      uintBytes_length, fileHeader, gpbVersion]
    omega
  simp only [writeGpb, hoff]
  simp [writeUint, writeString_bytes, fwriteGlyphs, fwrite, fopen, gpbLayout, refTable,
    fontRecord, uintField, glyphRecords_length, readBytes_length, List.append_assoc]

/-! ## Helper lemmas: successful runs -/

theorem writeFont_ok {cfg : Config} {face : Face} {fuel : Nat} {id : List Nat}
    {characterSet : Option (List Nat)} {r : Run}
    (h : writeFont cfg face fuel id characterSet = some r) (h0 : r.ret = 0) :
    ∃ found imageHeight st,
      sizeSearch cfg face (effectiveSet cfg characterSet)
        (rowSizeOf cfg face (effectiveSet cfg characterSet)) fuel 2 = some found ∧
      tightenHeight found.penY (rowSizeOf cfg face (effectiveSet cfg characterSet)) fuel 1 =
        some imageHeight ∧
      drawFor cfg (face.load Pass.draw) (fontHeightOf face (effectiveSet cfg characterSet))
        (rowSizeOf cfg face (effectiveSet cfg characterSet)) found.imageWidth imageHeight
        (effectiveSet cfg characterSet)
        (drawInit (effectiveSet cfg characterSet) found.imageWidth imageHeight) = some st ∧
      r = ⟨0, some ⟨id, face.family_name, 0,
        (rowSizeOf cfg face (effectiveSet cfg characterSet)).toNat, st.glyphArray,
        (effectiveSet cfg characterSet).length, found.imageWidth, imageHeight,
        found.imageWidth * imageHeight % 4294967296, st.imageBuffer⟩⟩ := by
  unfold writeFont at h
  simp only [] at h
  split at h
  · cases h; simp at h0
  split at h
  · cases h; simp at h0
  split at h
  · cases h; simp at h0
  split at h
  · cases h; simp at h0
  split at h
  · cases h
  rename_i found hfound
  split at h
  · cases h
  rename_i imageHeight hheight
  split at h
  · cases h; simp at h0
  rename_i st hst
  refine ⟨found, imageHeight, st, hfound, hheight, hst, ?_⟩
  cases h
  rfl

theorem writeFontFromImage_ok {cfg : Config} {image : Option Image} {fontSize : Nat}
    {id characterSet : List Nat}
    (h0 : (writeFontFromImage cfg image fontSize id characterSet).ret = 0) :
    ∃ img st, image = some img ∧
      imageFor cfg img.data img.width img.height fontSize (pixelAt cfg img.data 0 &&& 0x00ffffff)
        characterSet ⟨0, 0, 0, 0, 0, List.replicate characterSet.length Glyph.zero⟩ = some st ∧
      writeFontFromImage cfg image fontSize id characterSet =
        ⟨0, some ⟨id, id, 5, fontSize, st.glyphArray, st.glyphsCount, img.width, img.height,
          img.width * img.height * 4 % 4294967296, img.data⟩⟩ := by
  unfold writeFontFromImage at h0 ⊢
  cases image with
  | none => simp at h0
  | some img =>
    simp only [] at h0 ⊢
    split at h0
    · simp at h0
    rename_i hc
    split at h0
    · simp at h0
    rename_i hf
    split at h0
    · simp at h0
    rename_i st hst
    refine ⟨img, st, rfl, hst, ?_⟩
    rw [if_neg hc, if_neg hf]

/-! ## The scan for the break colour -/

theorem scanGlyph_exit (cfg : Config) (data : List Nat) (breakcolor x width : Nat) :
    ∀ (fuel newscanline charWidth : Nat), width ≤ x + charWidth + fuel →
      ¬ ((pixelAt cfg data (scanGlyph cfg data breakcolor x width fuel newscanline charWidth).1 &&&
            0x00ffffff) ≠ breakcolor ∧
          x + (scanGlyph cfg data breakcolor x width fuel newscanline charWidth).2 < width) := by
  intro fuel
  induction fuel with
  | zero =>
    intro newscanline charWidth hw
    simp only [scanGlyph]
    omega
  | succ f ih =>
    intro newscanline charWidth hw
    rw [scanGlyph]
    split
    · exact ih _ _ (by omega)
    · rename_i hc
      exact hc

/-! ## Layout of the file -/

/-- C1: on every successful run of `writeFont` and of `writeFontFromImage`
the bytes of the output file are exactly the concatenation of the magic
(9 bytes), the version (2 bytes), `uint 1`, `str(id)`, `uint 128`, `uint
offset`, `str(family)`, `uint style`, `uint size`, `str("")` (which is `uint
0`), `uint glyphCount`, that many glyph records, `uint textureWidth`, `uint
textureHeight`, `uint byteLength` and that many pixel bytes, where `uint` is
four bytes and `str(s)` is `uint |s|` followed by `s`. -/
theorem gpb_file_layout (cfg : Config) :
    (∀ (face : Face) (fuel : Nat) (id : List Nat) (characterSet : Option (List Nat)) (r : Run),
      writeFont cfg face fuel id characterSet = some r → r.ret = 0 →
      ∃ offset style size glyphs textureWidth textureHeight pixels,
        r.out cfg = some (gpbLayout cfg id face.family_name offset style size glyphs
          textureWidth textureHeight pixels)) ∧
    (∀ (image : Option Image) (fontSize : Nat) (id characterSet : List Nat),
      (writeFontFromImage cfg image fontSize id characterSet).ret = 0 →
      ∃ offset style size glyphs textureWidth textureHeight pixels,
        (writeFontFromImage cfg image fontSize id characterSet).out cfg =
          some (gpbLayout cfg id id offset style size glyphs textureWidth textureHeight pixels)) ∧
    (fileHeader cfg).length = 9 ∧ (gpbVersion cfg).length = 2 ∧
    (∀ n, (uintField cfg n).length = 4) ∧ strField cfg [] = uintField cfg 0 := by
  refine ⟨?_, ?_, rfl, rfl, fun n => uintBytes_length _ n, by simp [strField]⟩
  · intro face fuel id characterSet r h h0
    obtain ⟨found, imageHeight, st, -, -, -, hr⟩ := writeFont_ok h h0
    subst hr
    simp only [Run.out, Option.map, writeGpb_bytes]
    exact ⟨_, _, _, _, _, _, _, rfl⟩
  · intro image fontSize id characterSet h0
    obtain ⟨img, st, -, -, hr⟩ := writeFontFromImage_ok h0
    rw [hr]
    simp only [Run.out, Option.map, writeGpb_bytes]
    exact ⟨_, _, _, _, _, _, _, rfl⟩

/-- Witness for C1: the sample face and the sample image give successful
runs, whose files have the layout. -/
theorem gpb_file_layout_witness :
    (∃ r, writeFont sampleConfig sampleFace 8 [65] (some [65, 66]) = some r ∧ r.ret = 0 ∧
      ∃ offset style size glyphs textureWidth textureHeight pixels,
        r.out sampleConfig =
          some (gpbLayout sampleConfig [65] sampleFace.family_name offset style size glyphs
            textureWidth textureHeight pixels)) ∧
    (∃ offset style size glyphs textureWidth textureHeight pixels,
      (writeFontFromImage sampleConfig (some sampleImage) 1 [65] [65, 66]).out sampleConfig =
        some (gpbLayout sampleConfig [65] [65] offset style size glyphs textureWidth
          textureHeight pixels)) := by
  have hs : (writeFont sampleConfig sampleFace 8 [65] (some [65, 66])).isSome = true := by decide
  obtain ⟨r, hr⟩ := Option.isSome_iff_exists.mp hs
  have h0 : r.ret = 0 := by
    have hm : (writeFont sampleConfig sampleFace 8 [65] (some [65, 66])).map Run.ret = some 0 := by
      decide
    rw [hr] at hm
    simpa using hm
  exact ⟨⟨r, hr, h0, (gpb_file_layout sampleConfig).1 sampleFace 8 [65] (some [65, 66]) r hr h0⟩,
    (gpb_file_layout sampleConfig).2.1 (some sampleImage) 1 [65] [65, 66] (by decide)⟩

/-! ## Helper lemmas: the glyph array -/

theorem glyphRecords_eq_take (arr : List Glyph) (n : Nat) (h : n ≤ arr.length) :
    glyphRecords arr n = arr.take n := by
  apply List.ext_getElem
  · simp [glyphRecords, h]
  · intro k h1 h2
    have hk : k < n := by simpa [glyphRecords] using h1
    have hk2 : k < arr.length := by omega
    simp [glyphRecords, List.getD_eq_getElem?_getD, hk2]

theorem take_succ_set {α : Type} (l : List α) (i : Nat) (a : α) (h : i < l.length) :
    (l.set i a).take (i + 1) = l.take i ++ [a] := by
  induction l generalizing i with
  | nil => simp at h
  | cons x t ih =>
    cases i with
    | zero => simp
    | succ j =>
      simp at h
      simp [ih j h]

theorem drawStep_array {cfg : Config} {m : Nat → GlyphSlot} {afh rowSize : Int} {W H : Nat}
    {ch : Nat} {st st1 : DrawState} (h : drawStep cfg m afh rowSize W H ch st = some st1) :
    st1.i = st.i + 1 ∧ ∃ g : Glyph, g.index = ch ∧ st1.glyphArray = st.glyphArray.set st.i g := by
  unfold drawStep at h
  simp only [] at h
  split at h
  · split at h
    · cases h
    · cases h
      exact ⟨rfl, _, rfl, rfl⟩
  · cases h
    exact ⟨rfl, _, rfl, rfl⟩

theorem drawFor_codes (cfg : Config) (m : Nat → GlyphSlot) (afh rowSize : Int) (W H : Nat) :
    ∀ (cs : List Nat) (st st1 : DrawState),
      drawFor cfg m afh rowSize W H cs st = some st1 →
      st.i + cs.length ≤ st.glyphArray.length →
      st1.glyphArray.length = st.glyphArray.length ∧
      (st1.glyphArray.take (st.i + cs.length)).map Glyph.index =
        (st.glyphArray.take st.i).map Glyph.index ++ cs := by
  intro cs
  induction cs with
  | nil =>
    intro st st1 h _
    simp [drawFor] at h
    subst h
    simp
  | cons ch rest ih =>
    intro st st1 h hlen
    rw [drawFor] at h
    split at h
    · cases h
    · rename_i st2 hst2
      obtain ⟨hi2, g, hg, harr⟩ := drawStep_array hst2
      simp only [List.length_cons] at hlen
      have hi : st.i < st.glyphArray.length := by omega
      have hl2 : st2.glyphArray.length = st.glyphArray.length := by simp [harr]
      obtain ⟨h1, h2⟩ := ih st2 st1 h (by omega)
      refine ⟨by omega, ?_⟩
      simp only [List.length_cons]
      have e : st.i + (rest.length + 1) = st2.i + rest.length := by omega
      rw [e, h2, hi2, harr, take_succ_set _ _ _ hi]
      simp [hg]

theorem imageStep_array {cfg : Config} {data : List Nat} {width height charHeight bc : Nat}
    {ch : Nat} {st st1 : ImageState}
    (h : imageStep cfg data width height charHeight bc ch st = some st1) :
    (ch ≠ 10 ∧ ch ≠ 13 → st1.glyphsCount = st.glyphsCount + 1 ∧
      ∃ g : Glyph, g.index = ch ∧ st1.glyphArray = st.glyphArray.set st.glyphsCount g) ∧
    (¬ (ch ≠ 10 ∧ ch ≠ 13) → st1.glyphsCount = st.glyphsCount ∧
      st1.glyphArray = st.glyphArray) := by
  unfold imageStep at h
  simp only [] at h
  split at h
  · rename_i h10
    split at h
    · cases h
    · cases h
      exact ⟨fun hc => absurd h10 hc.1, fun _ => ⟨rfl, rfl⟩⟩
  · rename_i h10
    split at h
    · rename_i h13
      cases h
      exact ⟨fun _ => ⟨rfl, _, rfl, rfl⟩, fun hc => absurd ⟨h10, h13⟩ hc⟩
    · rename_i h13
      cases h
      exact ⟨fun hc => absurd hc.2 h13, fun _ => ⟨rfl, rfl⟩⟩

theorem imageFor_codes (cfg : Config) (data : List Nat) (width height charHeight bc : Nat) :
    ∀ (cs : List Nat) (st st1 : ImageState),
      imageFor cfg data width height charHeight bc cs st = some st1 →
      st.glyphsCount + (glyphChars cs).length ≤ st.glyphArray.length →
      st1.glyphArray.length = st.glyphArray.length ∧
      st1.glyphsCount = st.glyphsCount + (glyphChars cs).length ∧
      (st1.glyphArray.take st1.glyphsCount).map Glyph.index =
        (st.glyphArray.take st.glyphsCount).map Glyph.index ++ glyphChars cs := by
  intro cs
  induction cs with
  | nil =>
    intro st st1 h _
    simp [imageFor] at h
    subst h
    simp [glyphChars]
  | cons ch rest ih =>
    intro st st1 h hlen
    rw [imageFor] at h
    split at h
    · cases h
    · rename_i st2 hst2
      obtain ⟨hyes, hno⟩ := imageStep_array hst2
      by_cases hc : ch ≠ 10 ∧ ch ≠ 13
      · obtain ⟨hi2, g, hg, harr⟩ := hyes hc
        have hf : glyphChars (ch :: rest) = ch :: glyphChars rest := by
          simp [glyphChars, List.filter_cons, hc.1, hc.2]
        rw [hf] at hlen ⊢
        simp only [List.length_cons] at hlen ⊢
        have hi : st.glyphsCount < st.glyphArray.length := by omega
        have hl2 : st2.glyphArray.length = st.glyphArray.length := by simp [harr]
        obtain ⟨h1, h2, h3⟩ := ih st2 st1 h (by omega)
        refine ⟨by omega, by omega, ?_⟩
        rw [h3, hi2, harr, take_succ_set _ _ _ hi]
        simp [hg]
      · obtain ⟨hi2, harr⟩ := hno hc
        have hf : glyphChars (ch :: rest) = glyphChars rest := by
          simp only [glyphChars, List.filter_cons]
          have : decide (ch ≠ 10 ∧ ch ≠ 13) = false := by simpa using hc
          simp [this]
        rw [hf] at hlen ⊢
        obtain ⟨h1, h2, h3⟩ := ih st2 st1 h (by rw [hi2, harr]; exact hlen)
        rw [hi2, harr] at *
        exact ⟨h1, h2, h3⟩

theorem writeFont_glyphs {cfg : Config} {face : Face} {fuel : Nat} {id : List Nat}
    {characterSet : Option (List Nat)} {r : Run}
    (h : writeFont cfg face fuel id characterSet = some r) (h0 : r.ret = 0) :
    r.glyphs.map Glyph.index = effectiveSet cfg characterSet := by
  obtain ⟨found, imageHeight, st, -, -, hst, hr⟩ := writeFont_ok h h0
  subst hr
  obtain ⟨h1, h2⟩ := drawFor_codes _ _ _ _ _ _ _ _ _ hst (by simp [drawInit])
  have hlen : (effectiveSet cfg characterSet).length ≤ st.glyphArray.length := by
    rw [h1]; simp [drawInit]
  simp only [Run.glyphs]
  rw [glyphRecords_eq_take _ _ hlen]
  simpa [drawInit] using h2

theorem writeFontFromImage_glyphs {cfg : Config} {image : Option Image} {fontSize : Nat}
    {id characterSet : List Nat}
    (h0 : (writeFontFromImage cfg image fontSize id characterSet).ret = 0) :
    (writeFontFromImage cfg image fontSize id characterSet).glyphs.map Glyph.index =
      glyphChars characterSet := by
  obtain ⟨img, st, -, hst, hr⟩ := writeFontFromImage_ok h0
  rw [hr]
  have hle : (glyphChars characterSet).length ≤ characterSet.length :=
    List.length_filter_le _ _
  obtain ⟨h1, h2, h3⟩ := imageFor_codes _ _ _ _ _ _ _ _ _ hst (by simpa using hle)
  have hlen : st.glyphsCount ≤ st.glyphArray.length := by
    rw [h1, h2]; simpa using hle
  simp only [Run.glyphs]
  rw [glyphRecords_eq_take _ _ hlen]
  simpa using h3

theorem run_out_layout (cfg : Config) (ret : Int) (f : GpbFont) :
    (Run.mk ret (some f)).out cfg =
      some (gpbLayout cfg f.id f.family (27 + f.id.length) f.style f.size
        (Run.mk ret (some f)).glyphs f.textureWidth f.textureHeight
        (readBytes f.pixels f.textureSize)) := by
  simp only [Run.out, Option.map, writeGpb_bytes, Run.glyphs]

theorem gpbLayout_tail (cfg : Config) (id family : List Nat) (offset style size : Nat)
    (glyphs : List Glyph) (w h : Nat) (pixels : List Nat) :
    ∃ head, gpbLayout cfg id family offset style size glyphs w h pixels =
      head ++ uintField cfg w ++ uintField cfg h ++ uintField cfg pixels.length ++ pixels :=
  ⟨refTable cfg id offset ++ (strField cfg family ++ uintField cfg style ++ uintField cfg size ++
      strField cfg [] ++ uintField cfg glyphs.length ++ (glyphs.map (glyphBytes cfg)).flatten),
    by simp only [gpbLayout, fontRecord, List.append_assoc]⟩

/-- C2: in the file written by either encoder the Ref table has one entry,
with count 1, the given id and type 128, and the offset stored in it is
`27 + |id|`, which is the position at which the font record, that is the
length prefix of the family string, begins. -/
theorem ref_table_offset (cfg : Config) :
    (∀ (face : Face) (fuel : Nat) (id : List Nat) (characterSet : Option (List Nat)) (r : Run),
      writeFont cfg face fuel id characterSet = some r → r.ret = 0 →
      ∃ table rest,
        r.out cfg = some (table ++ (strField cfg face.family_name ++ rest)) ∧
        table = fileHeader cfg ++ gpbVersion cfg ++ uintField cfg 1 ++ strField cfg id ++
          uintField cfg 128 ++ uintField cfg (27 + id.length) ∧
        table.length = 27 + id.length) ∧
    (∀ (image : Option Image) (fontSize : Nat) (id characterSet : List Nat),
      (writeFontFromImage cfg image fontSize id characterSet).ret = 0 →
      ∃ table rest,
        (writeFontFromImage cfg image fontSize id characterSet).out cfg =
          some (table ++ (strField cfg id ++ rest)) ∧
        table = fileHeader cfg ++ gpbVersion cfg ++ uintField cfg 1 ++ strField cfg id ++
          uintField cfg 128 ++ uintField cfg (27 + id.length) ∧
        table.length = 27 + id.length) := by
  constructor
  · intro face fuel id characterSet r h h0
    obtain ⟨found, imageHeight, st, -, -, -, hr⟩ := writeFont_ok h h0
    subst hr
    rw [run_out_layout]
    refine ⟨refTable cfg id (27 + id.length), ?_⟩
    simp only [gpbLayout, fontRecord, List.append_assoc]
    exact ⟨_, rfl, by simp only [refTable, List.append_assoc], refTable_length cfg id _⟩
  · intro image fontSize id characterSet h0
    obtain ⟨img, st, -, -, hr⟩ := writeFontFromImage_ok h0
    rw [hr]
    rw [run_out_layout]
    refine ⟨refTable cfg id (27 + id.length), ?_⟩
    simp only [gpbLayout, fontRecord, List.append_assoc]
    exact ⟨_, rfl, by simp only [refTable, List.append_assoc], refTable_length cfg id _⟩

/-- Witness for C2: the successful sample runs. -/
theorem ref_table_offset_witness :
    (∃ r, writeFont sampleConfig sampleFace 8 [65, 66, 67] (some [65, 66]) = some r ∧ r.ret = 0 ∧
      ∃ table rest,
        r.out sampleConfig = some (table ++ (strField sampleConfig sampleFace.family_name ++ rest)) ∧
        table = fileHeader sampleConfig ++ gpbVersion sampleConfig ++ uintField sampleConfig 1 ++
          strField sampleConfig [65, 66, 67] ++ uintField sampleConfig 128 ++
          uintField sampleConfig (27 + 3) ∧
        table.length = 27 + 3) ∧
    (∃ table rest,
      (writeFontFromImage sampleConfig (some sampleImage) 1 [] [65]).out sampleConfig =
        some (table ++ (strField sampleConfig [] ++ rest)) ∧
      table = fileHeader sampleConfig ++ gpbVersion sampleConfig ++ uintField sampleConfig 1 ++
        strField sampleConfig [] ++ uintField sampleConfig 128 ++ uintField sampleConfig (27 + 0) ∧
      table.length = 27 + 0) := by
  have hs : (writeFont sampleConfig sampleFace 8 [65, 66, 67] (some [65, 66])).isSome = true := by decide
  obtain ⟨r, hr⟩ := Option.isSome_iff_exists.mp hs
  have h0 : r.ret = 0 := by
    have hm : (writeFont sampleConfig sampleFace 8 [65, 66, 67] (some [65, 66])).map Run.ret = some 0 := by
      decide
    rw [hr] at hm
    simpa using hm
  exact ⟨⟨r, hr, h0, (ref_table_offset sampleConfig).1 sampleFace 8 [65, 66, 67] (some [65, 66]) r hr h0⟩,
    (ref_table_offset sampleConfig).2 (some sampleImage) 1 [] [65] (by decide)⟩

/-- C3: the glyph count written equals the number of glyph records that
follow it, and the records are in the order of the character set.  For
`writeFont` the codes of the records are the characters of the set (the given
set when it is not empty); for `writeFontFromImage` they are the characters
of the set other than `'\n'` and `'\r'`, so their number is at most the length
of the set.  In `gpbLayout` the count field is `uint` of the number of the
records listed. -/
theorem glyph_count_and_order (cfg : Config) :
    (∀ (face : Face) (fuel : Nat) (id : List Nat) (characterSet : Option (List Nat)) (r : Run),
      writeFont cfg face fuel id characterSet = some r → r.ret = 0 →
      (∃ offset style size textureWidth textureHeight pixels,
        r.out cfg = some (gpbLayout cfg id face.family_name offset style size r.glyphs
          textureWidth textureHeight pixels)) ∧
      r.glyphs.length = (effectiveSet cfg characterSet).length ∧
      r.glyphs.map Glyph.index = effectiveSet cfg characterSet) ∧
    (∀ cs : List Nat, cs ≠ [] → effectiveSet cfg (some cs) = cs) ∧
    (∀ (image : Option Image) (fontSize : Nat) (id characterSet : List Nat),
      (writeFontFromImage cfg image fontSize id characterSet).ret = 0 →
      (∃ offset style size textureWidth textureHeight pixels,
        (writeFontFromImage cfg image fontSize id characterSet).out cfg =
          some (gpbLayout cfg id id offset style size
            (writeFontFromImage cfg image fontSize id characterSet).glyphs
            textureWidth textureHeight pixels)) ∧
      (writeFontFromImage cfg image fontSize id characterSet).glyphs.length =
        (characterSet.filter (fun ch => decide (ch ≠ 10 ∧ ch ≠ 13))).length ∧
      (writeFontFromImage cfg image fontSize id characterSet).glyphs.length ≤
        characterSet.length ∧
      (writeFontFromImage cfg image fontSize id characterSet).glyphs.map Glyph.index =
        characterSet.filter (fun ch => decide (ch ≠ 10 ∧ ch ≠ 13))) := by
  refine ⟨?_, ?_, ?_⟩
  · intro face fuel id characterSet r h h0
    have hg := writeFont_glyphs h h0
    have hl : r.glyphs.length = (effectiveSet cfg characterSet).length := by
      rw [← hg, List.length_map]
    refine ⟨?_, hl, hg⟩
    obtain ⟨found, imageHeight, st, -, -, -, hr⟩ := writeFont_ok h h0
    subst hr
    rw [run_out_layout]
    exact ⟨_, _, _, _, _, _, rfl⟩
  · intro cs hcs
    cases cs with
    | nil => exact absurd rfl hcs
    | cons a t => simp [effectiveSet]
  · intro image fontSize id characterSet h0
    have hg := writeFontFromImage_glyphs h0
    have hl : (writeFontFromImage cfg image fontSize id characterSet).glyphs.length =
        (glyphChars characterSet).length := by
      rw [← hg, List.length_map]
    refine ⟨?_, hl, ?_, hg⟩
    · obtain ⟨img, st, -, -, hr⟩ := writeFontFromImage_ok h0
      rw [hr, run_out_layout]
      exact ⟨_, _, _, _, _, _, rfl⟩
    · rw [hl]
      exact List.length_filter_le _ _

/-- Witness for C3: the successful sample runs; the set given to
`writeFontFromImage` holds a line feed and a carriage return. -/
theorem glyph_count_and_order_witness :
    (∃ r, writeFont sampleConfig sampleFace 8 [65] (some [66, 65, 66]) = some r ∧ r.ret = 0 ∧
      r.glyphs.map Glyph.index = [66, 65, 66]) ∧
    (writeFontFromImage sampleConfig (some sampleImage) 1 [65] [65, 13, 10, 66]).glyphs.map
      Glyph.index = [65, 66] := by
  have hs : (writeFont sampleConfig sampleFace 8 [65] (some [66, 65, 66])).isSome = true := by
    decide
  obtain ⟨r, hr⟩ := Option.isSome_iff_exists.mp hs
  have h0 : r.ret = 0 := by
    have hm : (writeFont sampleConfig sampleFace 8 [65] (some [66, 65, 66])).map Run.ret =
        some 0 := by decide
    rw [hr] at hm
    simpa using hm
  exact ⟨⟨r, hr, h0,
      ((glyph_count_and_order sampleConfig).1 sampleFace 8 [65] (some [66, 65, 66]) r hr h0).2.2⟩,
    ((glyph_count_and_order sampleConfig).2.2 (some sampleImage) 1 [65] [65, 13, 10, 66]
      (by decide)).2.2.2⟩

/-- Counterexample to C4: for an RGBA image of 32768 by 32768 pixels
`writeFontFromImage` succeeds and writes the dimensions 32768 and 32768, but
`width * height * 4` is `2^32`, which is 0 as an `unsigned int`: the byte
length written is 0 and no pixel byte follows it. -/
theorem texture_byte_length_wraps :
    (writeFontFromImage sampleConfig (some wideImage) 1 [65] [65]).ret = 0 ∧
    (writeFontFromImage sampleConfig (some wideImage) 1 [65] [65]).file.map
        (fun f => (f.textureWidth, f.textureHeight, f.textureSize)) =
      some (32768, 32768, 0) ∧
    ((writeFontFromImage sampleConfig (some wideImage) 1 [65] [65]).out sampleConfig).map
        (fun bytes => bytes.drop (bytes.length - 12)) =
      some (uintField sampleConfig 32768 ++ uintField sampleConfig 32768 ++
        uintField sampleConfig 0) ∧
    4 * wideImage.width * wideImage.height = 4294967296 ∧
    wideImage.data.length = 4 * wideImage.width * wideImage.height ∧
    (0 : Nat) ≠ 4 * wideImage.width * wideImage.height :=
  ⟨by decide, by decide, by decide, by decide, List.length_replicate _ _, by decide⟩

/-- C4, amended: in the file of a successful run the font record ends with
the `uint` texture width, the `uint` texture height, the `uint` byte length
and the pixel bytes, nothing else; the width and height are those that the
size search and the tightening loop of `writeFont` leave, resp. those of the
image; the byte length is the number of the pixel bytes that follow it, and
it is `textureWidth * textureHeight` for `writeFont` and
`4 * textureWidth * textureHeight` for `writeFontFromImage`, each modulo
`2^32`: the product itself whenever this is below `2^32`. -/
theorem texture_byte_length (cfg : Config) :
    (∀ (face : Face) (fuel : Nat) (id : List Nat) (characterSet : Option (List Nat)) (r : Run),
      writeFont cfg face fuel id characterSet = some r → r.ret = 0 →
      ∃ found imageHeight pixels,
        sizeSearch cfg face (effectiveSet cfg characterSet)
          (rowSizeOf cfg face (effectiveSet cfg characterSet)) fuel 2 = some found ∧
        tightenHeight found.penY (rowSizeOf cfg face (effectiveSet cfg characterSet)) fuel 1 =
          some imageHeight ∧
        r.file.map (fun f => (f.textureWidth, f.textureHeight, f.textureSize)) =
          some (found.imageWidth, imageHeight, pixels.length) ∧
        r.out cfg = some (refTable cfg id (27 + id.length) ++ strField cfg face.family_name ++
          uintField cfg 0 ++
          uintField cfg (rowSizeOf cfg face (effectiveSet cfg characterSet)).toNat ++
          strField cfg [] ++ uintField cfg r.glyphs.length ++
          (r.glyphs.map (glyphBytes cfg)).flatten ++
          uintField cfg found.imageWidth ++ uintField cfg imageHeight ++
          uintField cfg pixels.length ++ pixels) ∧
        pixels.length = found.imageWidth * imageHeight % 4294967296 ∧
        pixels.length < 4294967296 ∧
        (found.imageWidth * imageHeight < 4294967296 →
          pixels.length = found.imageWidth * imageHeight)) ∧
    (∀ (image : Option Image) (fontSize : Nat) (id characterSet : List Nat),
      (writeFontFromImage cfg image fontSize id characterSet).ret = 0 →
      ∃ img pixels, image = some img ∧
        (writeFontFromImage cfg image fontSize id characterSet).file.map
            (fun f => (f.textureWidth, f.textureHeight, f.textureSize)) =
          some (img.width, img.height, pixels.length) ∧
        (writeFontFromImage cfg image fontSize id characterSet).out cfg =
          some (refTable cfg id (27 + id.length) ++ strField cfg id ++ uintField cfg 5 ++
            uintField cfg fontSize ++ strField cfg [] ++
            uintField cfg (writeFontFromImage cfg image fontSize id characterSet).glyphs.length ++
            ((writeFontFromImage cfg image fontSize id characterSet).glyphs.map
              (glyphBytes cfg)).flatten ++
            uintField cfg img.width ++ uintField cfg img.height ++
            uintField cfg pixels.length ++ pixels) ∧
        pixels.length = 4 * img.width * img.height % 4294967296 ∧
        pixels.length < 4294967296 ∧
        (4 * img.width * img.height < 4294967296 →
          pixels.length = 4 * img.width * img.height)) := by
  constructor
  · intro face fuel id characterSet r h h0
    obtain ⟨found, imageHeight, st, hs, ht, -, hr⟩ := writeFont_ok h h0
    subst hr
    have hl : (readBytes st.imageBuffer (found.imageWidth * imageHeight % 4294967296)).length =
        found.imageWidth * imageHeight % 4294967296 := readBytes_length _ _
    refine ⟨found, imageHeight,
      readBytes st.imageBuffer (found.imageWidth * imageHeight % 4294967296), hs, ht, ?_, ?_,
      hl, ?_, ?_⟩
    · simp only [Option.map_some', hl]
    · rw [run_out_layout]
      simp only [gpbLayout, fontRecord, List.append_assoc]
    · rw [hl]
      exact Nat.mod_lt _ (by decide)
    · intro hlt
      rw [hl]
      exact Nat.mod_eq_of_lt hlt
  · intro image fontSize id characterSet h0
    obtain ⟨img, st, himg, -, hr⟩ := writeFontFromImage_ok h0
    have e : img.width * img.height * 4 = 4 * img.width * img.height := by ring
    have hl : (readBytes img.data (img.width * img.height * 4 % 4294967296)).length =
        4 * img.width * img.height % 4294967296 := by
      rw [readBytes_length, e]
    refine ⟨img, readBytes img.data (img.width * img.height * 4 % 4294967296), himg, ?_, ?_,
      hl, ?_, ?_⟩
    · rw [hr]
      simp only [Option.map_some', e, readBytes_length]
    · rw [hr, run_out_layout]
      simp only [gpbLayout, fontRecord, List.append_assoc]
    · rw [hl]
      exact Nat.mod_lt _ (by decide)
    · intro hlt
      rw [hl]
      exact Nat.mod_eq_of_lt hlt

/-- Witness for C4, amended: the successful sample runs, whose textures are
16 by 8 and 2 by 2 pixels. -/
theorem texture_byte_length_witness :
    (∃ r, writeFont sampleConfig sampleFace 8 [65] (some [65, 66]) = some r ∧ r.ret = 0 ∧
      ∃ (found : SearchResult) (imageHeight : Nat) (pixels : List Nat),
        r.file.map (fun f => (f.textureWidth, f.textureHeight, f.textureSize)) =
          some (found.imageWidth, imageHeight, pixels.length) ∧
        pixels.length = found.imageWidth * imageHeight % 4294967296) ∧
    (∃ (img : Image) (pixels : List Nat), some sampleImage = some img ∧
      (writeFontFromImage sampleConfig (some sampleImage) 1 [65] [65, 66]).file.map
          (fun f => (f.textureWidth, f.textureHeight, f.textureSize)) =
        some (img.width, img.height, pixels.length) ∧
      pixels.length = 4 * img.width * img.height) := by
  have hs : (writeFont sampleConfig sampleFace 8 [65] (some [65, 66])).isSome = true := by decide
  obtain ⟨r, hr⟩ := Option.isSome_iff_exists.mp hs
  have h0 : r.ret = 0 := by
    have hm : (writeFont sampleConfig sampleFace 8 [65] (some [65, 66])).map Run.ret = some 0 := by
      decide
    rw [hr] at hm
    simpa using hm
  obtain ⟨found, imageHeight, pixels, _, _, h3, _, h5, _⟩ :=
    (texture_byte_length sampleConfig).1 sampleFace 8 [65] (some [65, 66]) r hr h0
  obtain ⟨img, pixels2, himg, h2, _, h4, _, h6⟩ :=
    (texture_byte_length sampleConfig).2 (some sampleImage) 1 [65] [65, 66] (by decide)
  refine ⟨⟨r, hr, h0, found, imageHeight, pixels, h3, h5⟩, img, pixels2, himg, h2, ?_⟩
  apply h6
  have : img = sampleImage := by
    injection himg with himg
    exact himg.symm
  rw [this]
  decide

/-! ## Glyph codes -/

/-- Counterexample to C5: for the character set `AA` the run of `writeFont`
succeeds and writes two glyph records with the same code 65; likewise
`writeFontFromImage`. -/
theorem glyph_codes_repeat :
    (writeFont sampleConfig sampleFace 8 [65] (some [65, 65])).map
        (fun r => (r.ret, r.glyphs.map Glyph.index)) = some (0, [65, 65]) ∧
    (writeFontFromImage sampleConfig (some sampleImage) 1 [65] [65, 65]).ret = 0 ∧
    (writeFontFromImage sampleConfig (some sampleImage) 1 [65] [65, 65]).glyphs.map Glyph.index =
      [65, 65] ∧
    ¬ ([65, 65] : List Nat).Nodup := by
  refine ⟨by decide, by decide, by decide, by decide⟩

/-- C5, amended: the codes of the glyph records written are pairwise distinct
exactly when no character occurs twice in the character set (for
`writeFontFromImage`: among its characters other than `'\n'` and `'\r'`); in
particular they are pairwise distinct for every character set without
repeated characters. -/
theorem glyph_codes_distinct (cfg : Config) :
    (∀ (face : Face) (fuel : Nat) (id : List Nat) (characterSet : Option (List Nat)) (r : Run),
      writeFont cfg face fuel id characterSet = some r → r.ret = 0 →
      ((r.glyphs.map Glyph.index).Nodup ↔ (effectiveSet cfg characterSet).Nodup)) ∧
    (∀ (image : Option Image) (fontSize : Nat) (id characterSet : List Nat),
      (writeFontFromImage cfg image fontSize id characterSet).ret = 0 →
      (((writeFontFromImage cfg image fontSize id characterSet).glyphs.map Glyph.index).Nodup ↔
        (characterSet.filter (fun ch => decide (ch ≠ 10 ∧ ch ≠ 13))).Nodup)) := by
  constructor
  · intro face fuel id characterSet r h h0
    rw [writeFont_glyphs h h0]
  · intro image fontSize id characterSet h0
    rw [writeFontFromImage_glyphs h0, glyphChars]

/-- Witness for C5, amended: successful sample runs on the set `AB`. -/
theorem glyph_codes_distinct_witness :
    (∃ r, writeFont sampleConfig sampleFace 8 [65] (some [65, 66]) = some r ∧ r.ret = 0 ∧
      ((r.glyphs.map Glyph.index).Nodup ↔ (effectiveSet sampleConfig (some [65, 66])).Nodup)) ∧
    (((writeFontFromImage sampleConfig (some sampleImage) 1 [65] [65, 66]).glyphs.map
        Glyph.index).Nodup ↔
      (([65, 66] : List Nat).filter (fun ch => decide (ch ≠ 10 ∧ ch ≠ 13))).Nodup) := by
  have hs : (writeFont sampleConfig sampleFace 8 [65] (some [65, 66])).isSome = true := by decide
  obtain ⟨r, hr⟩ := Option.isSome_iff_exists.mp hs
  have h0 : r.ret = 0 := by
    have hm : (writeFont sampleConfig sampleFace 8 [65] (some [65, 66])).map Run.ret = some 0 := by
      decide
    rw [hr] at hm
    simpa using hm
  exact ⟨⟨r, hr, h0, (glyph_codes_distinct sampleConfig).1 sampleFace 8 [65] (some [65, 66]) r hr h0⟩,
    (glyph_codes_distinct sampleConfig).2 (some sampleImage) 1 [65] [65, 66] (by decide)⟩

/-- Counterexample to C6: for the character set `BA` the run of `writeFont`
succeeds and writes the codes 66, 65, which are not ascending. -/
theorem glyph_codes_descend :
    (writeFont sampleConfig sampleFace 8 [65] (some [66, 65])).map
        (fun r => (r.ret, r.glyphs.map Glyph.index)) = some (0, [66, 65]) ∧
    ¬ ([66, 65] : List Nat).Sorted (fun a b => a < b) := by
  refine ⟨by decide, by decide⟩

/-- C6, amended: `writeFont` stores the glyph codes in the order of the
character set; they are strictly ascending exactly when the character set is,
in particular for every strictly ascending character set. -/
theorem glyph_codes_ascending (cfg : Config) (face : Face) (fuel : Nat) (id : List Nat)
    (characterSet : Option (List Nat)) (r : Run)
    (h : writeFont cfg face fuel id characterSet = some r) (h0 : r.ret = 0) :
    r.glyphs.map Glyph.index = effectiveSet cfg characterSet ∧
    ((r.glyphs.map Glyph.index).Sorted (fun a b => a < b) ↔
      (effectiveSet cfg characterSet).Sorted (fun a b => a < b)) := by
  rw [writeFont_glyphs h h0]
  exact ⟨rfl, Iff.rfl⟩

/-- Witness for C6, amended: a successful sample run on the set `AB`. -/
theorem glyph_codes_ascending_witness :
    ∃ r, writeFont sampleConfig sampleFace 8 [65] (some [65, 66]) = some r ∧ r.ret = 0 ∧
      (r.glyphs.map Glyph.index).Sorted (fun a b => a < b) := by
  have hs : (writeFont sampleConfig sampleFace 8 [65] (some [65, 66])).isSome = true := by decide
  obtain ⟨r, hr⟩ := Option.isSome_iff_exists.mp hs
  have h0 : r.ret = 0 := by
    have hm : (writeFont sampleConfig sampleFace 8 [65] (some [65, 66])).map Run.ret = some 0 := by
      decide
    rw [hr] at hm
    simpa using hm
  exact ⟨r, hr, h0,
    (glyph_codes_ascending sampleConfig sampleFace 8 [65] (some [65, 66]) r hr h0).2.mpr
      (by decide)⟩

/-! ## Capacity overflow -/

theorem drawStep_pen {cfg : Config} {m : Nat → GlyphSlot} {afh rowSize : Int} {W H : Nat}
    {ch : Nat} {st st1 : DrawState} (h : drawStep cfg m afh rowSize W H ch st = some st1) :
    (st1.penX, st1.row) = packStep cfg m W (st.penX, st.row) ch := by
  unfold drawStep at h
  simp only [] at h
  unfold packStep
  split at h
  · rename_i hw
    split at h
    · cases h
    · cases h
      simp [drawGlyph, hw]
  · rename_i hw
    cases h
    simp [drawGlyph, hw]

theorem drawStep_none_of_exceeds {cfg : Config} {m : Nat → GlyphSlot} {afh rowSize : Int}
    {W H : Nat} {ch : Nat} {st : DrawState}
    (hw : st.penX + ((m ch).pitch + (cfg.GLYPH_PADDING : Int)) > (W : Int))
    (hh : (st.row + 1) * rowSize + rowSize > (H : Int)) :
    drawStep cfg m afh rowSize W H ch st = none := by
  unfold drawStep
  simp only []
  rw [if_pos hw, if_pos hh]

theorem drawFor_none_of_exceeds (cfg : Config) (m : Nat → GlyphSlot) (afh rowSize : Int)
    (W H : Nat) :
    ∀ (cs : List Nat) (st : DrawState) (k ch : Nat), cs[k]? = some ch →
      ((cs.take k).foldl (packStep cfg m W) (st.penX, st.row)).1 +
        ((m ch).pitch + (cfg.GLYPH_PADDING : Int)) > (W : Int) →
      (((cs.take k).foldl (packStep cfg m W) (st.penX, st.row)).2 + 1) * rowSize + rowSize >
        (H : Int) →
      drawFor cfg m afh rowSize W H cs st = none := by
  intro cs
  induction cs with
  | nil =>
    intro st k ch hk
    simp at hk
  | cons c rest ih =>
    intro st k ch hk hw hh
    rw [drawFor]
    cases k with
    | zero =>
      simp at hk
      subst hk
      simp at hw hh
      rw [drawStep_none_of_exceeds hw hh]
    | succ j =>
      cases hstep : drawStep cfg m afh rowSize W H c st with
      | none => rfl
      | some st2 =>
        simp only []
        have hp := drawStep_pen hstep
        simp only [List.getElem?_cons_succ] at hk
        simp only [List.take_succ_cons, List.foldl_cons] at hw hh
        rw [← hp] at hw hh
        exact ih st2 j ch hk hw hh

/-- C7: capacity overflow aborts the encode job: when, in the drawing loop of
`writeFont` run on the texture size that the search and the tightening of the
height have chosen, some character wraps to a new row with
`penY + rowSize > imageHeight`, then `writeFont` returns -1 and never opens
the output file. -/
theorem writeFont_capacity_overflow (cfg : Config) (face : Face) (fuel : Nat) (id : List Nat)
    (characterSet : Option (List Nat)) (found : SearchResult) (imageHeight k : Nat)
    (hs : sizeSearch cfg face (effectiveSet cfg characterSet)
      (rowSizeOf cfg face (effectiveSet cfg characterSet)) fuel 2 = some found)
    (ht : tightenHeight found.penY (rowSizeOf cfg face (effectiveSet cfg characterSet)) fuel 1 =
      some imageHeight)
    (hk : wrapExceeds cfg (face.load Pass.draw) (rowSizeOf cfg face (effectiveSet cfg characterSet))
      found.imageWidth imageHeight (effectiveSet cfg characterSet) k) :
    writeFont cfg face fuel id characterSet = some ⟨-1, none⟩ := by
  obtain ⟨ch, hch, hw, hh⟩ := hk
  have hd := drawFor_none_of_exceeds cfg (face.load Pass.draw)
    (fontHeightOf face (effectiveSet cfg characterSet))
    (rowSizeOf cfg face (effectiveSet cfg characterSet)) found.imageWidth imageHeight
    (effectiveSet cfg characterSet)
    (drawInit (effectiveSet cfg characterSet) found.imageWidth imageHeight) k ch hch hw hh
  unfold writeFont
  simp only []
  split
  · rfl
  split
  · rfl
  split
  · rfl
  split
  · rfl
  simp only [rowSizeOf, fontHeightOf, drawInit] at hs ht hd
  rw [hs]
  simp only []
  rw [ht]
  simp only []
  rw [hd]

/-- Witness for C7: with glyphs that are wider in the drawing pass than in
the search passes, the first character wraps beyond the image height. -/
theorem writeFont_capacity_overflow_witness :
    writeFont sampleConfig growingFace 8 [65] (some [65, 66]) = some ⟨-1, none⟩ :=
  writeFont_capacity_overflow sampleConfig growingFace 8 [65] (some [65, 66])
    ⟨8, 8, 8, 0, 0, 3⟩ 8 0 (by decide) (by decide) ⟨65, by decide, by decide, by decide⟩

/-! ## Failure of `writeFontFromImage` -/

theorem imageStep_y {cfg : Config} {data : List Nat} {width height charHeight bc : Nat}
    {ch : Nat} {st : ImageState} :
    (ch = 10 → st.y + charHeight ≥ height →
      imageStep cfg data width height charHeight bc ch st = none) ∧
    (ch = 10 → st.y + charHeight < height →
      ∃ st1, imageStep cfg data width height charHeight bc ch st = some st1 ∧
        st1.y = st.y + charHeight) ∧
    (ch ≠ 10 →
      ∃ st1, imageStep cfg data width height charHeight bc ch st = some st1 ∧ st1.y = st.y) := by
  unfold imageStep
  simp only []
  refine ⟨?_, ?_, ?_⟩
  · intro h10 hy
    rw [if_pos h10, if_pos hy]
  · intro h10 hy
    rw [if_pos h10, if_neg (by omega)]
    exact ⟨_, rfl, rfl⟩
  · intro h10
    rw [if_neg h10]
    split
    · exact ⟨_, rfl, rfl⟩
    · exact ⟨_, rfl, rfl⟩

theorem imageFor_none_iff (cfg : Config) (data : List Nat) (width height charHeight bc : Nat) :
    ∀ (cs : List Nat) (st : ImageState),
      imageFor cfg data width height charHeight bc cs st = none ↔
        (cs.count 10 ≥ 1 ∧ st.y + cs.count 10 * charHeight ≥ height) := by
  intro cs
  induction cs with
  | nil =>
    intro st
    simp [imageFor]
  | cons ch rest ih =>
    intro st
    rw [imageFor]
    obtain ⟨hfail, hpass, hother⟩ :=
      @imageStep_y cfg data width height charHeight bc ch st
    by_cases h10 : ch = 10
    · have hcount : (ch :: rest).count 10 = rest.count 10 + 1 := by
        rw [h10]; simp
      rw [hcount]
      by_cases hy : st.y + charHeight ≥ height
      · rw [hfail h10 hy]
        simp only [true_iff]
        refine ⟨by omega, ?_⟩
        have e : (rest.count 10 + 1) * charHeight = rest.count 10 * charHeight + charHeight := by
          ring
        rw [e]
        omega
      · obtain ⟨st1, hst1, hy1⟩ := hpass h10 (by omega)
        rw [hst1]
        simp only []
        rw [ih st1, hy1]
        have e : st.y + (rest.count 10 + 1) * charHeight =
            st.y + charHeight + rest.count 10 * charHeight := by ring
        rw [e]
        constructor
        · intro ⟨h1, h2⟩
          exact ⟨by omega, h2⟩
        · intro ⟨_, h2⟩
          refine ⟨?_, h2⟩
          by_contra hc
          have hz : rest.count 10 = 0 := by omega
          rw [hz] at h2
          omega
    · have hcount : (ch :: rest).count 10 = rest.count 10 := by
        simp [List.count_cons, h10]
      obtain ⟨st1, hst1, hy1⟩ := hother h10
      rw [hst1, hcount]
      simp only []
      rw [ih st1, hy1]

/-- C8: `writeFontFromImage` returns -1, without opening the output file,
exactly when the image fails to load, or the glyph array cannot be allocated,
or the image is not RGBA with four bytes to a pixel, or the character set
holds `n ≥ 1` line feeds with `n * fontSize` at least the image height; in
every other case it returns 0. -/
theorem writeFontFromImage_failure (cfg : Config) (image : Option Image) (fontSize : Nat)
    (id characterSet : List Nat) :
    (((writeFontFromImage cfg image fontSize id characterSet).ret = -1 ∧
        (writeFontFromImage cfg image fontSize id characterSet).file = none) ↔
      imageEncodeFails cfg image fontSize characterSet) ∧
    (¬ imageEncodeFails cfg image fontSize characterSet →
      (writeFontFromImage cfg image fontSize id characterSet).ret = 0) := by
  unfold writeFontFromImage imageEncodeFails
  cases image with
  | none => simp
  | some img =>
    simp only []
    by_cases hc : cfg.callocOk characterSet.length = false
    · simp [hc]
    · by_cases hf : img.format ≠ Format.RGBA ∨ img.bpp ≠ 4
      · rw [if_neg hc, if_pos hf]
        simp [hf]
      · rw [if_neg hc, if_neg hf]
        cases hloop : imageFor cfg img.data img.width img.height fontSize
            (pixelAt cfg img.data 0 &&& 0x00ffffff) characterSet
            ⟨0, 0, 0, 0, 0, List.replicate characterSet.length Glyph.zero⟩ with
        | none =>
          have hn := (imageFor_none_iff _ _ _ _ _ _ _ _).mp hloop
          simp only [Nat.zero_add] at hn
          simp [hn]
        | some st =>
          have hn : ¬ (characterSet.count 10 ≥ 1 ∧
              characterSet.count 10 * fontSize ≥ img.height) := by
            intro hcon
            have hnone := (imageFor_none_iff cfg img.data img.width img.height fontSize
              (pixelAt cfg img.data 0 &&& 0x00ffffff) characterSet
              ⟨0, 0, 0, 0, 0, List.replicate characterSet.length Glyph.zero⟩).mpr
              (by simpa using hcon)
            rw [hloop] at hnone
            cases hnone
          have hc2 : cfg.callocOk characterSet.length = true := by
            cases hcv : cfg.callocOk characterSet.length
            · exact absurd hcv hc
            · rfl
          constructor
          · constructor
            · intro hret
              simp at hret
            · intro hfail
              rcases hfail with h1 | h1 | ⟨i, hi, h1⟩ | ⟨i, hi, h1⟩
              · cases h1
              · rw [hc2] at h1; cases h1
              · cases hi; exact absurd h1 hf
              · cases hi; exact absurd h1 hn
          · intro _
            rfl

/-! ## Termination of the size search -/

theorem measureLoop_snd_ge (m : Nat → GlyphSlot) :
    ∀ (cs : List Nat) (a r : Int), r ≤ (measureLoop m cs a r).2 := by
  intro cs
  induction cs with
  | nil => intro a r; simp [measureLoop]
  | cons ch rest ih =>
    intro a r
    rw [measureLoop]
    refine le_trans ?_ (ih _ _)
    split <;> omega

theorem rowSizeOf_nonneg (cfg : Config) (face : Face) (cs : List Nat) :
    0 ≤ rowSizeOf cfg face cs := by
  have h := measureLoop_snd_ge (face.load Pass.measure) cs 0 0
  unfold rowSizeOf
  omega

theorem searchStep_row {cfg : Config} {m : Nat → GlyphSlot} {rowSize : Int} {W H : Nat}
    {ch : Nat} {pen : Pen} :
    ((searchStep cfg m rowSize W H ch pen).2 = true →
      (pen.row + 1) * rowSize + rowSize > (H : Int)) ∧
    ((searchStep cfg m rowSize W H ch pen).1.row = pen.row ∨
      (searchStep cfg m rowSize W H ch pen).1.row = pen.row + 1) := by
  unfold searchStep
  simp only []
  split
  · split
    · rename_i hh
      exact ⟨fun _ => hh, Or.inr rfl⟩
    · exact ⟨fun hb => by simp at hb, Or.inr rfl⟩
  · exact ⟨fun hb => by simp at hb, Or.inl rfl⟩

theorem searchFor_flags (cfg : Config) (m : Nat → GlyphSlot) (rowSize : Int) (W H : Nat) :
    ∀ (cs : List Nat) (pen : Pen) (found : Bool),
      ((searchFor cfg m rowSize W H cs pen found).broke = true →
        (searchFor cfg m rowSize W H cs pen found).textureSizeFound = found) ∧
      ((searchFor cfg m rowSize W H cs pen found).broke = false → cs ≠ [] →
        (searchFor cfg m rowSize W H cs pen found).textureSizeFound = true) := by
  intro cs
  induction cs with
  | nil => intro pen found; simp [searchFor]
  | cons ch rest ih =>
    intro pen found
    rw [searchFor]
    split
    · simp
    · rename_i pen2 hstep
      simp only []
      cases rest with
      | nil => simp [searchFor]
      | cons c2 rest2 =>
        have h := ih pen2 found
        simp only [List.length_cons, Nat.add_one_ne_zero, if_false] at h ⊢
        exact ⟨h.1, fun hb _ => h.2 hb (by simp)⟩

theorem searchFor_noBreak (cfg : Config) (m : Nat → GlyphSlot) (rowSize : Int) (W H : Nat)
    (hrow : 0 ≤ rowSize) :
    ∀ (cs : List Nat) (pen : Pen) (found : Bool),
      (pen.row + (cs.length : Int) + 1) * rowSize ≤ (H : Int) →
      (searchFor cfg m rowSize W H cs pen found).broke = false := by
  intro cs
  induction cs with
  | nil => intro pen found _; simp [searchFor]
  | cons ch rest ih =>
    intro pen found hH
    rw [searchFor]
    obtain ⟨hb, hr⟩ := @searchStep_row cfg m rowSize W H ch pen
    simp only [List.length_cons, Nat.cast_add, Nat.cast_one] at hH
    have hn : (0 : Int) ≤ (rest.length : Int) := Int.natCast_nonneg _
    split
    · rename_i pen2 hstep
      rw [hstep] at hb
      have hgt := hb rfl
      exfalso
      nlinarith [mul_nonneg hn hrow]
    · rename_i pen2 hstep
      rw [hstep] at hr
      simp only [] at hr ⊢
      apply ih
      rcases hr with hr | hr
      · rw [hr]; nlinarith
      · rw [hr]; nlinarith

theorem sizeSearch_mono (cfg : Config) (face : Face) (cs : List Nat) (rowSize : Int) :
    ∀ (fuel p : Nat) (r : SearchResult), sizeSearch cfg face cs rowSize fuel p = some r →
      ∀ more, sizeSearch cfg face cs rowSize (fuel + more) p = some r := by
  intro fuel
  induction fuel with
  | zero => intro p r h; simp [sizeSearch] at h
  | succ f ih =>
    intro p r h more
    have e : f + 1 + more = (f + more) + 1 := by omega
    rw [e]
    rw [sizeSearch] at h ⊢
    split
    · rename_i hfound
      rw [if_pos hfound] at h
      exact h
    · rename_i hfound
      rw [if_neg hfound] at h
      exact ih _ _ h more

theorem sizeSearch_some (cfg : Config) (face : Face) (cs : List Nat) (rowSize : Int)
    (hne : cs ≠ []) (hrow : 0 ≤ rowSize) :
    ∀ (d p fuel : Nat), (((cs.length : Int) + 1) * rowSize).toNat ≤ p + d → d < fuel →
      ∃ r, sizeSearch cfg face cs rowSize fuel p = some r := by
  intro d
  induction d with
  | zero =>
    intro p fuel hB hfuel
    obtain ⟨f, rfl⟩ : ∃ f, fuel = f + 1 := ⟨fuel - 1, by omega⟩
    rw [sizeSearch]
    have hp : p < 2 ^ p := Nat.lt_two_pow p
    have hH : ((0 : Int) + (cs.length : Int) + 1) * rowSize ≤ ((2 ^ p : Nat) : Int) := by
      have h1 : ((cs.length : Int) + 1) * rowSize ≤
          (((((cs.length : Int) + 1) * rowSize).toNat : Nat) : Int) := Int.self_le_toNat _
      have h2 : (((((cs.length : Int) + 1) * rowSize).toNat : Nat) : Int) ≤ ((2 ^ p : Nat) : Int) := by
        exact_mod_cast (by omega : (((cs.length : Int) + 1) * rowSize).toNat ≤ 2 ^ p)
      simp only [zero_add]
      exact le_trans h1 h2
    have hnb := searchFor_noBreak cfg (face.load (Pass.search p)) rowSize (2 ^ p) (2 ^ p) hrow cs
      ⟨0, 0, 0⟩ false hH
    have hfound := (searchFor_flags cfg (face.load (Pass.search p)) rowSize (2 ^ p) (2 ^ p) cs
      ⟨0, 0, 0⟩ false).2 hnb hne
    rw [if_pos hfound]
    exact ⟨_, rfl⟩
  | succ d ih =>
    intro p fuel hB hfuel
    obtain ⟨f, rfl⟩ : ∃ f, fuel = f + 1 := ⟨fuel - 1, by omega⟩
    rw [sizeSearch]
    split
    · exact ⟨_, rfl⟩
    · rename_i hnf
      have hflags := searchFor_flags cfg (face.load (Pass.search p)) rowSize (2 ^ p) (2 ^ p) cs
        ⟨0, 0, 0⟩ false
      have hbroke : (searchFor cfg (face.load (Pass.search p)) rowSize (2 ^ p) (2 ^ p) cs
          ⟨0, 0, 0⟩ false).broke = true := by
        cases hb : (searchFor cfg (face.load (Pass.search p)) rowSize (2 ^ p) (2 ^ p) cs
          ⟨0, 0, 0⟩ false).broke
        · exact absurd (hflags.2 hb hne) hnf
        · rfl
      rw [if_pos hbroke]
      exact ih (p + 1) f (by omega) (by omega)

theorem tightenHeight_some (penY rowSize : Int) :
    ∀ (d p fuel : Nat), (penY + rowSize).toNat < p + d → d < fuel →
      ∃ h, tightenHeight penY rowSize fuel p = some h := by
  intro d
  induction d with
  | zero =>
    intro p fuel hV hfuel
    obtain ⟨f, rfl⟩ : ∃ f, fuel = f + 1 := ⟨fuel - 1, by omega⟩
    rw [tightenHeight]
    have hp : p < 2 ^ p := Nat.lt_two_pow p
    have hlt : ¬ (penY + rowSize ≥ ((2 ^ p : Nat) : Int)) := by
      intro hge
      have h1 : ((2 ^ p : Nat) : Int) ≤ (((penY + rowSize).toNat : Nat) : Int) :=
        le_trans hge (Int.self_le_toNat _)
      have h2 : 2 ^ p ≤ (penY + rowSize).toNat := by exact_mod_cast h1
      omega
    rw [if_neg hlt]
    exact ⟨_, rfl⟩
  | succ d ih =>
    intro p fuel hV hfuel
    obtain ⟨f, rfl⟩ : ∃ f, fuel = f + 1 := ⟨fuel - 1, by omega⟩
    rw [tightenHeight]
    split
    · exact ih (p + 1) f (by omega) (by omega)
    · exact ⟨_, rfl⟩

theorem searchFor_found_of_large (cfg : Config) (m : Nat → GlyphSlot) (cs : List Nat)
    (rowSize : Int) (hne : cs ≠ []) (hrow : 0 ≤ rowSize) (p : Nat)
    (hp : (((cs.length : Int) + 1) * rowSize).toNat ≤ p) :
    (searchFor cfg m rowSize (2 ^ p) (2 ^ p) cs ⟨0, 0, 0⟩ false).textureSizeFound = true := by
  have hlt : p < 2 ^ p := Nat.lt_two_pow p
  have hH : ((0 : Int) + (cs.length : Int) + 1) * rowSize ≤ ((2 ^ p : Nat) : Int) := by
    have h1 : ((cs.length : Int) + 1) * rowSize ≤
        (((((cs.length : Int) + 1) * rowSize).toNat : Nat) : Int) := Int.self_le_toNat _
    have h2 : (((((cs.length : Int) + 1) * rowSize).toNat : Nat) : Int) ≤ ((2 ^ p : Nat) : Int) := by
      exact_mod_cast (by omega : (((cs.length : Int) + 1) * rowSize).toNat ≤ 2 ^ p)
    simp only [zero_add]
    exact le_trans h1 h2
  have hnb := searchFor_noBreak cfg m rowSize (2 ^ p) (2 ^ p) hrow cs ⟨0, 0, 0⟩ false hH
  exact (searchFor_flags cfg m rowSize (2 ^ p) (2 ^ p) cs ⟨0, 0, 0⟩ false).2 hnb hne

theorem writeFont_some_of_loops {cfg : Config} {face : Face} {fuel : Nat} (id : List Nat)
    {characterSet : Option (List Nat)} {found : SearchResult} {imageHeight : Nat}
    (hs : sizeSearch cfg face (effectiveSet cfg characterSet)
      (rowSizeOf cfg face (effectiveSet cfg characterSet)) fuel 2 = some found)
    (ht : tightenHeight found.penY (rowSizeOf cfg face (effectiveSet cfg characterSet)) fuel 1 =
      some imageHeight) :
    ∃ r, writeFont cfg face fuel id characterSet = some r := by
  unfold writeFont
  simp only []
  split
  · exact ⟨_, rfl⟩
  split
  · exact ⟨_, rfl⟩
  split
  · exact ⟨_, rfl⟩
  split
  · exact ⟨_, rfl⟩
  simp only [rowSizeOf] at hs ht
  rw [hs]
  simp only []
  rw [ht]
  simp only []
  split
  · exact ⟨_, rfl⟩
  · exact ⟨_, rfl⟩

/-- C9: the texture-size search of `writeFont` terminates.  For every
non-empty character set and all glyph metrics (non-negative or not, a single
enormous glyph included), with unbounded image dimensions: each pass of the
loop `while (textureSizeFound == false)` either sets `textureSizeFound` or
takes the `break` that increments `powerOf2`; every large enough power
succeeds; and with enough iterations allowed both the search loop and the loop
`for (;;)` that tightens the height exit, so that `writeFont` returns. -/
theorem size_search_terminates (cfg : Config) (face : Face) (characterSet : Option (List Nat))
    (hne : effectiveSet cfg characterSet ≠ []) :
    (∀ p : Nat,
      (searchFor cfg (face.load (Pass.search p))
        (rowSizeOf cfg face (effectiveSet cfg characterSet)) (2 ^ p) (2 ^ p)
        (effectiveSet cfg characterSet) ⟨0, 0, 0⟩ false).textureSizeFound =
      !(searchFor cfg (face.load (Pass.search p))
        (rowSizeOf cfg face (effectiveSet cfg characterSet)) (2 ^ p) (2 ^ p)
        (effectiveSet cfg characterSet) ⟨0, 0, 0⟩ false).broke) ∧
    (∃ P : Nat, ∀ p : Nat, P ≤ p →
      (searchFor cfg (face.load (Pass.search p))
        (rowSizeOf cfg face (effectiveSet cfg characterSet)) (2 ^ p) (2 ^ p)
        (effectiveSet cfg characterSet) ⟨0, 0, 0⟩ false).textureSizeFound = true) ∧
    (∃ N : Nat, ∀ fuel : Nat, N ≤ fuel →
      ∃ found imageHeight,
        sizeSearch cfg face (effectiveSet cfg characterSet)
          (rowSizeOf cfg face (effectiveSet cfg characterSet)) fuel 2 = some found ∧
        tightenHeight found.penY (rowSizeOf cfg face (effectiveSet cfg characterSet)) fuel 1 =
          some imageHeight ∧
        ∀ id, ∃ r, writeFont cfg face fuel id characterSet = some r) := by
  have hrow := rowSizeOf_nonneg cfg face (effectiveSet cfg characterSet)
  refine ⟨?_, ?_, ?_⟩
  · intro p
    have hflags := searchFor_flags cfg (face.load (Pass.search p))
      (rowSizeOf cfg face (effectiveSet cfg characterSet)) (2 ^ p) (2 ^ p)
      (effectiveSet cfg characterSet) ⟨0, 0, 0⟩ false
    cases hb : (searchFor cfg (face.load (Pass.search p))
      (rowSizeOf cfg face (effectiveSet cfg characterSet)) (2 ^ p) (2 ^ p)
      (effectiveSet cfg characterSet) ⟨0, 0, 0⟩ false).broke
    · rw [hflags.2 hb hne]; rfl
    · rw [hflags.1 hb]; rfl
  · exact ⟨_, fun p hp => searchFor_found_of_large cfg _ _ _ hne hrow p hp⟩
  · obtain ⟨found, hfound⟩ := sizeSearch_some cfg face (effectiveSet cfg characterSet)
      (rowSizeOf cfg face (effectiveSet cfg characterSet)) hne hrow
      ((((effectiveSet cfg characterSet).length : Int) + 1) *
        rowSizeOf cfg face (effectiveSet cfg characterSet)).toNat 2
      (((((effectiveSet cfg characterSet).length : Int) + 1) *
        rowSizeOf cfg face (effectiveSet cfg characterSet)).toNat + 1) (by omega) (by omega)
    refine ⟨max (((((effectiveSet cfg characterSet).length : Int) + 1) *
        rowSizeOf cfg face (effectiveSet cfg characterSet)).toNat + 1)
      ((found.penY + rowSizeOf cfg face (effectiveSet cfg characterSet)).toNat + 1), ?_⟩
    intro fuel hfuel
    have hf1 : ((((effectiveSet cfg characterSet).length : Int) + 1) *
        rowSizeOf cfg face (effectiveSet cfg characterSet)).toNat + 1 ≤ fuel :=
      le_trans (le_max_left _ _) hfuel
    have hf2 : (found.penY + rowSizeOf cfg face (effectiveSet cfg characterSet)).toNat + 1 ≤
        fuel := le_trans (le_max_right _ _) hfuel
    have hs : sizeSearch cfg face (effectiveSet cfg characterSet)
        (rowSizeOf cfg face (effectiveSet cfg characterSet)) fuel 2 = some found := by
      have hm := sizeSearch_mono cfg face _ _ _ _ _ hfound
        (fuel - (((((effectiveSet cfg characterSet).length : Int) + 1) *
          rowSizeOf cfg face (effectiveSet cfg characterSet)).toNat + 1))
      rwa [Nat.add_sub_cancel' hf1] at hm
    obtain ⟨imageHeight, ht⟩ := tightenHeight_some found.penY
      (rowSizeOf cfg face (effectiveSet cfg characterSet))
      (found.penY + rowSizeOf cfg face (effectiveSet cfg characterSet)).toNat 1 fuel
      (by omega) (by omega)
    exact ⟨found, imageHeight, hs, ht, fun id => writeFont_some_of_loops id hs ht⟩

/-- Witness for C9: a character set of one enormous glyph. -/
theorem size_search_terminates_witness :
    ∃ N : Nat, ∀ fuel : Nat, N ≤ fuel →
      ∃ found imageHeight,
        sizeSearch sampleConfig hugeGlyphFace (effectiveSet sampleConfig (some [65]))
          (rowSizeOf sampleConfig hugeGlyphFace (effectiveSet sampleConfig (some [65]))) fuel 2 =
            some found ∧
        tightenHeight found.penY
          (rowSizeOf sampleConfig hugeGlyphFace (effectiveSet sampleConfig (some [65]))) fuel 1 =
            some imageHeight ∧
        ∀ id, ∃ r, writeFont sampleConfig hugeGlyphFace fuel id (some [65]) = some r :=
  (size_search_terminates sampleConfig hugeGlyphFace (some [65]) (by decide)).2.2

/-! ## Atlas rectangles -/

/-- C10, evaluated at a failing input: for a character set of one long dash
(100 pixels wide, 8 rows, padding 4) `writeFont` succeeds with a texture of
32 by 32 pixels and writes a glyph record of width 100 at `penX = 0`, whose
`uvCoords[2]` is `100 / 32`: the rectangle does not lie inside the texture. -/
theorem atlas_rectangle_outside_texture :
    (writeFont sampleConfig dashFace 8 [65] (some [8212])).map
        (fun r => (r.ret, r.glyphs,
          r.file.map (fun f => (f.textureWidth, f.textureHeight)))) =
      some (0, [⟨8212, 100, ⟨0, 32⟩, ⟨12, 32⟩, ⟨100, 32⟩, ⟨24, 32⟩⟩], some (32, 32)) ∧
    ¬ ((0 : Int) + 100 ≤ 32) := by
  refine ⟨by decide, by decide⟩

/-! ## The tightening of the height -/

/-- C11, evaluated at a failing input: for a character set of one glyph
10 pixels wide and 12 rows high (padding 4, so `rowSize = 16`) the size search
stops at the square of side 16, in which the one row fits exactly, and the
step `Try further to find a tighter texture size` then sets `imageHeight` to
32: the final height exceeds the side of the square. -/
theorem tightening_grows_height :
    sizeSearch sampleConfig exactFitFace [65] 16 8 2 = some ⟨16, 16, 14, 0, 0, 4⟩ ∧
    rowSizeOf sampleConfig exactFitFace [65] = 16 ∧
    tightenHeight 0 16 8 1 = some 32 ∧
    (writeFont sampleConfig exactFitFace 8 [65] (some [65])).map
        (fun r => (r.ret, r.file.map (fun f => (f.textureWidth, f.textureHeight)))) =
      some (0, some (16, 32)) ∧
    ¬ (32 ≤ 16) := by
  refine ⟨by decide, by decide, by decide, by decide, by decide⟩

/-! ## `Font::Justify` and `Font::Style` -/

/-- C12: `Font::Justify` is a 9-way bitmask of one horizontal and one vertical
flag.  The nine combined values are, in order, the bitwise OR of each of
`ALIGN_LEFT`, `ALIGN_HCENTER`, `ALIGN_RIGHT` with each of `ALIGN_TOP`,
`ALIGN_VCENTER`, `ALIGN_BOTTOM`; every combined value is the OR of exactly one
pair of flags; the nine values are pairwise distinct; and `v & 0x0F` and
`v & 0xF0` give back the horizontal and the vertical flag of `v`. -/
theorem justify_bitmask :
    combinedJustify =
      horizontalFlags.flatMap (fun h => verticalFlags.map (fun v => v ||| h)) ∧
    (∀ c ∈ combinedJustify, ∀ h1 ∈ horizontalFlags, ∀ v1 ∈ verticalFlags,
      ∀ h2 ∈ horizontalFlags, ∀ v2 ∈ verticalFlags,
        c = v1 ||| h1 → c = v2 ||| h2 → h1 = h2 ∧ v1 = v2) ∧
    combinedJustify.Nodup ∧
    (∀ h ∈ horizontalFlags, ∀ v ∈ verticalFlags,
      (v ||| h) ∈ combinedJustify ∧ (v ||| h) &&& 0x0F = h ∧ (v ||| h) &&& 0xF0 = v) ∧
    (∀ c ∈ combinedJustify, c &&& 0x0F ∈ horizontalFlags ∧ c &&& 0xF0 ∈ verticalFlags ∧
      c = (c &&& 0xF0) ||| (c &&& 0x0F)) := by
  refine ⟨by decide, by decide, by decide, by decide, by decide⟩

/-- C13: the style field written by the encoder is a value of `Font::Style`:
`writeFont` always writes 0, which is `Font::PLAIN`, and `writeFontFromImage`
always writes 5, which is `Font::TEXTURED`, whatever the inputs.  The style
is the second `uint` of the font record of `gpbLayout`. -/
theorem style_field_written (cfg : Config) :
    (∀ (face : Face) (fuel : Nat) (id : List Nat) (characterSet : Option (List Nat)) (r : Run),
      writeFont cfg face fuel id characterSet = some r → r.ret = 0 →
      ∃ offset size glyphs textureWidth textureHeight pixels,
        r.out cfg = some (gpbLayout cfg id face.family_name offset Style.PLAIN.val size glyphs
          textureWidth textureHeight pixels)) ∧
    (∀ (image : Option Image) (fontSize : Nat) (id characterSet : List Nat),
      (writeFontFromImage cfg image fontSize id characterSet).ret = 0 →
      ∃ offset size glyphs textureWidth textureHeight pixels,
        (writeFontFromImage cfg image fontSize id characterSet).out cfg =
          some (gpbLayout cfg id id offset Style.TEXTURED.val size glyphs textureWidth
            textureHeight pixels)) ∧
    Style.PLAIN.val = 0 ∧ Style.TEXTURED.val = 5 := by
  refine ⟨?_, ?_, rfl, rfl⟩
  · intro face fuel id characterSet r h h0
    obtain ⟨found, imageHeight, st, -, -, -, hr⟩ := writeFont_ok h h0
    subst hr
    rw [run_out_layout]
    exact ⟨_, _, _, _, _, _, rfl⟩
  · intro image fontSize id characterSet h0
    obtain ⟨img, st, -, -, hr⟩ := writeFontFromImage_ok h0
    rw [hr, run_out_layout]
    exact ⟨_, _, _, _, _, _, rfl⟩

/-- Witness for C13: the successful sample runs. -/
theorem style_field_written_witness :
    (∃ r, writeFont sampleConfig sampleFace 8 [65] (some [65, 66]) = some r ∧ r.ret = 0 ∧
      ∃ offset size glyphs textureWidth textureHeight pixels,
        r.out sampleConfig = some (gpbLayout sampleConfig [65] sampleFace.family_name offset
          Style.PLAIN.val size glyphs textureWidth textureHeight pixels)) ∧
    (∃ offset size glyphs textureWidth textureHeight pixels,
      (writeFontFromImage sampleConfig (some sampleImage) 1 [65] [65, 66]).out sampleConfig =
        some (gpbLayout sampleConfig [65] [65] offset Style.TEXTURED.val size glyphs
          textureWidth textureHeight pixels)) := by
  have hs : (writeFont sampleConfig sampleFace 8 [65] (some [65, 66])).isSome = true := by decide
  obtain ⟨r, hr⟩ := Option.isSome_iff_exists.mp hs
  have h0 : r.ret = 0 := by
    have hm : (writeFont sampleConfig sampleFace 8 [65] (some [65, 66])).map Run.ret = some 0 := by
      decide
    rw [hr] at hm
    simpa using hm
  exact ⟨⟨r, hr, h0, (style_field_written sampleConfig).1 sampleFace 8 [65] (some [65, 66]) r hr h0⟩,
    (style_field_written sampleConfig).2.1 (some sampleImage) 1 [65] [65, 66] (by decide)⟩

/-! ## `writeUint` and `writeString` -/

theorem uintBytes_inj (b : Bool) (m n : Nat) (hm : m < 4294967296) (hn : n < 4294967296)
    (h : uintBytes b m = uintBytes b n) : m = n := by
  unfold uintBytes at h
  cases b
  · simp only [Bool.false_eq_true, if_false, List.cons.injEq, and_true] at h
    omega
  · simp only [if_true, List.reverse_cons, List.reverse_nil, List.nil_append, List.cons_append,
      List.cons.injEq, and_true] at h
    omega

theorem append_inj_of_length {α : Type} (a b c d : List α) (hl : a.length = c.length)
    (h : a ++ b = c ++ d) : a = c ∧ b = d :=
  List.append_inj h hl

/-- C20: for every string `s` with `|s| < 2^32`, `writeString` appends exactly
`4 + |s|` bytes: the four bytes of `|s|` in native order, then the bytes of
`s`, with no terminator and no padding (for the empty string the four bytes
of `uint 0` alone).  Hence the encoding is uniquely decodable: when
`writeString(s1)` followed by `r1` and `writeString(s2)` followed by `r2` are
the same bytes, then `s1 = s2` and `r1 = r2`. -/
theorem writeString_encoding (cfg : Config) :
    (∀ (fp : FILE) (s : List Nat), s.length < 4294967296 →
      (writeString cfg fp s).bytes = fp.bytes ++ (uintBytes cfg.bigEndian s.length ++ s) ∧
      (writeString cfg fp s).bytes.length = fp.bytes.length + (4 + s.length) ∧
      (uintBytes cfg.bigEndian s.length).length = 4) ∧
    (∀ fp : FILE, (writeString cfg fp []).bytes = fp.bytes ++ uintBytes cfg.bigEndian 0) ∧
    (∀ s1 s2 r1 r2 : List Nat, s1.length < 4294967296 → s2.length < 4294967296 →
      (writeString cfg fopen s1).bytes ++ r1 = (writeString cfg fopen s2).bytes ++ r2 →
      s1 = s2 ∧ r1 = r2) := by
  refine ⟨?_, ?_, ?_⟩
  · intro fp s _
    have hb := writeString_bytes cfg fp s
    simp only [strField, uintField] at hb
    refine ⟨hb, ?_, uintBytes_length _ _⟩
    rw [hb]
    simp [uintBytes_length]
  · intro fp
    have hb := writeString_bytes cfg fp []
    simpa [strField, uintField] using hb
  · intro s1 s2 r1 r2 h1 h2 h
    rw [writeString_bytes, writeString_bytes] at h
    simp only [strField, uintField, fopen, List.nil_append, List.append_assoc] at h
    obtain ⟨hlen, hrest⟩ := append_inj_of_length _ _ _ _
      (by rw [uintBytes_length, uintBytes_length]) h
    have hl : s1.length = s2.length := uintBytes_inj _ _ _ h1 h2 hlen
    exact append_inj_of_length _ _ _ _ hl hrest

/-- Witness for C20: a string of two bytes and the empty string. -/
theorem writeString_encoding_witness :
    ((writeString sampleConfig fopen [72, 105]).bytes =
        fopen.bytes ++ (uintBytes sampleConfig.bigEndian 2 ++ [72, 105]) ∧
      (writeString sampleConfig fopen [72, 105]).bytes.length = fopen.bytes.length + (4 + 2) ∧
      (uintBytes sampleConfig.bigEndian 2).length = 4) ∧
    (([72, 105] : List Nat) = [72, 105] ∧ ([1] : List Nat) = [1]) :=
  ⟨(writeString_encoding sampleConfig).1 fopen [72, 105] (by decide),
    (writeString_encoding sampleConfig).2.2 [72, 105] [72, 105] [1] [1] (by decide) (by decide)
      rfl⟩

/-! ## Properties of all glyph records written -/

theorem drawFor_forall (cfg : Config) (m : Nat → GlyphSlot) (afh rowSize : Int) (W H : Nat)
    (P : Glyph → Prop)
    (hstep : ∀ (ch : Nat) (st st1 : DrawState), drawStep cfg m afh rowSize W H ch st = some st1 →
      ∃ g, P g ∧ st1.i = st.i + 1 ∧ st1.glyphArray = st.glyphArray.set st.i g) :
    ∀ (cs : List Nat) (st st1 : DrawState),
      drawFor cfg m afh rowSize W H cs st = some st1 →
      st.i + cs.length ≤ st.glyphArray.length →
      (∀ g ∈ st.glyphArray.take st.i, P g) →
      ∀ g ∈ st1.glyphArray.take (st.i + cs.length), P g := by
  intro cs
  induction cs with
  | nil =>
    intro st st1 h _ hP
    simp [drawFor] at h
    subst h
    simpa using hP
  | cons ch rest ih =>
    intro st st1 h hlen hP
    rw [drawFor] at h
    split at h
    · cases h
    · rename_i st2 hst2
      obtain ⟨g, hg, hi2, harr⟩ := hstep ch st st2 hst2
      simp only [List.length_cons] at hlen
      have hi : st.i < st.glyphArray.length := by omega
      have hl2 : st2.glyphArray.length = st.glyphArray.length := by simp [harr]
      have e : st.i + (rest.length + 1) = st2.i + rest.length := by omega
      simp only [List.length_cons]
      rw [e]
      apply ih st2 st1 h (by omega)
      rw [hi2, harr, take_succ_set _ _ _ hi]
      intro x hx
      rcases List.mem_append.mp hx with hx | hx
      · exact hP x hx
      · simp at hx
        rw [hx]
        exact hg

theorem imageFor_forall (cfg : Config) (data : List Nat) (width height charHeight bc : Nat)
    (P : Glyph → Prop)
    (hstep : ∀ (ch : Nat) (st st1 : ImageState),
      imageStep cfg data width height charHeight bc ch st = some st1 →
      (st1.glyphsCount = st.glyphsCount ∧ st1.glyphArray = st.glyphArray) ∨
      ∃ g, P g ∧ st1.glyphsCount = st.glyphsCount + 1 ∧
        st1.glyphArray = st.glyphArray.set st.glyphsCount g) :
    ∀ (cs : List Nat) (st st1 : ImageState),
      imageFor cfg data width height charHeight bc cs st = some st1 →
      st.glyphsCount + (glyphChars cs).length ≤ st.glyphArray.length →
      (∀ g ∈ st.glyphArray.take st.glyphsCount, P g) →
      ∀ g ∈ st1.glyphArray.take st1.glyphsCount, P g := by
  intro cs
  induction cs with
  | nil =>
    intro st st1 h _ hP
    simp [imageFor] at h
    subst h
    exact hP
  | cons ch rest ih =>
    intro st st1 h hlen hP
    rw [imageFor] at h
    split at h
    · cases h
    · rename_i st2 hst2
      obtain ⟨hyes, hno⟩ := imageStep_array hst2
      by_cases hc : ch ≠ 10 ∧ ch ≠ 13
      · have hf : glyphChars (ch :: rest) = ch :: glyphChars rest := by
          simp [glyphChars, List.filter_cons, hc.1, hc.2]
        rw [hf] at hlen
        simp only [List.length_cons] at hlen
        have hi : st.glyphsCount < st.glyphArray.length := by omega
        rcases hstep ch st st2 hst2 with ⟨hsame, -⟩ | ⟨g, hg, hi2, harr⟩
        · have := (hyes hc).1
          omega
        · have hl2 : st2.glyphArray.length = st.glyphArray.length := by simp [harr]
          apply ih st2 st1 h (by omega)
          rw [hi2, harr, take_succ_set _ _ _ hi]
          intro x hx
          rcases List.mem_append.mp hx with hx | hx
          · exact hP x hx
          · simp at hx
            rw [hx]
            exact hg
      · obtain ⟨hi2, harr⟩ := hno hc
        have hf : glyphChars (ch :: rest) = glyphChars rest := by
          simp only [glyphChars, List.filter_cons]
          have : decide (ch ≠ 10 ∧ ch ≠ 13) = false := by simpa using hc
          simp [this]
        rw [hf] at hlen
        apply ih st2 st1 h (by rw [hi2, harr]; exact hlen)
        rw [hi2, harr]
        exact hP

theorem sizeSearch_pow (cfg : Config) (face : Face) (cs : List Nat) (rowSize : Int) :
    ∀ (fuel p : Nat) (r : SearchResult), sizeSearch cfg face cs rowSize fuel p = some r →
      ∃ q, r.imageWidth = 2 ^ q ∧ r.imageHeight = 2 ^ q := by
  intro fuel
  induction fuel with
  | zero => intro p r h; simp [sizeSearch] at h
  | succ f ih =>
    intro p r h
    rw [sizeSearch] at h
    split at h
    · cases h
      exact ⟨p, rfl, rfl⟩
    · exact ih _ _ h

theorem tightenHeight_pow (penY rowSize : Int) :
    ∀ (fuel p h : Nat), tightenHeight penY rowSize fuel p = some h → ∃ q, h = 2 ^ q := by
  intro fuel
  induction fuel with
  | zero => intro p h hh; simp [tightenHeight] at hh
  | succ f ih =>
    intro p h hh
    rw [tightenHeight] at hh
    split at hh
    · exact ih _ _ hh
    · cases hh
      exact ⟨p, rfl⟩

theorem drawStep_cell {cfg : Config} {m : Nat → GlyphSlot} {afh rowSize : Int} {W H : Nat}
    (ch : Nat) (st st1 : DrawState) (h : drawStep cfg m afh rowSize W H ch st = some st1) :
    ∃ g, cellConsistent W H rowSize g ∧ st1.i = st.i + 1 ∧
      st1.glyphArray = st.glyphArray.set st.i g := by
  unfold drawStep at h
  simp only [] at h
  split at h
  · split at h
    · cases h
    · cases h
      refine ⟨_, ?_, rfl, rfl⟩
      unfold cellConsistent
      refine ⟨rfl, rfl, ?_, rfl, rfl, ?_⟩
      · dsimp only; ring
      · dsimp only; ring
  · cases h
    refine ⟨_, ?_, rfl, rfl⟩
    unfold cellConsistent
    refine ⟨rfl, rfl, ?_, rfl, rfl, ?_⟩
    · dsimp only; ring
    · dsimp only; ring

theorem imageStep_cell {cfg : Config} {data : List Nat} {width height charHeight bc : Nat}
    (ch : Nat) (st st1 : ImageState)
    (h : imageStep cfg data width height charHeight bc ch st = some st1) :
    (st1.glyphsCount = st.glyphsCount ∧ st1.glyphArray = st.glyphArray) ∨
    ∃ g, cellConsistent width height charHeight g ∧ st1.glyphsCount = st.glyphsCount + 1 ∧
      st1.glyphArray = st.glyphArray.set st.glyphsCount g := by
  unfold imageStep at h
  simp only [] at h
  split at h
  · split at h
    · cases h
    · cases h
      exact Or.inl ⟨rfl, rfl⟩
  · split at h
    · cases h
      refine Or.inr ⟨_, ?_, rfl, rfl⟩
      unfold cellConsistent
      refine ⟨rfl, rfl, ?_, rfl, rfl, ?_⟩
      · dsimp only; push_cast; ring
      · dsimp only; push_cast; ring
    · cases h
      exact Or.inl ⟨rfl, rfl⟩

theorem cellConsistent_val {W H size : Int} {g : Glyph} (h : cellConsistent W H size g)
    (hW : W ≠ 0) (hH : H ≠ 0) :
    (g.uv2.val - g.uv0.val) * (W : ℚ) = (g.width : ℚ) ∧
    (g.uv3.val - g.uv1.val) * (H : ℚ) = (size : ℚ) := by
  obtain ⟨h0, h2, hw, h1, h3, hs⟩ := h
  have hWq : (W : ℚ) ≠ 0 := by exact_mod_cast hW
  have hHq : (H : ℚ) ≠ 0 := by exact_mod_cast hH
  unfold Frac.val
  rw [h0, h2, h1, h3, ← hw, ← hs]
  constructor
  · field_simp
  · field_simp

/-- C19: width, texture coordinates and size are consistent for every glyph
record written by either encoder, over exact rationals: `(u1 - u0) *
textureWidth` is the width field of the record and `(v1 - v0) *
textureHeight` is the size field of the font record, which is `rowSize` for
`writeFont` and `fontSize` for `writeFontFromImage`.  The coordinates are
fractions over the texture dimensions; for `writeFontFromImage` these are the
dimensions of the image, and the quotients are taken for an image of positive
width and height. -/
theorem uv_width_size_consistent (cfg : Config) :
    (∀ (face : Face) (fuel : Nat) (id : List Nat) (characterSet : Option (List Nat)) (r : Run),
      writeFont cfg face fuel id characterSet = some r → r.ret = 0 →
      ∃ f, r.file = some f ∧
        (f.size : Int) = rowSizeOf cfg face (effectiveSet cfg characterSet) ∧
        ∀ g ∈ r.glyphs,
          (g.uv2.val - g.uv0.val) * (f.textureWidth : ℚ) = (g.width : ℚ) ∧
          (g.uv3.val - g.uv1.val) * (f.textureHeight : ℚ) = (f.size : ℚ)) ∧
    (∀ (image : Option Image) (fontSize : Nat) (id characterSet : List Nat),
      (writeFontFromImage cfg image fontSize id characterSet).ret = 0 →
      ∃ img f, image = some img ∧
        (writeFontFromImage cfg image fontSize id characterSet).file = some f ∧
        f.size = fontSize ∧ f.textureWidth = img.width ∧ f.textureHeight = img.height ∧
        ∀ g ∈ (writeFontFromImage cfg image fontSize id characterSet).glyphs,
          cellConsistent img.width img.height fontSize g ∧
          (0 < img.width → 0 < img.height →
            (g.uv2.val - g.uv0.val) * (f.textureWidth : ℚ) = (g.width : ℚ) ∧
            (g.uv3.val - g.uv1.val) * (f.textureHeight : ℚ) = (f.size : ℚ))) := by
  constructor
  · intro face fuel id characterSet r h h0
    obtain ⟨found, imageHeight, st, hs, ht, hst, hr⟩ := writeFont_ok h h0
    subst hr
    have hrow := rowSizeOf_nonneg cfg face (effectiveSet cfg characterSet)
    refine ⟨_, rfl, Int.toNat_of_nonneg hrow, ?_⟩
    obtain ⟨q1, hq1, -⟩ := sizeSearch_pow _ _ _ _ _ _ _ hs
    obtain ⟨q2, hq2⟩ := tightenHeight_pow _ _ _ _ _ ht
    have hW : ((found.imageWidth : Nat) : Int) ≠ 0 := by
      rw [hq1]; exact_mod_cast (pow_ne_zero q1 (by decide : (2 : Nat) ≠ 0))
    have hH : ((imageHeight : Nat) : Int) ≠ 0 := by
      rw [hq2]; exact_mod_cast (pow_ne_zero q2 (by decide : (2 : Nat) ≠ 0))
    obtain ⟨hlenarr, -⟩ := drawFor_codes _ _ _ _ _ _ _ _ _ hst (by simp [drawInit])
    have hlen : (effectiveSet cfg characterSet).length ≤ st.glyphArray.length := by
      rw [hlenarr]; simp [drawInit]
    have hall := drawFor_forall cfg (face.load Pass.draw)
      (fontHeightOf face (effectiveSet cfg characterSet))
      (rowSizeOf cfg face (effectiveSet cfg characterSet)) found.imageWidth imageHeight
      (cellConsistent found.imageWidth imageHeight
        (rowSizeOf cfg face (effectiveSet cfg characterSet)))
      (fun ch st st1 hstep => drawStep_cell ch st st1 hstep)
      _ _ _ hst (by simp [drawInit]) (by simp [drawInit])
    intro g hg
    simp only [Run.glyphs] at hg
    rw [glyphRecords_eq_take _ _ hlen] at hg
    have hcell := hall g (by simpa [drawInit] using hg)
    obtain ⟨hw, hv⟩ := cellConsistent_val hcell hW hH
    refine ⟨by exact_mod_cast hw, ?_⟩
    have hsz : (((rowSizeOf cfg face (effectiveSet cfg characterSet)).toNat : Nat) : ℚ) =
        ((rowSizeOf cfg face (effectiveSet cfg characterSet) : Int) : ℚ) := by
      exact_mod_cast congrArg (fun z : Int => (z : ℚ)) (Int.toNat_of_nonneg hrow)
    rw [hsz]
    exact_mod_cast hv
  · intro image fontSize id characterSet h0
    obtain ⟨img, st, himg, hst, hr⟩ := writeFontFromImage_ok h0
    rw [hr]
    refine ⟨img, _, himg, rfl, rfl, rfl, rfl, ?_⟩
    have hle : (glyphChars characterSet).length ≤ characterSet.length :=
      List.length_filter_le _ _
    obtain ⟨h1, h2, -⟩ := imageFor_codes _ _ _ _ _ _ _ _ _ hst (by simpa using hle)
    have hlen : st.glyphsCount ≤ st.glyphArray.length := by
      rw [h1, h2]; simpa using hle
    have hall := imageFor_forall cfg img.data img.width img.height fontSize
      (pixelAt cfg img.data 0 &&& 0x00ffffff) (cellConsistent img.width img.height fontSize)
      (fun ch st st1 hstep => imageStep_cell ch st st1 hstep)
      _ _ _ hst (by simpa using hle) (by simp)
    intro g hg
    simp only [Run.glyphs] at hg
    rw [glyphRecords_eq_take _ _ hlen] at hg
    have hcell := hall g hg
    refine ⟨hcell, ?_⟩
    intro hw hh
    have hW : ((img.width : Nat) : Int) ≠ 0 := by exact_mod_cast (Nat.pos_iff_ne_zero.mp hw)
    have hH : ((img.height : Nat) : Int) ≠ 0 := by exact_mod_cast (Nat.pos_iff_ne_zero.mp hh)
    obtain ⟨hwv, hv⟩ := cellConsistent_val hcell hW hH
    exact ⟨by exact_mod_cast hwv, by exact_mod_cast hv⟩

/-- Witness for C19: the successful sample runs; the sample image is two by
two pixels. -/
theorem uv_width_size_consistent_witness :
    (∃ r, writeFont sampleConfig sampleFace 8 [65] (some [65, 66]) = some r ∧ r.ret = 0 ∧
      ∃ f, r.file = some f ∧
        (f.size : Int) = rowSizeOf sampleConfig sampleFace (effectiveSet sampleConfig (some [65, 66])) ∧
        ∀ g ∈ r.glyphs,
          (g.uv2.val - g.uv0.val) * (f.textureWidth : ℚ) = (g.width : ℚ) ∧
          (g.uv3.val - g.uv1.val) * (f.textureHeight : ℚ) = (f.size : ℚ)) ∧
    (∃ f, (writeFontFromImage sampleConfig (some sampleImage) 1 [65] [65, 66]).file = some f ∧
      ∀ g ∈ (writeFontFromImage sampleConfig (some sampleImage) 1 [65] [65, 66]).glyphs,
        (g.uv2.val - g.uv0.val) * (f.textureWidth : ℚ) = (g.width : ℚ) ∧
        (g.uv3.val - g.uv1.val) * (f.textureHeight : ℚ) = (f.size : ℚ)) := by
  have hs : (writeFont sampleConfig sampleFace 8 [65] (some [65, 66])).isSome = true := by decide
  obtain ⟨r, hr⟩ := Option.isSome_iff_exists.mp hs
  have h0 : r.ret = 0 := by
    have hm : (writeFont sampleConfig sampleFace 8 [65] (some [65, 66])).map Run.ret = some 0 := by
      decide
    rw [hr] at hm
    simpa using hm
  refine ⟨⟨r, hr, h0,
    (uv_width_size_consistent sampleConfig).1 sampleFace 8 [65] (some [65, 66]) r hr h0⟩, ?_⟩
  obtain ⟨img, f, himg, hf, -, -, -, hall⟩ :=
    (uv_width_size_consistent sampleConfig).2 (some sampleImage) 1 [65] [65, 66] (by decide)
  have himg2 : img = sampleImage := by
    cases himg
    rfl
  subst himg2
  exact ⟨f, hf, fun g hg => (hall g hg).2 (by decide) (by decide)⟩

/-! ## The closest size -/

theorem closerSize_cases (size : Int) (best next : GlyphAtlas) :
    (closerSize size best next = best ∨ closerSize size best next = next) ∧
    |((closerSize size best next).nativeSize : Int) - size| ≤ |(best.nativeSize : Int) - size| ∧
    |((closerSize size best next).nativeSize : Int) - size| ≤ |(next.nativeSize : Int) - size| ∧
    (|(best.nativeSize : Int) - size| = |((closerSize size best next).nativeSize : Int) - size| →
      best.nativeSize ≤ (closerSize size best next).nativeSize) ∧
    (|(next.nativeSize : Int) - size| = |((closerSize size best next).nativeSize : Int) - size| →
      next.nativeSize ≤ (closerSize size best next).nativeSize) := by
  unfold closerSize
  split
  · rename_i h
    refine ⟨Or.inr rfl, ?_, le_refl _, ?_, fun _ => le_refl _⟩
    · rcases h with h | h
      · exact le_of_lt h
      · exact le_of_eq h.1
    · intro he
      rcases h with h | h
      · omega
      · exact le_of_lt h.2
  · rename_i h
    push_neg at h
    refine ⟨Or.inl rfl, le_refl _, h.1, fun _ => le_refl _, ?_⟩
    intro he
    exact h.2 he

theorem findClosestSize_spec (size : Int) :
    ∀ (sizes : List GlyphAtlas) (font : GlyphAtlas),
      findClosestSize font sizes size ∈ font :: sizes ∧
      (∀ b ∈ font :: sizes,
        |((findClosestSize font sizes size).nativeSize : Int) - size| ≤
          |(b.nativeSize : Int) - size|) ∧
      (∀ b ∈ font :: sizes,
        |(b.nativeSize : Int) - size| =
            |((findClosestSize font sizes size).nativeSize : Int) - size| →
          b.nativeSize ≤ (findClosestSize font sizes size).nativeSize) := by
  intro sizes
  induction sizes with
  | nil =>
    intro font
    simp [findClosestSize]
  | cons a rest ih =>
    intro font
    have hstep := closerSize_cases size font a
    obtain ⟨hmem, hmin, htie⟩ := ih (closerSize size font a)
    have hfold : findClosestSize font (a :: rest) size =
        findClosestSize (closerSize size font a) rest size := by
      simp [findClosestSize]
    rw [hfold]
    obtain ⟨hc, hle1, hle2, ht1, ht2⟩ := hstep
    refine ⟨?_, ?_, ?_⟩
    · rcases List.mem_cons.mp hmem with h | h
      · rw [h]
        rcases hc with hc | hc
        · rw [hc]; simp
        · rw [hc]; simp
      · simp [h]
    · intro b hb
      have hbest := hmin (closerSize size font a) (by simp)
      rcases List.mem_cons.mp hb with h | h
      · rw [h]; exact le_trans hbest hle1
      · rcases List.mem_cons.mp h with h | h
        · rw [h]; exact le_trans hbest hle2
        · exact hmin b (by simp [h])
    · intro b hb he
      have hbest := hmin (closerSize size font a) (by simp)
      have htb := htie (closerSize size font a) (by simp)
      rcases List.mem_cons.mp hb with h | h
      · rw [h] at he ⊢
        have e1 : |(font.nativeSize : Int) - size| =
            |((closerSize size font a).nativeSize : Int) - size| :=
          le_antisymm (by rw [he]; exact hbest) hle1
        exact le_trans (ht1 e1) (htb (by rw [← e1, he]))
      · rcases List.mem_cons.mp h with h | h
        · rw [h] at he ⊢
          have e1 : |(a.nativeSize : Int) - size| =
              |((closerSize size font a).nativeSize : Int) - size| :=
            le_antisymm (by rw [he]; exact hbest) hle2
          exact le_trans (ht2 e1) (htb (by rw [← e1, he]))
        · exact htie b (by simp [h]) he

/-- C14: for every font with at least one loaded size (the font itself, with
any further sizes) and every requested pixel size, `findClosestSize` returns
an atlas of the family whose native size has minimal absolute difference to
the request, and of the atlases as near it returns one of the largest native
size; with native sizes 16, 24, 32 and request 20 it returns the atlas of
size 24. -/
theorem findClosestSize_minimal (font : GlyphAtlas) (sizes : List GlyphAtlas) (size : Int) :
    findClosestSize font sizes size ∈ font :: sizes ∧
    (∀ b ∈ font :: sizes,
      |((findClosestSize font sizes size).nativeSize : Int) - size| ≤
        |(b.nativeSize : Int) - size|) ∧
    (∀ b ∈ font :: sizes,
      |(b.nativeSize : Int) - size| =
          |((findClosestSize font sizes size).nativeSize : Int) - size| →
        b.nativeSize ≤ (findClosestSize font sizes size).nativeSize) ∧
    (findClosestSize (atlasOfSize 16) [atlasOfSize 24, atlasOfSize 32] 20).nativeSize = 24 ∧
    (findClosestSize (atlasOfSize 32) [atlasOfSize 24, atlasOfSize 16] 20).nativeSize = 24 := by
  obtain ⟨h1, h2, h3⟩ := findClosestSize_spec size sizes font
  refine ⟨h1, h2, h3, ?_, ?_⟩
  · simp [findClosestSize, closerSize, atlasOfSize]
  · simp [findClosestSize, closerSize, atlasOfSize]

/-! ## Text layout -/

theorem lineWalk_lines_nowrap (atlas : GlyphAtlas) (size tabStop areaWidth : ℚ) :
    ∀ (text : List Nat) (penX : ℚ) (line : Nat) (tokenStart : Bool),
      (lineWalk atlas size tabStop false areaWidth text penX line tokenStart).2 =
        line + text.count 10 := by
  intro text
  induction text with
  | nil => intro penX line tokenStart; simp [lineWalk]
  | cons ch rest ih =>
    intro penX line tokenStart
    rw [lineWalk]
    split
    · rename_i h10
      simp only [ih, h10, List.count_cons_self]
      omega
    · rename_i h10
      have hc : (ch :: rest).count 10 = rest.count 10 := by
        simp [List.count_cons, h10]
      split
      · simp only [ih, hc]
      · simp only [ih, hc, Bool.false_and, Bool.false_eq_true, if_false]

/-- C17: for every non-empty string measured with `wrap = false`, the number
of lines of the measurer, the length of `lineLengths`, is the number of
newline characters of the string plus 1. -/
theorem measure_line_count (family : FontFamily) (text : List Nat) (options : LayoutOptions)
    (hne : text ≠ []) (hwrap : options.wrap = false) :
    (lineLengths family text options).length = text.count 10 + 1 := by
  have hlen : text.length ≠ 0 := by
    intro h
    exact hne (List.length_eq_zero.mp h)
  simp only [lineLengths, measureLines, hwrap, List.length_map, List.length_range, if_neg hlen,
    lineWalk_lines_nowrap]
  omega

/-- Witness for C17: the text `A`, newline, `B`, measured without wrap, has
two lines. -/
theorem measure_line_count_witness :
    (lineLengths (scenarioFamily (1 / 8)) [65, 10, 66] scenarioOptions).length =
      ([65, 10, 66] : List Nat).count 10 + 1 :=
  measure_line_count (scenarioFamily (1 / 8)) [65, 10, 66] scenarioOptions (by decide) rfl

theorem scenario_selectAtlas (s : ℚ) :
    selectAtlas (scenarioFamily s) scenarioOptions.drawSize = scenarioAtlas s := by
  simp [selectAtlas, scenarioFamily, scenarioOptions, findClosestSize]

theorem scenario_measureLines (s : ℚ) :
    measureLines (scenarioFamily s) [65, 66] scenarioOptions =
      ([⟨65, 0, 0, 10 + s * 20⟩, ⟨66, 0, 10 + s * 20, 12 + s * 20⟩], 1) := by
  simp only [measureLines, scenario_selectAtlas]
  simp [lineWalk, charAdvance, getGlyphByCode, scenarioAtlas, layoutScale, List.find?,
    effectiveSize, scenarioOptions]

theorem scenario_layout_eval (s : ℚ) :
    layout (scenarioFamily s) [65, 66] scenarioOptions =
      [⟨0, 0, 10, 20, 0, 0, 1 / 10, 1 / 10⟩,
        ⟨10 + s * 20, 0, 12, 20, 1 / 10, 0, 2 / 10, 1 / 10⟩] := by
  simp only [layout, scenario_measureLines, scenario_selectAtlas]
  simp [quadOf, getGlyphByCode, scenarioAtlas, List.find?, placedPosition, lineStartX,
    blockStartY, scenarioOptions, ALIGN_TOP_LEFT, ALIGN_TOP, ALIGN_LEFT, ALIGN_HCENTER,
    ALIGN_RIGHT, ALIGN_VCENTER, ALIGN_BOTTOM, layoutScale, effectiveSize,
    (by decide : (17 : Nat) &&& 15 = 1), (by decide : (17 : Nat) &&& 240 = 16)]

/-- Counterexample to C18: with the default character spacing 0.125 the
layout of `AB` in the scenario puts the second quad at `x = 12.5`, not at
`x = 10`: the pen advance after `A` is `(10 + 0.125 * 20) * 1`. -/
theorem scenario_second_quad_default_spacing :
    (layout (scenarioFamily (1 / 8)) [65, 66] scenarioOptions).map (fun q => (q.x, q.width)) =
      [(0, 10), (25 / 2, 12)] ∧
    (25 / 2 : ℚ) ≠ 10 := by
  constructor
  · rw [scenario_layout_eval]
    norm_num
  · norm_num

/-- C18, amended: with an atlas holding `A` (width 10, uv [0, 0, 0.1, 0.1])
and `B` (width 12, uv [0.1, 0, 0.2, 0.1]) at native size 20 and character
spacing `s`, laying out `AB` at draw size 20 in the area `(0, 0, 100, 50)`
with `ALIGN_TOP_LEFT` and no wrap yields exactly two quads, the first at
`x = 0` with width 10 and the second at `x = 10 + 20 s` with width 12, the
pen advance after `A` being `(10 + s * 20) * 1`: the second quad is at
`x = 12.5` for the default spacing 0.125 and at `x = 10` exactly for the
spacing 0. -/
theorem scenario_two_quads (s : ℚ) :
    layout (scenarioFamily s) [65, 66] scenarioOptions =
      [⟨0, 0, 10, 20, 0, 0, 1 / 10, 1 / 10⟩,
        ⟨10 + s * 20, 0, 12, 20, 1 / 10, 0, 2 / 10, 1 / 10⟩] ∧
    charAdvance (scenarioAtlas s) 20 65 = (10 + s * 20) * 1 ∧
    ((10 + s * 20 : ℚ) = 10 ↔ s = 0) ∧
    (10 + (1 / 8 : ℚ) * 20 = 25 / 2) := by
  refine ⟨scenario_layout_eval s, ?_, ?_, by norm_num⟩
  · simp [charAdvance, getGlyphByCode, scenarioAtlas, List.find?, layoutScale]
  · constructor
    · intro h
      linarith
    · intro h
      rw [h]
      norm_num

theorem locationDistance_nonneg (a b : ℚ × ℚ) : 0 ≤ locationDistance a b := by
  unfold locationDistance
  exact add_nonneg (abs_nonneg _) (abs_nonneg _)

theorem locationDistance_eq_zero {a b : ℚ × ℚ} (h : locationDistance a b = 0) : a = b := by
  unfold locationDistance at h
  have h1 : |a.1 - b.1| = 0 := by
    have := abs_nonneg (a.1 - b.1)
    have := abs_nonneg (a.2 - b.2)
    linarith
  have h2 : |a.2 - b.2| = 0 := by
    have := abs_nonneg (a.1 - b.1)
    linarith
  have e1 : a.1 = b.1 := by
    have := abs_eq_zero.mp h1
    linarith
  have e2 : a.2 = b.2 := by
    have := abs_eq_zero.mp h2
    linarith
  exact Prod.ext e1 e2

theorem locationDistance_self (a : ℚ × ℚ) : locationDistance a a = 0 := by
  simp [locationDistance]

theorem nearestIndex_none (target : ℚ × ℚ) :
    ∀ (l : List (ℚ × ℚ)) (k : Nat), nearestIndex target l k = none → l = [] := by
  intro l
  cases l with
  | nil => intro k _; rfl
  | cons loc rest =>
    intro k h
    rw [nearestIndex] at h
    split at h
    · cases h
    · split at h <;> cases h

theorem nearestIndex_spec (target : ℚ × ℚ) :
    ∀ (l : List (ℚ × ℚ)) (k j : Nat) (d : ℚ), nearestIndex target l k = some (j, d) →
      (∃ (m : Nat) (x : ℚ × ℚ), l[m]? = some x ∧ j = k + m ∧ locationDistance x target = d) ∧
      (∀ (n : Nat) (x : ℚ × ℚ), l[n]? = some x → d ≤ locationDistance x target) := by
  intro l
  induction l with
  | nil => intro k j d h; simp [nearestIndex] at h
  | cons loc rest ih =>
    intro k j d h
    rw [nearestIndex] at h
    split at h
    · rename_i hnone
      have hrest := nearestIndex_none target rest (k + 1) hnone
      subst hrest
      simp only [Option.some.injEq, Prod.mk.injEq] at h
      obtain ⟨hj, hd⟩ := h
      refine ⟨⟨0, loc, by simp, by omega, hd⟩, ?_⟩
      intro n x hx
      cases n with
      | zero =>
        simp at hx
        rw [← hx, hd]
      | succ n => simp at hx
    · rename_i j1 d1 hsome
      obtain ⟨⟨m, x, hm, hjm, hdx⟩, hmin⟩ := ih (k + 1) j1 d1 hsome
      split at h
      · rename_i hle
        simp only [Option.some.injEq, Prod.mk.injEq] at h
        obtain ⟨hj, hd⟩ := h
        refine ⟨⟨0, loc, by simp, by omega, hd⟩, ?_⟩
        intro n x1 hx
        cases n with
        | zero =>
          simp at hx
          rw [← hx, hd]
        | succ n =>
          simp at hx
          rw [← hd]
          exact le_trans hle (hmin n x1 hx)
      · rename_i hgt
        simp only [Option.some.injEq, Prod.mk.injEq] at h
        obtain ⟨hj, hd⟩ := h
        subst hj hd
        refine ⟨⟨m + 1, x, by simpa using hm, by omega, hdx⟩, ?_⟩
        intro n x1 hx
        cases n with
        | zero =>
          simp at hx
          rw [← hx]
          exact le_of_lt (not_le.mp hgt)
        | succ n =>
          simp at hx
          exact hmin n x1 hx

theorem nearestIndex_unique (l : List (ℚ × ℚ)) (i : Nat) (loc : ℚ × ℚ)
    (hi : l[i]? = some loc) (huniq : ∀ j, l[j]? = some loc → j = i) :
    (nearestIndex loc l 0).map (fun r => r.1) = some i := by
  cases hn : nearestIndex loc l 0 with
  | none =>
    have := nearestIndex_none loc l 0 hn
    subst this
    simp at hi
  | some r =>
    obtain ⟨j, d⟩ := r
    obtain ⟨⟨m, x, hm, hjm, hdx⟩, hmin⟩ := nearestIndex_spec loc l 0 j d hn
    have hd0 : d ≤ 0 := by
      have := hmin i loc hi
      rwa [locationDistance_self] at this
    have hd : locationDistance x loc = 0 := by
      have := locationDistance_nonneg x loc
      rw [hdx] at this ⊢
      linarith
    have hx : x = loc := locationDistance_eq_zero hd
    rw [hx] at hm
    have := huniq m hm
    simp only [Option.map_some', Option.some.injEq]
    omega

theorem unsupported_first_locations :
    charLocations (scenarioFamily (1 / 8)) [63, 65] scenarioOptions = [(0, 0), (0, 0)] := by
  simp only [charLocations, measureLines, scenario_selectAtlas]
  simp [lineWalk, charAdvance, getGlyphByCode, scenarioAtlas, List.find?, placedPosition,
    lineStartX, blockStartY, scenarioOptions, ALIGN_TOP_LEFT, ALIGN_TOP, ALIGN_LEFT,
    ALIGN_HCENTER, ALIGN_RIGHT, ALIGN_VCENTER, ALIGN_BOTTOM, layoutScale, effectiveSize,
    (by decide : (17 : Nat) &&& 15 = 1), (by decide : (17 : Nat) &&& 240 = 16)]

theorem scenario_locations (s : ℚ) :
    charLocations (scenarioFamily s) [65, 66] scenarioOptions = [(0, 0), (10 + s * 20, 0)] := by
  simp only [charLocations, scenario_measureLines, scenario_selectAtlas]
  simp [placedPosition, lineStartX, blockStartY, scenarioOptions, ALIGN_TOP_LEFT, ALIGN_TOP,
    ALIGN_LEFT, ALIGN_HCENTER, ALIGN_RIGHT, ALIGN_VCENTER, ALIGN_BOTTOM,
    (by decide : (17 : Nat) &&& 15 = 1), (by decide : (17 : Nat) &&& 240 = 16)]

/-- Counterexample to C16: in the text `?A`, with `?` absent from the atlas
and so of zero advance, the characters of index 0 and 1 have the same
location `(0, 0)`; `getIndexAtLocation` at the location of index 1 returns
0. -/
theorem round_trip_fails_after_unsupported :
    getLocationAtIndex (scenarioFamily (1 / 8)) [63, 65] scenarioOptions 1 = some (0, 0) ∧
    getIndexAtLocation (scenarioFamily (1 / 8)) [63, 65] scenarioOptions (0, 0) = some 0 ∧
    1 < ([63, 65] : List Nat).length ∧ (some 0 : Option Nat) ≠ some 1 := by
  refine ⟨?_, ?_, by decide, by decide⟩
  · rw [getLocationAtIndex, unsupported_first_locations]
    rfl
  · rw [getIndexAtLocation, unsupported_first_locations]
    simp [nearestIndex, locationDistance]

/-- C16, amended: for every text, layout area, size, justification, wrap and
right-to-left setting, and every valid character index `i` whose location is
the location of no other character of the text (two characters share a
location when the first of them has zero advance, as an unsupported character
has), `getIndexAtLocation` applied to the location that `getLocationAtIndex`
returns for `i` returns `i`. -/
theorem index_location_round_trip (family : FontFamily) (text : List Nat)
    (options : LayoutOptions) (i : Nat) (loc : ℚ × ℚ)
    (hloc : getLocationAtIndex family text options i = some loc)
    (huniq : ∀ j, getLocationAtIndex family text options j = some loc → j = i) :
    getIndexAtLocation family text options loc = some i := by
  unfold getIndexAtLocation
  unfold getLocationAtIndex at hloc huniq
  exact nearestIndex_unique _ i loc hloc huniq

/-- Witness for C16, amended: index 1 of the text `AB` in the scenario of the
specification. -/
theorem index_location_round_trip_witness :
    getIndexAtLocation (scenarioFamily (1 / 8)) [65, 66] scenarioOptions (25 / 2, 0) = some 1 :=
  index_location_round_trip (scenarioFamily (1 / 8)) [65, 66] scenarioOptions 1 (25 / 2, 0)
    (by
      simp only [getLocationAtIndex, scenario_locations]
      norm_num)
    (by
      intro j hj
      simp only [getLocationAtIndex, scenario_locations] at hj
      match j, hj with
      | 0, hj =>
        have h1 : ((0 : ℚ), (0 : ℚ)) = (25 / 2, 0) := by simpa using hj
        have h2 : (0 : ℚ) = 25 / 2 := congrArg Prod.fst h1
        norm_num at h2
      | 1, _ => rfl
      | (n + 2), hj => simp at hj)

/-! ## C21: the default character set -/

theorem wcsOf_defaultSet (cfg : Config) (hstart : 0 < cfg.START_INDEX) :
    wcsOf (defaultSet cfg) =
      (List.range (cfg.END_INDEX - cfg.START_INDEX)).map (fun k => cfg.START_INDEX + k) := by
  unfold wcsOf defaultSet
  rw [List.takeWhile_append_of_pos]
  · simp [List.takeWhile]
  · intro a ha
    simp only [List.mem_map, List.mem_range] at ha
    obtain ⟨k, _, rfl⟩ := ha
    simp
    omega

theorem effectiveSet_default (cfg : Config) (characterSet : Option (List Nat))
    (hcs : characterSet = none ∨ characterSet = some []) :
    effectiveSet cfg characterSet = wcsOf (defaultSet cfg) := by
  rcases hcs with h | h <;> subst h <;> simp [effectiveSet]

theorem range_shift_sorted (a n : Nat) :
    ((List.range n).map (fun k => a + k)).Sorted (fun x y => x < y) := by
  unfold List.Sorted
  rw [List.pairwise_map]
  exact (List.pairwise_lt_range n).imp (fun h => by omega)

/-- C21: called with a `NULL` or empty character set, `writeFont` works on the
codes `START_INDEX, START_INDEX + 1, ..., END_INDEX - 1` in this order; when
`START_INDEX > 0` a successful run writes exactly `END_INDEX - START_INDEX`
glyph records, whose codes are these, strictly ascending and pairwise
distinct. -/
theorem default_character_set (cfg : Config) (hstart : 0 < cfg.START_INDEX) :
    effectiveSet cfg none =
      (List.range (cfg.END_INDEX - cfg.START_INDEX)).map (fun k => cfg.START_INDEX + k) ∧
    effectiveSet cfg (some []) = effectiveSet cfg none ∧
    (∀ k, k < cfg.END_INDEX - cfg.START_INDEX →
      (effectiveSet cfg none)[k]? = some (cfg.START_INDEX + k)) ∧
    cfg.END_INDEX ∉ effectiveSet cfg none ∧
    ∀ (face : Face) (fuel : Nat) (id : List Nat) (characterSet : Option (List Nat)) (r : Run),
      characterSet = none ∨ characterSet = some [] →
      writeFont cfg face fuel id characterSet = some r → r.ret = 0 →
      r.glyphs.map Glyph.index =
        (List.range (cfg.END_INDEX - cfg.START_INDEX)).map (fun k => cfg.START_INDEX + k) ∧
      r.glyphs.length = cfg.END_INDEX - cfg.START_INDEX ∧
      (cfg.START_INDEX ≤ cfg.END_INDEX →
        (r.glyphs.length : Int) = (cfg.END_INDEX : Int) - (cfg.START_INDEX : Int)) ∧
      (r.glyphs.map Glyph.index).Sorted (fun a b => a < b) ∧
      (r.glyphs.map Glyph.index).Nodup := by
  have hd := wcsOf_defaultSet cfg hstart
  have hnone : effectiveSet cfg none =
      (List.range (cfg.END_INDEX - cfg.START_INDEX)).map (fun k => cfg.START_INDEX + k) := by
    rw [effectiveSet_default cfg none (Or.inl rfl), hd]
  refine ⟨hnone, ?_, ?_, ?_, ?_⟩
  · rw [effectiveSet_default cfg (some []) (Or.inr rfl), effectiveSet_default cfg none (Or.inl rfl)]
  · intro k hk
    rw [hnone]
    simp [hk]
  · rw [hnone]
    simp only [List.mem_map, List.mem_range, not_exists, not_and]
    intro k hk
    omega
  · intro face fuel id characterSet r hcs h h0
    have hg := writeFont_glyphs h h0
    rw [effectiveSet_default cfg characterSet hcs, hd] at hg
    have hlen : r.glyphs.length = cfg.END_INDEX - cfg.START_INDEX := by
      have := congrArg List.length hg
      simpa using this
    refine ⟨hg, hlen, ?_, ?_, ?_⟩
    · intro hle
      rw [hlen]
      omega
    · rw [hg]
      exact range_shift_sorted _ _
    · rw [hg]
      exact (range_shift_sorted _ _).nodup

/-- Witness for C21: a configuration whose default set is `ABC`, called with
`NULL`. -/
theorem default_character_set_witness :
    ∃ r, writeFont smallConfig sampleFace 8 [65] none = some r ∧ r.ret = 0 ∧
      r.glyphs.map Glyph.index = [65, 66, 67] ∧ r.glyphs.length = 3 := by
  have hs : (writeFont smallConfig sampleFace 8 [65] none).isSome = true := by decide
  obtain ⟨r, hr⟩ := Option.isSome_iff_exists.mp hs
  have h0 : r.ret = 0 := by
    have hm : (writeFont smallConfig sampleFace 8 [65] none).map Run.ret = some 0 := by decide
    rw [hr] at hm
    simpa using hm
  have h := (default_character_set smallConfig (by decide)).2.2.2.2 sampleFace 8 [65] none r
    (Or.inl rfl) hr h0
  exact ⟨r, hr, h0, h.1, h.2.1⟩

/-! ## C26 and C24: the side found by the search and the tightened height -/

theorem sizeSearch_nil (cfg : Config) (face : Face) (rowSize : Int) :
    ∀ (fuel p : Nat), sizeSearch cfg face [] rowSize fuel p = none := by
  intro fuel
  induction fuel with
  | zero => intro p; simp [sizeSearch]
  | succ f ih =>
    intro p
    rw [sizeSearch]
    simp [searchFor, ih]

theorem sizeSearch_least (cfg : Config) (face : Face) (cs : List Nat) (rowSize : Int)
    (hne : cs ≠ []) :
    ∀ (fuel p0 : Nat) (found : SearchResult),
      sizeSearch cfg face cs rowSize fuel p0 = some found →
      ∃ p, p0 ≤ p ∧ found.imageWidth = 2 ^ p ∧ found.imageHeight = 2 ^ p ∧
        found.powerOf2 = p ∧
        found.penX = (searchPass cfg face cs rowSize p).penX ∧
        found.penY = (searchPass cfg face cs rowSize p).penY ∧
        found.row = (searchPass cfg face cs rowSize p).row ∧
        (searchPass cfg face cs rowSize p).textureSizeFound = true ∧
        (searchPass cfg face cs rowSize p).broke = false ∧
        ∀ q, p0 ≤ q → q < p → (searchPass cfg face cs rowSize q).broke = true := by
  intro fuel
  induction fuel with
  | zero => intro p0 found h; simp [sizeSearch] at h
  | succ f ih =>
    intro p0 found h
    rw [sizeSearch] at h
    have hflags := searchFor_flags cfg (face.load (Pass.search p0)) rowSize (2 ^ p0) (2 ^ p0)
      cs ⟨0, 0, 0⟩ false
    by_cases hfound : (searchPass cfg face cs rowSize p0).textureSizeFound = true
    · have hb : (searchPass cfg face cs rowSize p0).broke = false := by
        cases hbb : (searchPass cfg face cs rowSize p0).broke with
        | false => rfl
        | true =>
          have := hflags.1 hbb
          unfold searchPass at hfound
          rw [this] at hfound
          exact absurd hfound (by simp)
      unfold searchPass at hfound hb
      simp only [hfound, hb, if_true] at h
      injection h with h
      subst h
      refine ⟨p0, le_refl _, rfl, rfl, by simp, rfl, rfl, rfl, hfound, hb, ?_⟩
      intro q h1 h2
      omega
    · have hbroke : (searchPass cfg face cs rowSize p0).broke = true := by
        cases hbb : (searchPass cfg face cs rowSize p0).broke with
        | true => rfl
        | false => exact absurd (hflags.2 hbb hne) hfound
      unfold searchPass at hfound hbroke
      simp only [hfound, hbroke, if_true] at h
      obtain ⟨p, hp, rest⟩ := ih (p0 + 1) found h
      refine ⟨p, by omega, rest.1, rest.2.1, rest.2.2.1, rest.2.2.2.1, rest.2.2.2.2.1,
        rest.2.2.2.2.2.1, rest.2.2.2.2.2.2.1, rest.2.2.2.2.2.2.2.1, ?_⟩
      intro q h1 h2
      by_cases hq : q = p0
      · subst hq
        exact hbroke
      · exact rest.2.2.2.2.2.2.2.2 q (by omega) h2

theorem sizeSearch_nonempty {cfg : Config} {face : Face} {cs : List Nat} {rowSize : Int}
    {fuel p : Nat} {found : SearchResult}
    (h : sizeSearch cfg face cs rowSize fuel p = some found) : cs ≠ [] := by
  intro hnil
  subst hnil
  rw [sizeSearch_nil] at h
  exact absurd h (by simp)

/-- C26: the side of the square that the size search of `writeFont` leaves is
`2^p` for the least `p ≥ 2` whose pass over the character set ends without
`break`: the pass at `p` sets `textureSizeFound`, and the pass at every
smaller `q ≥ 2` is left through `break`.  The search returns once the bound on
its iterations is large enough, and the width of the texture written is this
side. -/
theorem size_search_minimal (cfg : Config) (face : Face) (characterSet : Option (List Nat)) :
    (∀ (fuel : Nat) (found : SearchResult),
      sizeSearch cfg face (effectiveSet cfg characterSet)
        (rowSizeOf cfg face (effectiveSet cfg characterSet)) fuel 2 = some found →
      ∃ p, 2 ≤ p ∧ found.imageWidth = 2 ^ p ∧
        (searchPass cfg face (effectiveSet cfg characterSet)
          (rowSizeOf cfg face (effectiveSet cfg characterSet)) p).broke = false ∧
        (searchPass cfg face (effectiveSet cfg characterSet)
          (rowSizeOf cfg face (effectiveSet cfg characterSet)) p).textureSizeFound = true ∧
        ∀ q, 2 ≤ q → q < p →
          (searchPass cfg face (effectiveSet cfg characterSet)
            (rowSizeOf cfg face (effectiveSet cfg characterSet)) q).broke = true) ∧
    (∀ (fuel : Nat) (id : List Nat) (r : Run),
      writeFont cfg face fuel id characterSet = some r → r.ret = 0 →
      ∃ f p, r.file = some f ∧ 2 ≤ p ∧ f.textureWidth = 2 ^ p ∧
        (searchPass cfg face (effectiveSet cfg characterSet)
          (rowSizeOf cfg face (effectiveSet cfg characterSet)) p).broke = false ∧
        ∀ q, 2 ≤ q → q < p →
          (searchPass cfg face (effectiveSet cfg characterSet)
            (rowSizeOf cfg face (effectiveSet cfg characterSet)) q).broke = true) ∧
    (effectiveSet cfg characterSet ≠ [] →
      ∃ N : Nat, ∀ fuel : Nat, N ≤ fuel →
        ∃ found, sizeSearch cfg face (effectiveSet cfg characterSet)
          (rowSizeOf cfg face (effectiveSet cfg characterSet)) fuel 2 = some found) := by
  refine ⟨?_, ?_, ?_⟩
  · intro fuel found hs
    obtain ⟨p, hp, hw, _, _, _, _, _, hf, hb, hq⟩ :=
      sizeSearch_least cfg face _ _ (sizeSearch_nonempty hs) fuel 2 found hs
    exact ⟨p, hp, hw, hb, hf, hq⟩
  · intro fuel id r h h0
    obtain ⟨found, imageHeight, st, hs, _, _, hr⟩ := writeFont_ok h h0
    obtain ⟨p, hp, hw, _, _, _, _, _, _, hb, hq⟩ :=
      sizeSearch_least cfg face _ _ (sizeSearch_nonempty hs) fuel 2 found hs
    subst hr
    exact ⟨_, p, rfl, hp, hw, hb, hq⟩
  · intro hne
    have hrow := rowSizeOf_nonneg cfg face (effectiveSet cfg characterSet)
    refine ⟨((((effectiveSet cfg characterSet).length : Int) + 1) *
      rowSizeOf cfg face (effectiveSet cfg characterSet)).toNat + 1, ?_⟩
    intro fuel hfuel
    exact sizeSearch_some cfg face _ _ hne hrow
      ((((effectiveSet cfg characterSet).length : Int) + 1) *
        rowSizeOf cfg face (effectiveSet cfg characterSet)).toNat 2 fuel (by omega) (by omega)

/-- Witness for C26: one glyph 10 pixels wide with a row of 16 pixels; the
passes at the sides 4 and 8 are left through `break`. -/
theorem size_search_minimal_witness :
    ∃ r, writeFont sampleConfig exactFitFace 8 [65] (some [65]) = some r ∧ r.ret = 0 ∧
      ∃ f p, r.file = some f ∧ 2 ≤ p ∧ f.textureWidth = 2 ^ p ∧
        (searchPass sampleConfig exactFitFace (effectiveSet sampleConfig (some [65]))
          (rowSizeOf sampleConfig exactFitFace (effectiveSet sampleConfig (some [65]))) p).broke =
            false ∧
        ∀ q, 2 ≤ q → q < p →
          (searchPass sampleConfig exactFitFace (effectiveSet sampleConfig (some [65]))
            (rowSizeOf sampleConfig exactFitFace (effectiveSet sampleConfig (some [65]))) q).broke =
              true := by
  have hs : (writeFont sampleConfig exactFitFace 8 [65] (some [65])).isSome = true := by decide
  obtain ⟨r, hr⟩ := Option.isSome_iff_exists.mp hs
  have h0 : r.ret = 0 := by
    have hm : (writeFont sampleConfig exactFitFace 8 [65] (some [65])).map Run.ret = some 0 := by
      decide
    rw [hr] at hm
    simpa using hm
  exact ⟨r, hr, h0, (size_search_minimal sampleConfig exactFitFace (some [65])).2.1 8 [65] r hr h0⟩

theorem tightenHeight_least (penY rowSize : Int) :
    ∀ (fuel p0 h : Nat), tightenHeight penY rowSize fuel p0 = some h →
      ∃ p, p0 ≤ p ∧ h = 2 ^ p ∧ penY + rowSize < ((2 ^ p : Nat) : Int) ∧
        ∀ q, p0 ≤ q → q < p → ((2 ^ q : Nat) : Int) ≤ penY + rowSize := by
  intro fuel
  induction fuel with
  | zero => intro p0 h hh; simp [tightenHeight] at hh
  | succ f ih =>
    intro p0 h hh
    rw [tightenHeight] at hh
    split at hh
    · rename_i hge
      obtain ⟨p, hp, hh2, hlt, hq⟩ := ih (p0 + 1) h hh
      refine ⟨p, by omega, hh2, hlt, ?_⟩
      intro q h1 h2
      by_cases hq0 : q = p0
      · subst hq0
        exact hge
      · exact hq q (by omega) h2
    · rename_i hlt
      injection hh with hh
      refine ⟨p0, le_refl _, hh.symm, by omega, ?_⟩
      intro q h1 h2
      omega

theorem searchFor_penY (cfg : Config) (m : Nat → GlyphSlot) (rowSize : Int) (W H : Nat) :
    ∀ (cs : List Nat) (pen : Pen) (found : Bool),
      (searchFor cfg m rowSize W H cs pen found).broke = false →
      pen.penY = pen.row * rowSize → 0 ≤ pen.row →
      (searchFor cfg m rowSize W H cs pen found).penY =
        (searchFor cfg m rowSize W H cs pen found).row * rowSize ∧
      pen.row ≤ (searchFor cfg m rowSize W H cs pen found).row := by
  intro cs
  induction cs with
  | nil => intro pen found _ hp h0; simp [searchFor, hp]
  | cons ch rest ih =>
    intro pen found hb hp h0
    rw [searchFor] at hb ⊢
    split
    · rename_i pen2 hstep
      rw [hstep] at hb
      simp at hb
    · rename_i pen2 hstep
      rw [hstep] at hb
      simp only [] at hb ⊢
      have hrow := (@searchStep_row cfg m rowSize W H ch pen).2
      rw [hstep] at hrow
      simp only [] at hrow
      have hpen2 : pen2.penY = pen2.row * rowSize := by
        unfold searchStep at hstep
        simp only [] at hstep
        split at hstep
        · split at hstep
          · simp at hstep
          · injection hstep with h1 h2
            subst h1
            rfl
        · injection hstep with h1 h2
          subst h1
          rfl
      have h2 := ih pen2 _ hb hpen2 (by omega)
      exact ⟨h2.1, by omega⟩

/-- C24: the height that the tightening loop of `writeFont` leaves is the
least power of two `2^p`, `p ≥ 1`, strictly greater than `penY + rowSize`,
where `penY = row * rowSize` for the last row of the search; every row of
the search ends strictly below this height. -/
theorem tightened_height_least_power (cfg : Config) (face : Face) (fuel : Nat) (id : List Nat)
    (characterSet : Option (List Nat)) (r : Run)
    (h : writeFont cfg face fuel id characterSet = some r) (h0 : r.ret = 0) :
    ∃ f found p, r.file = some f ∧
      sizeSearch cfg face (effectiveSet cfg characterSet)
        (rowSizeOf cfg face (effectiveSet cfg characterSet)) fuel 2 = some found ∧
      found.row = (searchPass cfg face (effectiveSet cfg characterSet)
        (rowSizeOf cfg face (effectiveSet cfg characterSet)) found.powerOf2).row ∧
      0 ≤ found.row ∧
      found.penY = found.row * rowSizeOf cfg face (effectiveSet cfg characterSet) ∧
      1 ≤ p ∧ f.textureHeight = 2 ^ p ∧
      found.penY + rowSizeOf cfg face (effectiveSet cfg characterSet) < (f.textureHeight : Int) ∧
      (∀ q, 1 ≤ q →
        found.penY + rowSizeOf cfg face (effectiveSet cfg characterSet) < ((2 ^ q : Nat) : Int) →
        f.textureHeight ≤ 2 ^ q) ∧
      ∀ row : Int, 0 ≤ row → row ≤ found.row →
        (row + 1) * rowSizeOf cfg face (effectiveSet cfg characterSet) < (f.textureHeight : Int) := by
  obtain ⟨found, imageHeight, st, hs, ht, _, hr⟩ := writeFont_ok h h0
  obtain ⟨p1, _, _, _, hpow, _, hpy, hrw, _, hb, _⟩ :=
    sizeSearch_least cfg face _ _ (sizeSearch_nonempty hs) fuel 2 found hs
  obtain ⟨p, hp, hh, hlt, hq⟩ := tightenHeight_least _ _ fuel 1 imageHeight ht
  have hrs := rowSizeOf_nonneg cfg face (effectiveSet cfg characterSet)
  have hpen := searchFor_penY cfg (face.load (Pass.search p1))
    (rowSizeOf cfg face (effectiveSet cfg characterSet)) (2 ^ p1) (2 ^ p1)
    (effectiveSet cfg characterSet) ⟨0, 0, 0⟩ false hb (by simp) (le_refl _)
  have hrow0 : 0 ≤ found.row := by rw [hrw]; exact hpen.2
  have hpenY : found.penY = found.row * rowSizeOf cfg face (effectiveSet cfg characterSet) := by
    rw [hpy, hrw]; exact hpen.1
  subst hr
  refine ⟨_, found, p, rfl, hs, ?_, hrow0, hpenY, hp, hh, ?_, ?_, ?_⟩
  · rw [hpow]; exact hrw
  · simp only [hh]; exact hlt
  · intro q hq1 hqlt
    simp only [hh]
    by_contra hcon
    have hqp : q < p := by
      by_contra hge
      exact hcon (Nat.pow_le_pow_right (by decide) (by omega))
    have := hq q hq1 hqp
    omega
  · intro row hr0 hrle
    simp only [hh]
    have : (row + 1) * rowSizeOf cfg face (effectiveSet cfg characterSet) ≤
        found.penY + rowSizeOf cfg face (effectiveSet cfg characterSet) := by
      rw [hpenY]
      nlinarith
    omega

/-- Witness for C24: the successful run on one glyph with a row of 16
pixels. -/
theorem tightened_height_least_power_witness :
    ∃ r, writeFont sampleConfig exactFitFace 8 [65] (some [65]) = some r ∧ r.ret = 0 ∧
      ∃ f found p, r.file = some f ∧
        sizeSearch sampleConfig exactFitFace (effectiveSet sampleConfig (some [65]))
          (rowSizeOf sampleConfig exactFitFace (effectiveSet sampleConfig (some [65]))) 8 2 =
            some found ∧
        1 ≤ p ∧ f.textureHeight = 2 ^ p ∧
        found.penY + rowSizeOf sampleConfig exactFitFace (effectiveSet sampleConfig (some [65])) <
          (f.textureHeight : Int) := by
  have hs : (writeFont sampleConfig exactFitFace 8 [65] (some [65])).isSome = true := by decide
  obtain ⟨r, hr⟩ := Option.isSome_iff_exists.mp hs
  have h0 : r.ret = 0 := by
    have hm : (writeFont sampleConfig exactFitFace 8 [65] (some [65])).map Run.ret = some 0 := by
      decide
    rw [hr] at hm
    simpa using hm
  obtain ⟨f, found, p, h1, h2, _, _, _, h6, h7, h8, _⟩ :=
    tightened_height_least_power sampleConfig exactFitFace 8 [65] (some [65]) r hr h0
  exact ⟨r, hr, h0, f, found, p, h1, h2, h6, h7, h8⟩

/-! ## C22: the size field -/

theorem measureLoop_snd (m : Nat → GlyphSlot) :
    ∀ (cs : List Nat) (a r : Int),
      (measureLoop m cs a r).2 = (cs.map (fun ch => glyphExtent (m ch))).foldl max r := by
  intro cs
  induction cs with
  | nil => intro a r; simp [measureLoop]
  | cons ch rest ih =>
    intro a r
    rw [measureLoop]
    simp only [List.map_cons, List.foldl_cons]
    rw [ih]
    congr 1
    unfold glyphExtent
    by_cases h1 : (m ch).rows > (m ch).bitmap_top
    · rw [if_pos h1, max_eq_right (by omega : (0 : Int) ≤ (m ch).rows - (m ch).bitmap_top)]
      by_cases h2 : r < (m ch).rows + ((m ch).rows - (m ch).bitmap_top)
      · rw [if_pos h2, max_eq_right (by omega)]
      · rw [if_neg h2, max_eq_left (by omega)]
    · rw [if_neg h1, max_eq_left (by omega : (m ch).rows - (m ch).bitmap_top ≤ (0 : Int))]
      by_cases h2 : r < (m ch).rows
      · rw [if_pos h2, max_eq_right (by omega)]
        omega
      · rw [if_neg h2, max_eq_left (by omega)]

theorem foldl_max_ge (l : List Int) : ∀ (r : Int), r ≤ l.foldl max r ∧ ∀ x ∈ l, x ≤ l.foldl max r := by
  induction l with
  | nil => intro r; simp
  | cons a rest ih =>
    intro r
    simp only [List.foldl_cons, List.mem_cons]
    have h := ih (max r a)
    refine ⟨le_trans (le_max_left r a) h.1, ?_⟩
    intro x hx
    rcases hx with hx | hx
    · subst hx
      exact le_trans (le_max_right r x) h.1
    · exact h.2 x hx

theorem foldl_max_mem (l : List Int) : ∀ (r : Int), l.foldl max r = r ∨ l.foldl max r ∈ l := by
  induction l with
  | nil => intro r; simp
  | cons a rest ih =>
    intro r
    simp only [List.foldl_cons, List.mem_cons]
    rcases ih (max r a) with h | h
    · rw [h]
      rcases max_choice r a with hm | hm
      · left; exact hm
      · right; left; exact hm
    · right; right; exact h

theorem rowSizeOf_eq (cfg : Config) (face : Face) (cs : List Nat) :
    rowSizeOf cfg face cs = (cfg.GLYPH_PADDING : Int) + maxExtent (face.load Pass.measure) cs := by
  unfold rowSizeOf maxExtent
  rw [measureLoop_snd]
  ring

/-- C22: the size field that a successful `writeFont` writes is `rowSize`,
which is `GLYPH_PADDING` plus the maximum over the character set of
`rows + max(0, rows - bitmap_top)` for the glyphs of the measuring loop: it
is at least `GLYPH_PADDING` plus every such value and plus the rows of every
bitmap, it is attained at a character when no bitmap has a negative number
of rows, and it is the same for two faces whose glyphs in the measuring loop
have the same metrics. -/
theorem size_field_is_row_size (cfg : Config) (face : Face) (fuel : Nat) (id : List Nat)
    (characterSet : Option (List Nat)) (r : Run)
    (h : writeFont cfg face fuel id characterSet = some r) (h0 : r.ret = 0) :
    ∃ f, r.file = some f ∧
      (f.size : Int) = rowSizeOf cfg face (effectiveSet cfg characterSet) ∧
      (f.size : Int) = (cfg.GLYPH_PADDING : Int) +
        maxExtent (face.load Pass.measure) (effectiveSet cfg characterSet) ∧
      (∀ ch ∈ effectiveSet cfg characterSet,
        (cfg.GLYPH_PADDING : Int) + glyphExtent (face.load Pass.measure ch) ≤ (f.size : Int) ∧
        (cfg.GLYPH_PADDING : Int) + (face.load Pass.measure ch).rows ≤ (f.size : Int)) ∧
      ((∀ ch ∈ effectiveSet cfg characterSet, 0 ≤ (face.load Pass.measure ch).rows) →
        ∃ ch ∈ effectiveSet cfg characterSet,
          (f.size : Int) = (cfg.GLYPH_PADDING : Int) + glyphExtent (face.load Pass.measure ch)) ∧
      ∀ (face2 : Face) (fuel2 : Nat) (id2 : List Nat) (r2 : Run),
        (∀ ch ∈ effectiveSet cfg characterSet,
          (face2.load Pass.measure ch).rows = (face.load Pass.measure ch).rows ∧
          (face2.load Pass.measure ch).bitmap_top = (face.load Pass.measure ch).bitmap_top) →
        writeFont cfg face2 fuel2 id2 characterSet = some r2 → r2.ret = 0 →
        r2.file.map GpbFont.size = some f.size := by
  obtain ⟨found, imageHeight, st, hs, _, _, hr⟩ := writeFont_ok h h0
  have hne := sizeSearch_nonempty hs
  have hrow := rowSizeOf_nonneg cfg face (effectiveSet cfg characterSet)
  have heq := rowSizeOf_eq cfg face (effectiveSet cfg characterSet)
  have hge := foldl_max_ge ((effectiveSet cfg characterSet).map
    (fun ch => glyphExtent (face.load Pass.measure ch))) 0
  subst hr
  refine ⟨_, rfl, ?_, ?_, ?_, ?_, ?_⟩
  · simp only []
    exact Int.toNat_of_nonneg hrow
  · simp only []
    rw [Int.toNat_of_nonneg hrow, heq]
  · intro ch hch
    simp only []
    rw [Int.toNat_of_nonneg hrow, heq]
    have h1 : glyphExtent (face.load Pass.measure ch) ≤
        maxExtent (face.load Pass.measure) (effectiveSet cfg characterSet) :=
      hge.2 _ (List.mem_map.mpr ⟨ch, hch, rfl⟩)
    have h2 : (face.load Pass.measure ch).rows ≤ glyphExtent (face.load Pass.measure ch) := by
      unfold glyphExtent
      have := le_max_left (0 : Int) ((face.load Pass.measure ch).rows -
        (face.load Pass.measure ch).bitmap_top)
      omega
    constructor <;> omega
  · intro hnonneg
    simp only []
    rw [Int.toNat_of_nonneg hrow, heq]
    rcases foldl_max_mem ((effectiveSet cfg characterSet).map
      (fun ch => glyphExtent (face.load Pass.measure ch))) 0 with hz | hm
    · obtain ⟨c0, rest, hc⟩ := List.exists_cons_of_ne_nil hne
      have hc0 : c0 ∈ effectiveSet cfg characterSet := by rw [hc]; simp
      refine ⟨c0, hc0, ?_⟩
      have h1 : glyphExtent (face.load Pass.measure c0) ≤
          maxExtent (face.load Pass.measure) (effectiveSet cfg characterSet) :=
        hge.2 _ (List.mem_map.mpr ⟨c0, hc0, rfl⟩)
      have h2 : 0 ≤ glyphExtent (face.load Pass.measure c0) := by
        unfold glyphExtent
        have := le_max_left (0 : Int) ((face.load Pass.measure c0).rows -
          (face.load Pass.measure c0).bitmap_top)
        have := hnonneg c0 hc0
        omega
      have h3 : maxExtent (face.load Pass.measure) (effectiveSet cfg characterSet) = 0 := hz
      omega
    · obtain ⟨ch, hch, he⟩ := List.mem_map.mp hm
      refine ⟨ch, hch, ?_⟩
      unfold maxExtent
      rw [he]
  · intro face2 fuel2 id2 r2 hsame h2 h20
    obtain ⟨found2, imageHeight2, st2, _, _, _, hr2⟩ := writeFont_ok h2 h20
    subst hr2
    simp only [Option.map_some']
    congr 2
    rw [rowSizeOf_eq, rowSizeOf_eq]
    congr 1
    unfold maxExtent
    congr 1
    apply List.map_congr_left
    intro ch hch
    unfold glyphExtent
    rw [(hsame ch hch).1, (hsame ch hch).2]

/-- Witness for C22: one glyph of 12 rows that stands on the baseline, with
padding 4. -/
theorem size_field_is_row_size_witness :
    ∃ r, writeFont sampleConfig exactFitFace 8 [65] (some [65]) = some r ∧ r.ret = 0 ∧
      ∃ f, r.file = some f ∧ (f.size : Int) = 4 + 12 ∧
        ∃ ch ∈ effectiveSet sampleConfig (some [65]),
          (f.size : Int) = (sampleConfig.GLYPH_PADDING : Int) +
            glyphExtent (exactFitFace.load Pass.measure ch) := by
  have hs : (writeFont sampleConfig exactFitFace 8 [65] (some [65])).isSome = true := by decide
  obtain ⟨r, hr⟩ := Option.isSome_iff_exists.mp hs
  have h0 : r.ret = 0 := by
    have hm : (writeFont sampleConfig exactFitFace 8 [65] (some [65])).map Run.ret = some 0 := by
      decide
    rw [hr] at hm
    simpa using hm
  obtain ⟨f, h1, h2, _, _, h5, _⟩ :=
    size_field_is_row_size sampleConfig exactFitFace 8 [65] (some [65]) r hr h0
  refine ⟨r, hr, h0, f, h1, ?_, h5 (by decide)⟩
  rw [h2]
  decide

/-! ## C23: `drawBitmap` -/

theorem memcpyFrom_length (off : Int) (src : List Nat) (start : Int) (n : Nat) :
    ∀ (dst : List Nat) (k : Int), (memcpyFrom off src start n dst k).length = dst.length := by
  intro dst
  induction dst with
  | nil => intro k; simp [memcpyFrom]
  | cons b rest ih => intro k; simp [memcpyFrom, ih]

theorem memcpyFrom_getElem (off : Int) (src : List Nat) (start : Int) (n : Nat) :
    ∀ (dst : List Nat) (k0 : Int) (j : Nat),
      (memcpyFrom off src start n dst k0)[j]? =
        if off ≤ k0 + (j : Int) ∧ k0 + (j : Int) < off + (n : Int) ∧ j < dst.length then
          some (readAt src (start + (k0 + (j : Int) - off)))
        else dst[j]? := by
  intro dst
  induction dst with
  | nil =>
    intro k0 j
    simp [memcpyFrom]
  | cons b rest ih =>
    intro k0 j
    rw [memcpyFrom]
    cases j with
    | zero =>
      simp only [List.getElem?_cons_zero, Nat.cast_zero, add_zero, List.length_cons,
        Nat.zero_lt_succ, and_true]
      split <;> rfl
    | succ j =>
      simp only [List.getElem?_cons_succ, List.length_cons]
      rw [ih (k0 + 1) j]
      have e : k0 + 1 + (j : Int) = k0 + ((j + 1 : Nat) : Int) := by push_cast; ring
      rw [e]
      by_cases hc : off ≤ k0 + ((j + 1 : Nat) : Int) ∧
          k0 + ((j + 1 : Nat) : Int) < off + (n : Int) ∧ j < rest.length
      · rw [if_pos hc, if_pos ⟨hc.1, hc.2.1, by omega⟩]
      · rw [if_neg hc, if_neg]
        intro h
        exact hc ⟨h.1, h.2.1, by omega⟩

theorem memcpyAt_length (dst : List Nat) (off : Int) (src : List Nat) (start : Int) (n : Nat) :
    (memcpyAt dst off src start n).length = dst.length :=
  memcpyFrom_length off src start n dst 0

theorem memcpyAt_getElem (dst : List Nat) (off : Int) (src : List Nat) (start : Int) (n k : Nat) :
    (memcpyAt dst off src start n)[k]? =
      if off ≤ (k : Int) ∧ (k : Int) < off + (n : Int) ∧ k < dst.length then
        some (readAt src (start + ((k : Int) - off)))
      else dst[k]? := by
  unfold memcpyAt
  rw [memcpyFrom_getElem]
  simp only [zero_add]

theorem toSizeT_of_nonneg (i : Int) (h : 0 ≤ i) : ((toSizeT i : Nat) : Int) = i := by
  unfold toSizeT
  rw [if_pos h]
  exact Int.toNat_of_nonneg h

theorem drawRows_length (dstWidth : Int) (src : List Nat) (srcWidth : Int) :
    ∀ (i : Nat) (dst : List Nat) (dstOff srcOff : Int),
      (drawRows dstWidth src srcWidth i dst dstOff srcOff).length = dst.length := by
  intro i
  induction i with
  | zero => intro dst dstOff srcOff; simp [drawRows]
  | succ i ih =>
    intro dst dstOff srcOff
    rw [drawRows, ih, memcpyAt_length]

theorem drawRows_other (dstWidth : Int) (src : List Nat) (srcWidth : Int) (hs : 0 ≤ srcWidth)
    (k : Nat) :
    ∀ (i : Nat) (dst : List Nat) (dstOff srcOff : Int),
      (∀ (r j : Nat), r < i → (j : Int) < srcWidth →
        (k : Int) ≠ dstOff + (r : Int) * dstWidth + (j : Int)) →
      (drawRows dstWidth src srcWidth i dst dstOff srcOff)[k]? = dst[k]? := by
  intro i
  induction i with
  | zero => intro dst dstOff srcOff _; simp [drawRows]
  | succ i ih =>
    intro dst dstOff srcOff hk
    rw [drawRows, ih, memcpyAt_getElem]
    · rw [if_neg]
      intro h
      rw [toSizeT_of_nonneg _ hs] at h
      have hj : ((((k : Int) - dstOff).toNat : Nat) : Int) < srcWidth := by omega
      have := hk 0 ((k : Int) - dstOff).toNat (by omega) hj
      apply this
      simp only [Nat.cast_zero, zero_mul, add_zero]
      omega
    · intro r j hr hj
      have := hk (r + 1) j (by omega) hj
      intro he
      apply this
      rw [he]
      push_cast
      ring

theorem drawRows_copied (dstWidth : Int) (src : List Nat) (srcWidth : Int) (hs : 0 ≤ srcWidth)
    (hw : srcWidth ≤ dstWidth) :
    ∀ (i : Nat) (dst : List Nat) (dstOff srcOff : Int) (r j : Nat),
      r < i → (j : Int) < srcWidth → 0 ≤ dstOff + (r : Int) * dstWidth + (j : Int) →
      (dstOff + (r : Int) * dstWidth + (j : Int)).toNat < dst.length →
      (drawRows dstWidth src srcWidth i dst dstOff srcOff)[
          (dstOff + (r : Int) * dstWidth + (j : Int)).toNat]? =
        some (readAt src (srcOff + (r : Int) * srcWidth + (j : Int))) := by
  intro i
  induction i with
  | zero => intro dst dstOff srcOff r j hr; omega
  | succ i ih =>
    intro dst dstOff srcOff r j hr hj hpos hlen
    rw [drawRows]
    cases r with
    | zero =>
      simp only [Nat.cast_zero, zero_mul, add_zero] at hpos hlen ⊢
      rw [drawRows_other _ _ _ hs, memcpyAt_getElem]
      · rw [if_pos ⟨by omega, by rw [toSizeT_of_nonneg _ hs]; omega, hlen⟩]
        have : (((dstOff + (j : Int)).toNat : Nat) : Int) - dstOff = (j : Int) := by omega
        rw [this]
      · intro r2 j2 hr2 hj2 he
        have h1 : (0 : Int) ≤ (r2 : Int) * dstWidth :=
          mul_nonneg (Int.natCast_nonneg _) (by omega)
        have h2 : ((dstOff + (j : Int)).toNat : Int) = dstOff + (j : Int) := by omega
        rw [h2] at he
        omega
    | succ r =>
      have e : dstOff + ((r + 1 : Nat) : Int) * dstWidth + (j : Int) =
          (dstOff + dstWidth) + (r : Int) * dstWidth + (j : Int) := by
        push_cast
        ring
      rw [e] at hpos hlen ⊢
      rw [ih _ _ _ r j (by omega) hj hpos (by rw [memcpyAt_length]; exact hlen)]
      congr 2
      push_cast
      ring

/-- Counterexample to C23: for `srcWidth = -1` the conditions of the claim
hold (`x = y = 0`, `x + srcWidth ≤ dstWidth = 4`, a destination of
`(y + srcHeight) * dstWidth = 4` bytes) and no `j < srcWidth` exists, so the
claim says that no byte of the destination changes; but `memcpy` takes the
width as a `size_t` and overwrites the destination from its first byte on. -/
theorem drawBitmap_negative_width :
    (0 : Int) ≤ 0 ∧ (0 : Int) + (-1) ≤ 4 ∧
    ((0 : Int) + 1) * 4 ≤ ((([1, 2, 3, 4] : List Nat).length : Nat) : Int) ∧
    toSizeT (-1) = 18446744073709551615 ∧
    drawBitmap [1, 2, 3, 4] 0 0 4 [9] (-1) 1 = [9, 0, 0, 0] ∧
    (drawBitmap [1, 2, 3, 4] 0 0 4 [9] (-1) 1)[0]? ≠ ([1, 2, 3, 4] : List Nat)[0]? := by
  refine ⟨by decide, by decide, by decide, by decide, by decide, by decide⟩

/-- C23, amended: for `x, y ≥ 0`, a width `srcWidth ≥ 0` with
`x + srcWidth ≤ dstWidth` and a destination of at least
`(y + srcHeight) * dstWidth` bytes, `drawBitmap` leaves the byte
`src[i * srcWidth + j]` at `dst[(y + i) * dstWidth + x + j]` for every
`i < srcHeight` and `j < srcWidth`, leaves every other byte of the
destination as it was, and does not change its length. -/
theorem drawBitmap_copies_rectangle (dst : List Nat) (x y dstWidth : Int) (src : List Nat)
    (srcWidth srcHeight : Int) (hx : 0 ≤ x) (hy : 0 ≤ y) (hw : 0 ≤ srcWidth)
    (hfit : x + srcWidth ≤ dstWidth)
    (hlen : (y + srcHeight) * dstWidth ≤ (dst.length : Int)) :
    (∀ (i j : Nat), (i : Int) < srcHeight → (j : Int) < srcWidth →
      ((y + (i : Int)) * dstWidth + x + (j : Int)).toNat < dst.length ∧
      (drawBitmap dst x y dstWidth src srcWidth srcHeight)[
          ((y + (i : Int)) * dstWidth + x + (j : Int)).toNat]? =
        some (src.getD (i * srcWidth.toNat + j) 0)) ∧
    (∀ k : Nat,
      (∀ (i j : Nat), (i : Int) < srcHeight → (j : Int) < srcWidth →
        (k : Int) ≠ (y + (i : Int)) * dstWidth + x + (j : Int)) →
      (drawBitmap dst x y dstWidth src srcWidth srcHeight)[k]? = dst[k]?) ∧
    (drawBitmap dst x y dstWidth src srcWidth srcHeight).length = dst.length := by
  refine ⟨?_, ?_, ?_⟩
  · intro i j hi hj
    have hsw : (srcWidth.toNat : Int) = srcWidth := Int.toNat_of_nonneg hw
    have hdw : 0 ≤ dstWidth := by omega
    have e : (y + (i : Int)) * dstWidth + x + (j : Int) =
        (x + y * dstWidth) + (i : Int) * dstWidth + (j : Int) := by ring
    have h1 : (0 : Int) ≤ (y + (i : Int)) * dstWidth :=
      mul_nonneg (by omega) hdw
    have h2 : (y + (i : Int)) * dstWidth + dstWidth ≤ (y + srcHeight) * dstWidth := by
      nlinarith
    have hin : ((y + (i : Int)) * dstWidth + x + (j : Int)).toNat < dst.length := by omega
    refine ⟨hin, ?_⟩
    unfold drawBitmap
    rw [e] at hin ⊢
    have := drawRows_copied dstWidth src srcWidth hw (by omega) srcHeight.toNat dst
      (x + y * dstWidth) 0 i j (by omega) hj (by omega) hin
    rw [this]
    have hidx : (0 : Int) + (i : Int) * srcWidth + (j : Int) =
        ((i * srcWidth.toNat + j : Nat) : Int) := by
      push_cast
      rw [hsw]
      ring
    unfold readAt
    rw [hidx, if_pos (Int.natCast_nonneg _), Int.toNat_natCast]
  · intro k hk
    unfold drawBitmap
    apply drawRows_other _ _ _ hw
    intro r j hr hj he
    apply hk r j (by omega) hj
    rw [he]
    ring
  · unfold drawBitmap
    exact drawRows_length _ _ _ _ _ _ _

/-- Witness for C23, amended: a source of 2 by 2 bytes drawn at `(1, 1)` into
a destination of 4 by 3 bytes. -/
theorem drawBitmap_copies_rectangle_witness :
    (drawBitmap [0, 0, 0, 0, 0, 0, 0, 0, 0, 0, 0, 0] 1 1 4 [1, 2, 3, 4] 2 2)[
        ((1 + ((1 : Nat) : Int)) * 4 + 1 + ((0 : Nat) : Int)).toNat]? =
      some (([1, 2, 3, 4] : List Nat).getD (1 * (2 : Int).toNat + 0) 0) ∧
    (drawBitmap [0, 0, 0, 0, 0, 0, 0, 0, 0, 0, 0, 0] 1 1 4 [1, 2, 3, 4] 2 2).length = 12 :=
  ⟨((drawBitmap_copies_rectangle [0, 0, 0, 0, 0, 0, 0, 0, 0, 0, 0, 0] 1 1 4 [1, 2, 3, 4] 2 2
      (by decide) (by decide) (by decide) (by decide) (by decide)).1 1 0
      (by decide) (by decide)).2,
    (drawBitmap_copies_rectangle [0, 0, 0, 0, 0, 0, 0, 0, 0, 0, 0, 0] 1 1 4 [1, 2, 3, 4] 2 2
      (by decide) (by decide) (by decide) (by decide) (by decide)).2.2⟩

/-! ## C25: the drawing loop follows the last search pass -/

theorem searchStep_pack {cfg : Config} {m : Nat → GlyphSlot} {rowSize : Int} {W H : Nat}
    {ch : Nat} {pen pen2 : Pen} (h : searchStep cfg m rowSize W H ch pen = (pen2, false)) :
    (pen2.penX, pen2.row) = packStep cfg m W (pen.penX, pen.row) ch := by
  unfold searchStep at h
  simp only [] at h
  unfold packStep
  split at h
  · rename_i hw
    split at h
    · simp at h
    · injection h with h1 h2
      subst h1
      simp [hw]
  · rename_i hw
    injection h with h1 h2
    subst h1
    simp [hw]

theorem packStep_congr (cfg : Config) (m1 m2 : Nat → GlyphSlot) (W : Nat) (pen : Int × Int)
    (ch : Nat) (h : (m1 ch).pitch = (m2 ch).pitch) :
    packStep cfg m1 W pen ch = packStep cfg m2 W pen ch := by
  unfold packStep
  rw [h]

theorem packStep_row (cfg : Config) (m : Nat → GlyphSlot) (W : Nat) (pen : Int × Int) (ch : Nat) :
    (pen.1 + ((m ch).pitch + (cfg.GLYPH_PADDING : Int)) > (W : Int) →
      (packStep cfg m W pen ch).2 = pen.2 + 1) ∧
    pen.2 ≤ (packStep cfg m W pen ch).2 := by
  unfold packStep
  split
  · exact ⟨fun _ => rfl, by simp⟩
  · rename_i hw
    exact ⟨fun h => absurd h hw, le_refl _⟩

theorem drawStep_some {cfg : Config} {m : Nat → GlyphSlot} {afh rowSize : Int} {W H : Nat}
    {ch : Nat} {st : DrawState}
    (h : st.penX + ((m ch).pitch + (cfg.GLYPH_PADDING : Int)) > (W : Int) →
      (st.row + 1) * rowSize + rowSize ≤ (H : Int)) :
    ∃ st1, drawStep cfg m afh rowSize W H ch st = some st1 := by
  unfold drawStep
  simp only []
  split
  · rename_i hw
    have := h hw
    rw [if_neg (by omega)]
    exact ⟨_, rfl⟩
  · exact ⟨_, rfl⟩

theorem searchFor_row_ge (cfg : Config) (m : Nat → GlyphSlot) (rowSize : Int) (W H : Nat) :
    ∀ (cs : List Nat) (pen : Pen) (found : Bool),
      pen.row ≤ (searchFor cfg m rowSize W H cs pen found).row := by
  intro cs
  induction cs with
  | nil => intro pen found; simp [searchFor]
  | cons ch rest ih =>
    intro pen found
    rw [searchFor]
    have hrow := (@searchStep_row cfg m rowSize W H ch pen).2
    split
    · rename_i pen2 hstep
      rw [hstep] at hrow
      simp only [] at hrow ⊢
      omega
    · rename_i pen2 hstep
      rw [hstep] at hrow
      simp only [] at hrow ⊢
      have := ih pen2 (if rest.length = 0 then true else found)
      omega

theorem searchFor_take (cfg : Config) (m : Nat → GlyphSlot) (rowSize : Int) (W H : Nat) :
    ∀ (cs : List Nat) (pen : Pen) (found : Bool),
      (searchFor cfg m rowSize W H cs pen found).broke = false →
      ∀ (k : Nat) (found2 : Bool),
        (searchFor cfg m rowSize W H (cs.take k) pen found2).broke = false ∧
        (searchFor cfg m rowSize W H (cs.take k) pen found2).row ≤
          (searchFor cfg m rowSize W H cs pen found).row := by
  intro cs
  induction cs with
  | nil =>
    intro pen found _ k found2
    simp [searchFor]
  | cons ch rest ih =>
    intro pen found hb k found2
    cases k with
    | zero =>
      simp only [List.take_zero]
      exact ⟨by simp [searchFor], by
        have := searchFor_row_ge cfg m rowSize W H (ch :: rest) pen found
        simpa [searchFor] using this⟩
    | succ k =>
      simp only [List.take_succ_cons]
      rw [searchFor] at hb ⊢
      rw [searchFor]
      split
      · rename_i pen2 hstep
        rw [hstep] at hb
        simp at hb
      · rename_i pen2 hstep
        rw [hstep] at hb
        simp only [] at hb ⊢
        exact ih pen2 _ hb k _

theorem drawFor_follows_search (cfg : Config) (m1 m2 : Nat → GlyphSlot) (afh rowSize : Int)
    (W H1 H2 : Nat) (hrow : 0 ≤ rowSize) (hsame : ∀ ch, (m1 ch).pitch = (m2 ch).pitch) :
    ∀ (cs : List Nat) (pen : Pen) (found : Bool) (st : DrawState),
      st.penX = pen.penX → st.row = pen.row →
      (searchFor cfg m1 rowSize W H1 cs pen found).broke = false →
      ((searchFor cfg m1 rowSize W H1 cs pen found).row + 1) * rowSize ≤ (H2 : Int) →
      ∃ st1, drawFor cfg m2 afh rowSize W H2 cs st = some st1 ∧
        st1.penX = (searchFor cfg m1 rowSize W H1 cs pen found).penX ∧
        st1.row = (searchFor cfg m1 rowSize W H1 cs pen found).row := by
  intro cs
  induction cs with
  | nil =>
    intro pen found st hx hr _ _
    exact ⟨st, by simp [drawFor], by simp [searchFor, hx], by simp [searchFor, hr]⟩
  | cons ch rest ih =>
    intro pen found st hx hr hb hH
    rw [searchFor] at hb hH ⊢
    cases hstep : searchStep cfg m1 rowSize W H1 ch pen with
    | mk pen2 b =>
      rw [hstep] at hb hH
      cases b with
      | true => simp at hb
      | false =>
        simp only [] at hb hH ⊢
        have hpack := searchStep_pack hstep
        rw [packStep_congr cfg m1 m2 W _ ch (hsame ch)] at hpack
        have hge := searchFor_row_ge cfg m1 rowSize W H1 rest pen2
          (if rest.length = 0 then true else found)
        have hprow := packStep_row cfg m2 W (pen.penX, pen.row) ch
        have hp2 : pen2.row = (packStep cfg m2 W (pen.penX, pen.row) ch).2 :=
          congrArg Prod.snd hpack
        obtain ⟨st2, hst2⟩ : ∃ st2, drawStep cfg m2 afh rowSize W H2 ch st = some st2 := by
          apply drawStep_some
          intro hw
          rw [hx] at hw
          have h1 := hprow.1 hw
          simp only [] at h1
          rw [hr]
          have h2 : pen.row + 1 ≤ (searchFor cfg m1 rowSize W H1 rest pen2
              (if rest.length = 0 then true else found)).row := by omega
          nlinarith
        rw [drawFor, hst2]
        simp only []
        have hpen := drawStep_pen hst2
        rw [hx, hr, ← hpack] at hpen
        exact ih pen2 _ st2 (congrArg Prod.fst hpen) (congrArg Prod.snd hpen) hb hH

theorem writeFont_of_draw {cfg : Config} {face : Face} {fuel : Nat} (id : List Nat)
    {characterSet : Option (List Nat)} {found : SearchResult} {imageHeight : Nat}
    {st : DrawState}
    (hs : sizeSearch cfg face (effectiveSet cfg characterSet)
      (rowSizeOf cfg face (effectiveSet cfg characterSet)) fuel 2 = some found)
    (ht : tightenHeight found.penY (rowSizeOf cfg face (effectiveSet cfg characterSet)) fuel 1 =
      some imageHeight)
    (hd : drawFor cfg (face.load Pass.draw) (fontHeightOf face (effectiveSet cfg characterSet))
      (rowSizeOf cfg face (effectiveSet cfg characterSet)) found.imageWidth imageHeight
      (effectiveSet cfg characterSet)
      (drawInit (effectiveSet cfg characterSet) found.imageWidth imageHeight) = some st)
    (r : Run) (h : writeFont cfg face fuel id characterSet = some r) :
    (r.ret = 0 ∧ r.file.isSome = true) ∨
    (r = ⟨-1, none⟩ ∧ (cfg.callocOk (effectiveSet cfg characterSet).length = false ∨
      face.initError = true ∨ face.newFaceError = true ∨ face.setCharSizeError = true)) := by
  unfold writeFont at h
  simp only [] at h
  split at h
  · rename_i hc
    injection h with h
    exact Or.inr ⟨h.symm, Or.inl hc⟩
  split at h
  · rename_i hc
    injection h with h
    exact Or.inr ⟨h.symm, Or.inr (Or.inl hc)⟩
  split at h
  · rename_i hc
    injection h with h
    exact Or.inr ⟨h.symm, Or.inr (Or.inr (Or.inl hc))⟩
  split at h
  · rename_i hc
    injection h with h
    exact Or.inr ⟨h.symm, Or.inr (Or.inr (Or.inr hc))⟩
  simp only [rowSizeOf, fontHeightOf, drawInit] at hs ht hd
  rw [hs] at h
  simp only [] at h
  rw [ht] at h
  simp only [] at h
  rw [hd] at h
  simp only [] at h
  injection h with h
  subst h
  exact Or.inl ⟨rfl, rfl⟩

theorem writeFont_loops {cfg : Config} {face : Face} {fuel : Nat} {id : List Nat}
    {characterSet : Option (List Nat)} {r : Run}
    (h : writeFont cfg face fuel id characterSet = some r) :
    (r = ⟨-1, none⟩ ∧ (cfg.callocOk (effectiveSet cfg characterSet).length = false ∨
      face.initError = true ∨ face.newFaceError = true ∨ face.setCharSizeError = true)) ∨
    ∃ found imageHeight,
      sizeSearch cfg face (effectiveSet cfg characterSet)
        (rowSizeOf cfg face (effectiveSet cfg characterSet)) fuel 2 = some found ∧
      tightenHeight found.penY (rowSizeOf cfg face (effectiveSet cfg characterSet)) fuel 1 =
        some imageHeight := by
  unfold writeFont at h
  simp only [] at h
  split at h
  · rename_i hc
    injection h with h
    exact Or.inl ⟨h.symm, Or.inl hc⟩
  split at h
  · rename_i hc
    injection h with h
    exact Or.inl ⟨h.symm, Or.inr (Or.inl hc)⟩
  split at h
  · rename_i hc
    injection h with h
    exact Or.inl ⟨h.symm, Or.inr (Or.inr (Or.inl hc))⟩
  split at h
  · rename_i hc
    injection h with h
    exact Or.inl ⟨h.symm, Or.inr (Or.inr (Or.inr hc))⟩
  right
  unfold rowSizeOf
  split at h
  · cases h
  · rename_i found hs
    split at h
    · cases h
    · rename_i imageHeight ht
      exact ⟨found, imageHeight, hs, ht⟩

theorem loops_terminate (cfg : Config) (face : Face) (cs : List Nat) (hne : cs ≠ []) :
    ∃ N : Nat, ∀ fuel : Nat, N ≤ fuel →
      ∃ found imageHeight,
        sizeSearch cfg face cs (rowSizeOf cfg face cs) fuel 2 = some found ∧
        tightenHeight found.penY (rowSizeOf cfg face cs) fuel 1 = some imageHeight := by
  have hrow := rowSizeOf_nonneg cfg face cs
  obtain ⟨found, hfound⟩ := sizeSearch_some cfg face cs (rowSizeOf cfg face cs) hne hrow
    ((((cs.length : Int) + 1) * rowSizeOf cfg face cs).toNat) 2
    ((((cs.length : Int) + 1) * rowSizeOf cfg face cs).toNat + 1) (by omega) (by omega)
  refine ⟨max ((((cs.length : Int) + 1) * rowSizeOf cfg face cs).toNat + 1)
    ((found.penY + rowSizeOf cfg face cs).toNat + 1), ?_⟩
  intro fuel hfuel
  have hf1 : (((cs.length : Int) + 1) * rowSizeOf cfg face cs).toNat + 1 ≤ fuel :=
    le_trans (le_max_left _ _) hfuel
  have hf2 : (found.penY + rowSizeOf cfg face cs).toNat + 1 ≤ fuel :=
    le_trans (le_max_right _ _) hfuel
  have hs : sizeSearch cfg face cs (rowSizeOf cfg face cs) fuel 2 = some found := by
    have hm := sizeSearch_mono cfg face _ _ _ _ _ hfound
      (fuel - ((((cs.length : Int) + 1) * rowSizeOf cfg face cs).toNat + 1))
    rwa [Nat.add_sub_cancel' hf1] at hm
  obtain ⟨imageHeight, ht⟩ := tightenHeight_some found.penY (rowSizeOf cfg face cs)
    (found.penY + rowSizeOf cfg face cs).toNat 1 fuel (by omega) (by omega)
  exact ⟨found, imageHeight, hs, ht⟩

theorem draw_follows_found {cfg : Config} {face : Face} {cs : List Nat} {fuel : Nat}
    {found : SearchResult} {imageHeight : Nat}
    (hsame : ∀ (p ch : Nat),
      (face.load (Pass.search p) ch).pitch = (face.load Pass.draw ch).pitch)
    (hs : sizeSearch cfg face cs (rowSizeOf cfg face cs) fuel 2 = some found)
    (ht : tightenHeight found.penY (rowSizeOf cfg face cs) fuel 1 = some imageHeight)
    (afh : Int) (k : Nat) :
    ∃ st, drawFor cfg (face.load Pass.draw) afh (rowSizeOf cfg face cs) found.imageWidth
        imageHeight (cs.take k) (drawInit cs found.imageWidth imageHeight) = some st ∧
      (searchFor cfg (face.load (Pass.search found.powerOf2)) (rowSizeOf cfg face cs)
        found.imageWidth found.imageHeight (cs.take k) ⟨0, 0, 0⟩ false).broke = false ∧
      st.penX = (searchFor cfg (face.load (Pass.search found.powerOf2)) (rowSizeOf cfg face cs)
        found.imageWidth found.imageHeight (cs.take k) ⟨0, 0, 0⟩ false).penX ∧
      st.row = (searchFor cfg (face.load (Pass.search found.powerOf2)) (rowSizeOf cfg face cs)
        found.imageWidth found.imageHeight (cs.take k) ⟨0, 0, 0⟩ false).row := by
  have hrow := rowSizeOf_nonneg cfg face cs
  obtain ⟨p, _, hw, hh, hpow, _, hpy, hrw, _, hb, _⟩ :=
    sizeSearch_least cfg face cs _ (sizeSearch_nonempty hs) fuel 2 found hs
  obtain ⟨q, _, hq, hlt, _⟩ := tightenHeight_least _ _ fuel 1 imageHeight ht
  unfold searchPass at hpy hrw hb
  have hpen := searchFor_penY cfg (face.load (Pass.search p)) (rowSizeOf cfg face cs) (2 ^ p)
    (2 ^ p) cs ⟨0, 0, 0⟩ false hb (by simp) (le_refl _)
  rw [hpow, hw, hh]
  have htake := searchFor_take cfg (face.load (Pass.search p)) (rowSizeOf cfg face cs) (2 ^ p)
    (2 ^ p) cs ⟨0, 0, 0⟩ false hb k false
  have hH : ((searchFor cfg (face.load (Pass.search p)) (rowSizeOf cfg face cs) (2 ^ p)
      (2 ^ p) (cs.take k) ⟨0, 0, 0⟩ false).row + 1) * rowSizeOf cfg face cs ≤
      (imageHeight : Int) := by
    have h1 : found.penY + rowSizeOf cfg face cs < (imageHeight : Int) := by
      rw [hq]
      exact hlt
    rw [hpy, hpen.1] at h1
    have h2 := htake.2
    nlinarith
  obtain ⟨st, hst, hx, hr⟩ := drawFor_follows_search cfg (face.load (Pass.search p))
    (face.load Pass.draw) afh (rowSizeOf cfg face cs) (2 ^ p) (2 ^ p) imageHeight hrow
    (hsame p) (cs.take k) ⟨0, 0, 0⟩ false (drawInit cs (2 ^ p) imageHeight) rfl rfl htake.1 hH
  exact ⟨st, hst, htake.1, hx, hr⟩

/-- C25: when the width `bitmap.pitch` that FreeType gives for a character is
the same in every search pass and in the drawing loop, the drawing loop of
`writeFont` reaches every glyph with the `penX` and `row` of the last search
pass and ends with the pen of the search; the test `penY + rowSize >
imageHeight` is false at every wrap; hence a run returns `-1` only when the
glyph array or FreeType could not be set up, otherwise it returns `0` with
the file written, and it does return when the bound on the loops is large
enough. -/
theorem draw_pass_reproduces_search (cfg : Config) (face : Face)
    (characterSet : Option (List Nat))
    (hsame : ∀ (p ch : Nat),
      (face.load (Pass.search p) ch).pitch = (face.load Pass.draw ch).pitch) :
    (∀ (fuel : Nat) (found : SearchResult) (imageHeight : Nat),
      sizeSearch cfg face (effectiveSet cfg characterSet)
        (rowSizeOf cfg face (effectiveSet cfg characterSet)) fuel 2 = some found →
      tightenHeight found.penY (rowSizeOf cfg face (effectiveSet cfg characterSet)) fuel 1 =
        some imageHeight →
      (∀ k, ∃ st, drawFor cfg (face.load Pass.draw)
          (fontHeightOf face (effectiveSet cfg characterSet))
          (rowSizeOf cfg face (effectiveSet cfg characterSet)) found.imageWidth imageHeight
          ((effectiveSet cfg characterSet).take k)
          (drawInit (effectiveSet cfg characterSet) found.imageWidth imageHeight) = some st ∧
        (searchFor cfg (face.load (Pass.search found.powerOf2))
          (rowSizeOf cfg face (effectiveSet cfg characterSet)) found.imageWidth
          found.imageHeight ((effectiveSet cfg characterSet).take k) ⟨0, 0, 0⟩ false).broke =
            false ∧
        st.penX = (searchFor cfg (face.load (Pass.search found.powerOf2))
          (rowSizeOf cfg face (effectiveSet cfg characterSet)) found.imageWidth
          found.imageHeight ((effectiveSet cfg characterSet).take k) ⟨0, 0, 0⟩ false).penX ∧
        st.row = (searchFor cfg (face.load (Pass.search found.powerOf2))
          (rowSizeOf cfg face (effectiveSet cfg characterSet)) found.imageWidth
          found.imageHeight ((effectiveSet cfg characterSet).take k) ⟨0, 0, 0⟩ false).row) ∧
      (∃ st, drawFor cfg (face.load Pass.draw)
          (fontHeightOf face (effectiveSet cfg characterSet))
          (rowSizeOf cfg face (effectiveSet cfg characterSet)) found.imageWidth imageHeight
          (effectiveSet cfg characterSet)
          (drawInit (effectiveSet cfg characterSet) found.imageWidth imageHeight) = some st ∧
        st.penX = found.penX ∧ st.row = found.row) ∧
      ∀ k, ¬ wrapExceeds cfg (face.load Pass.draw)
        (rowSizeOf cfg face (effectiveSet cfg characterSet)) found.imageWidth imageHeight
        (effectiveSet cfg characterSet) k) ∧
    (∀ (fuel : Nat) (id : List Nat) (r : Run),
      writeFont cfg face fuel id characterSet = some r →
      (r.ret = 0 ∧ r.file.isSome = true) ∨
      (r = ⟨-1, none⟩ ∧ (cfg.callocOk (effectiveSet cfg characterSet).length = false ∨
        face.initError = true ∨ face.newFaceError = true ∨ face.setCharSizeError = true))) ∧
    (effectiveSet cfg characterSet ≠ [] →
      ∃ N : Nat, ∀ fuel : Nat, N ≤ fuel → ∀ id : List Nat,
        ∃ r, writeFont cfg face fuel id characterSet = some r ∧
          ((r.ret = 0 ∧ r.file.isSome = true) ∨
          (r = ⟨-1, none⟩ ∧ (cfg.callocOk (effectiveSet cfg characterSet).length = false ∨
            face.initError = true ∨ face.newFaceError = true ∨
            face.setCharSizeError = true)))) := by
  have hdraw : ∀ (fuel : Nat) (found : SearchResult) (imageHeight : Nat),
      sizeSearch cfg face (effectiveSet cfg characterSet)
        (rowSizeOf cfg face (effectiveSet cfg characterSet)) fuel 2 = some found →
      tightenHeight found.penY (rowSizeOf cfg face (effectiveSet cfg characterSet)) fuel 1 =
        some imageHeight →
      ∃ st, drawFor cfg (face.load Pass.draw)
          (fontHeightOf face (effectiveSet cfg characterSet))
          (rowSizeOf cfg face (effectiveSet cfg characterSet)) found.imageWidth imageHeight
          (effectiveSet cfg characterSet)
          (drawInit (effectiveSet cfg characterSet) found.imageWidth imageHeight) = some st ∧
        st.penX = found.penX ∧ st.row = found.row := by
    intro fuel found imageHeight hs ht
    obtain ⟨st, hst, _, hx, hr⟩ := draw_follows_found hsame hs ht
      (fontHeightOf face (effectiveSet cfg characterSet)) (effectiveSet cfg characterSet).length
    obtain ⟨p, _, hw, hh, hpow, hpx, _, hrw, _, _, _⟩ :=
      sizeSearch_least cfg face _ _ (sizeSearch_nonempty hs) fuel 2 found hs
    rw [List.take_length] at hst hx hr
    refine ⟨st, hst, ?_, ?_⟩
    · rw [hx, hpx, hpow, hw, hh]; rfl
    · rw [hr, hrw, hpow, hw, hh]; rfl
  have hret : ∀ (fuel : Nat) (id : List Nat) (r : Run),
      writeFont cfg face fuel id characterSet = some r →
      (r.ret = 0 ∧ r.file.isSome = true) ∨
      (r = ⟨-1, none⟩ ∧ (cfg.callocOk (effectiveSet cfg characterSet).length = false ∨
        face.initError = true ∨ face.newFaceError = true ∨ face.setCharSizeError = true)) := by
    intro fuel id r h
    rcases writeFont_loops h with hfail | ⟨found, imageHeight, hs, ht⟩
    · exact Or.inr hfail
    · obtain ⟨st, hst, _⟩ := hdraw fuel found imageHeight hs ht
      exact writeFont_of_draw id hs ht hst r h
  refine ⟨?_, hret, ?_⟩
  · intro fuel found imageHeight hs ht
    refine ⟨fun k => draw_follows_found hsame hs ht _ k, hdraw fuel found imageHeight hs ht, ?_⟩
    intro k hk
    obtain ⟨st, hst, _⟩ := hdraw fuel found imageHeight hs ht
    obtain ⟨ch, hch, hw, hh⟩ := hk
    have hd := drawFor_none_of_exceeds cfg (face.load Pass.draw)
      (fontHeightOf face (effectiveSet cfg characterSet))
      (rowSizeOf cfg face (effectiveSet cfg characterSet)) found.imageWidth imageHeight
      (effectiveSet cfg characterSet)
      (drawInit (effectiveSet cfg characterSet) found.imageWidth imageHeight) k ch hch hw hh
    rw [hd] at hst
    cases hst
  · intro hne
    obtain ⟨N, hN⟩ := loops_terminate cfg face (effectiveSet cfg characterSet) hne
    refine ⟨N, ?_⟩
    intro fuel hfuel id
    obtain ⟨found, imageHeight, hs, ht⟩ := hN fuel hfuel
    obtain ⟨r, hr⟩ := writeFont_some_of_loops id hs ht
    exact ⟨r, hr, hret fuel id r hr⟩

/-- Witness for C25: three glyphs that the same face gives in every pass;
the drawing loop wraps once. -/
theorem draw_pass_reproduces_search_witness :
    ∃ r, writeFont sampleConfig exactFitFace 8 [65] (some [65, 66, 67]) = some r ∧
      r.ret = 0 ∧ r.file.isSome = true := by
  have hs : (writeFont sampleConfig exactFitFace 8 [65] (some [65, 66, 67])).isSome = true := by
    decide
  obtain ⟨r, hr⟩ := Option.isSome_iff_exists.mp hs
  rcases (draw_pass_reproduces_search sampleConfig exactFitFace (some [65, 66, 67])
    (fun _ _ => rfl)).2.1 8 [65] r hr with h | h
  · exact ⟨r, hr, h.1, h.2⟩
  · exfalso
    rcases h.2 with h1 | h1 | h1 | h1 <;> exact absurd h1 (by decide)

/-! ## C27: the cells of the atlas do not overlap -/

theorem drawStep_record {cfg : Config} {m : Nat → GlyphSlot} {afh rowSize : Int} {W H : Nat}
    {ch : Nat} {st st1 : DrawState} (h : drawStep cfg m afh rowSize W H ch st = some st1) :
    ∃ penX row : Int,
      ((penX = 0 ∧ row = st.row + 1) ∨ (penX = st.penX ∧ row = st.row)) ∧
      st1.penX = penX + ((m ch).pitch + (cfg.GLYPH_PADDING : Int)) ∧ st1.row = row ∧
      st1.i = st.i + 1 ∧
      st1.glyphArray = st.glyphArray.set st.i
        ⟨ch, (m ch).pitch + (cfg.GLYPH_PADDING : Int) - (cfg.GLYPH_PADDING : Int),
          ⟨penX, W⟩, ⟨row * rowSize, H⟩,
          ⟨penX + ((m ch).pitch + (cfg.GLYPH_PADDING : Int)) - (cfg.GLYPH_PADDING : Int), W⟩,
          ⟨row * rowSize + rowSize, H⟩⟩ := by
  unfold drawStep at h
  simp only [] at h
  split at h
  · split at h
    · cases h
    · cases h
      exact ⟨0, st.row + 1, Or.inl ⟨rfl, rfl⟩, rfl, rfl, rfl, rfl⟩
  · cases h
    exact ⟨st.penX, st.row, Or.inr ⟨rfl, rfl⟩, rfl, rfl, rfl, rfl⟩

theorem drawFor_cells (cfg : Config) (m : Nat → GlyphSlot) (afh rowSize : Int) (W H : Nat)
    (hrow : 0 ≤ rowSize) :
    ∀ (cs : List Nat) (st st1 : DrawState),
      drawFor cfg m afh rowSize W H cs st = some st1 →
      st.i + cs.length ≤ st.glyphArray.length →
      (∀ ch ∈ cs, 0 ≤ (m ch).pitch + (cfg.GLYPH_PADDING : Int)) →
      cellsBehindPen cfg.GLYPH_PADDING rowSize (st.glyphArray.take st.i) st.penX st.row →
      cellsBehindPen cfg.GLYPH_PADDING rowSize (st1.glyphArray.take (st.i + cs.length))
        st1.penX st1.row := by
  intro cs
  induction cs with
  | nil =>
    intro st st1 h _ _ hinv
    simp [drawFor] at h
    subst h
    simpa using hinv
  | cons ch rest ih =>
    intro st st1 h hlen hadv hinv
    rw [drawFor] at h
    split at h
    · cases h
    · rename_i st2 hst2
      obtain ⟨penX, row, hcase, hx2, hr2, hi2, harr⟩ := drawStep_record hst2
      simp only [List.length_cons] at hlen
      have hi : st.i < st.glyphArray.length := by omega
      have e : st.i + (rest.length + 1) = st2.i + rest.length := by omega
      simp only [List.length_cons]
      rw [e]
      have hl2 : st2.glyphArray.length = st.glyphArray.length := by simp [harr]
      apply ih st2 st1 h (by omega) (fun c hc => hadv c (List.mem_cons_of_mem _ hc))
      have ha := hadv ch (List.mem_cons_self _ _)
      rw [hi2, harr, take_succ_set _ _ _ hi, hx2, hr2]
      obtain ⟨hpair, hbehind⟩ := hinv
      unfold cellsBehindPen
      constructor
      · rw [List.pairwise_append]
        refine ⟨hpair, List.pairwise_singleton _ _, ?_⟩
        intro a ha1 b hb
        simp only [List.mem_singleton] at hb
        subst hb
        unfold cellBefore
        simp only []
        rcases hcase with ⟨hp, hr⟩ | ⟨hp, hr⟩
        · left
          rw [hr]
          rcases hbehind a ha1 with h1 | ⟨h1, _⟩
          · nlinarith
          · rw [h1]
        · rcases hbehind a ha1 with h1 | ⟨_, h1⟩
          · left; rw [hr]; exact h1
          · right; rw [hp]; exact h1
      · intro g hg
        rcases List.mem_append.mp hg with hg | hg
        · rcases hcase with ⟨hp, hr⟩ | ⟨hp, hr⟩
          · left
            rw [hr]
            rcases hbehind g hg with h1 | ⟨h1, _⟩
            · nlinarith
            · rw [h1]
          · rcases hbehind g hg with h1 | ⟨h1, h2⟩
            · left; rw [hr]; exact h1
            · right
              rw [hr, hp]
              exact ⟨h1, by omega⟩
        · simp only [List.mem_singleton] at hg
          subst hg
          right
          simp only []
          constructor
          · ring
          · omega

theorem cellBefore_disjoint {cfg : Config} {a b : Glyph} {W H size : Int}
    (hab : cellBefore cfg.GLYPH_PADDING a b)
    (ha : cellConsistent W H size a) (hb : cellConsistent W H size b)
    (hW : 0 < W) (hH : 0 < H) :
    (∀ px py, ¬ (inCell cfg a px py ∧ inCell cfg b px py)) ∧
    (∀ u v, ¬ (inUvInterior a u v ∧ inUvInterior b u v)) := by
  obtain ⟨ha0, ha2, _, ha1, ha3, _⟩ := ha
  obtain ⟨hb0, hb2, _, hb1, hb3, _⟩ := hb
  have hWq : (0 : ℚ) < (W : ℚ) := by exact_mod_cast hW
  have hHq : (0 : ℚ) < (H : ℚ) := by exact_mod_cast hH
  constructor
  · intro px py ⟨⟨h1, h2, h3, h4⟩, ⟨h5, h6, h7, h8⟩⟩
    rcases hab with h | h <;> omega
  · intro u v ⟨⟨h1, h2, h3, h4⟩, ⟨h5, h6, h7, h8⟩⟩
    unfold Frac.val at h1 h2 h3 h4 h5 h6 h7 h8
    rw [ha0] at h1
    rw [ha2] at h2
    rw [ha1] at h3
    rw [ha3] at h4
    rw [hb0] at h5
    rw [hb2] at h6
    rw [hb1] at h7
    rw [hb3] at h8
    rcases hab with h | h
    · have hq : (a.uv3.num : ℚ) ≤ (b.uv1.num : ℚ) := by exact_mod_cast h
      have := div_le_div_of_nonneg_right hq (le_of_lt hHq)
      linarith
    · have hpad : (0 : Int) ≤ (cfg.GLYPH_PADDING : Int) := Int.natCast_nonneg _
      have hq : (a.uv2.num : ℚ) ≤ (b.uv0.num : ℚ) := by exact_mod_cast (by omega : a.uv2.num ≤ b.uv0.num)
      have := div_le_div_of_nonneg_right hq (le_of_lt hWq)
      linarith

/-- C27: in a successful run of `writeFont` in which no glyph of the drawing
loop has a negative width, the atlas cells of the records at two distinct
positions have no pixel in common, and the interiors of their UV rectangles
have no point in common. -/
theorem atlas_cells_disjoint (cfg : Config) (face : Face) (fuel : Nat) (id : List Nat)
    (characterSet : Option (List Nat)) (r : Run)
    (hpitch : ∀ ch ∈ effectiveSet cfg characterSet, 0 ≤ (face.load Pass.draw ch).pitch)
    (h : writeFont cfg face fuel id characterSet = some r) (h0 : r.ret = 0) :
    ∀ (i j : Nat) (a b : Glyph), i ≠ j → r.glyphs[i]? = some a → r.glyphs[j]? = some b →
      (∀ px py, ¬ (inCell cfg a px py ∧ inCell cfg b px py)) ∧
      (∀ u v, ¬ (inUvInterior a u v ∧ inUvInterior b u v)) := by
  obtain ⟨found, imageHeight, st, hs, ht, hst, hr⟩ := writeFont_ok h h0
  subst hr
  have hrow := rowSizeOf_nonneg cfg face (effectiveSet cfg characterSet)
  obtain ⟨q1, hq1, -⟩ := sizeSearch_pow _ _ _ _ _ _ _ hs
  obtain ⟨q2, hq2⟩ := tightenHeight_pow _ _ _ _ _ ht
  have hW : (0 : Int) < ((found.imageWidth : Nat) : Int) := by
    rw [hq1]; exact_mod_cast (pow_pos (by decide : 0 < 2) q1)
  have hH : (0 : Int) < ((imageHeight : Nat) : Int) := by
    rw [hq2]; exact_mod_cast (pow_pos (by decide : 0 < 2) q2)
  obtain ⟨hlenarr, -⟩ := drawFor_codes _ _ _ _ _ _ _ _ _ hst (by simp [drawInit])
  have hlen : (effectiveSet cfg characterSet).length ≤ st.glyphArray.length := by
    rw [hlenarr]; simp [drawInit]
  have hall := drawFor_forall cfg (face.load Pass.draw)
    (fontHeightOf face (effectiveSet cfg characterSet))
    (rowSizeOf cfg face (effectiveSet cfg characterSet)) found.imageWidth imageHeight
    (cellConsistent found.imageWidth imageHeight
      (rowSizeOf cfg face (effectiveSet cfg characterSet)))
    (fun ch st st1 hstep => drawStep_cell ch st st1 hstep)
    _ _ _ hst (by simp [drawInit]) (by simp [drawInit])
  have hcells := drawFor_cells cfg (face.load Pass.draw)
    (fontHeightOf face (effectiveSet cfg characterSet))
    (rowSizeOf cfg face (effectiveSet cfg characterSet)) found.imageWidth imageHeight hrow
    _ _ _ hst (by simp [drawInit])
    (fun ch hch => by
      have h1 := hpitch ch hch
      have h2 : (0 : Int) ≤ (cfg.GLYPH_PADDING : Int) := Int.natCast_nonneg _
      omega)
    (by simp [drawInit, cellsBehindPen])
  have hgl : (Run.mk 0 (some ⟨id, face.family_name, 0,
      (rowSizeOf cfg face (effectiveSet cfg characterSet)).toNat, st.glyphArray,
      (effectiveSet cfg characterSet).length, found.imageWidth, imageHeight,
      found.imageWidth * imageHeight % 4294967296, st.imageBuffer⟩)).glyphs =
      st.glyphArray.take (effectiveSet cfg characterSet).length := by
    simp only [Run.glyphs]
    exact glyphRecords_eq_take _ _ hlen
  rw [hgl]
  have hpair : (st.glyphArray.take (effectiveSet cfg characterSet).length).Pairwise
      (cellBefore cfg.GLYPH_PADDING) := by
    have := hcells.1
    simpa [drawInit] using this
  have hcons : ∀ g ∈ st.glyphArray.take (effectiveSet cfg characterSet).length,
      cellConsistent found.imageWidth imageHeight
        (rowSizeOf cfg face (effectiveSet cfg characterSet)) g := by
    intro g hg
    exact hall g (by simpa [drawInit] using hg)
  rw [List.pairwise_iff_getElem] at hpair
  intro i j a b hij hi hj
  obtain ⟨hil, hia⟩ := List.getElem?_eq_some_iff.mp hi
  obtain ⟨hjl, hjb⟩ := List.getElem?_eq_some_iff.mp hj
  have hma : a ∈ st.glyphArray.take (effectiveSet cfg characterSet).length := by
    rw [← hia]; exact List.getElem_mem _
  have hmb : b ∈ st.glyphArray.take (effectiveSet cfg characterSet).length := by
    rw [← hjb]; exact List.getElem_mem _
  rcases Nat.lt_or_gt_of_ne hij with hlt | hgt
  · have hab := hpair i j hil hjl hlt
    rw [hia, hjb] at hab
    exact cellBefore_disjoint hab (hcons a hma) (hcons b hmb) hW hH
  · have hba := hpair j i hjl hil hgt
    rw [hia, hjb] at hba
    obtain ⟨h1, h2⟩ := cellBefore_disjoint hba (hcons b hmb) (hcons a hma) hW hH
    exact ⟨fun px py hc => h1 px py ⟨hc.2, hc.1⟩, fun u v hc => h2 u v ⟨hc.2, hc.1⟩⟩

/-- Witness for C27: the first and the third record of a run on three glyphs,
which lie in different rows. -/
theorem atlas_cells_disjoint_witness :
    ∃ r a b, writeFont sampleConfig exactFitFace 8 [65] (some [65, 66, 67]) = some r ∧
      r.ret = 0 ∧ r.glyphs[0]? = some a ∧ r.glyphs[2]? = some b ∧
      (∀ px py, ¬ (inCell sampleConfig a px py ∧ inCell sampleConfig b px py)) ∧
      (∀ u v, ¬ (inUvInterior a u v ∧ inUvInterior b u v)) := by
  have hs : (writeFont sampleConfig exactFitFace 8 [65] (some [65, 66, 67])).isSome = true := by
    decide
  obtain ⟨r, hr⟩ := Option.isSome_iff_exists.mp hs
  have h0 : r.ret = 0 := by
    have hm : (writeFont sampleConfig exactFitFace 8 [65] (some [65, 66, 67])).map Run.ret =
        some 0 := by decide
    rw [hr] at hm
    simpa using hm
  have hlen : r.glyphs.length = 3 := by
    have := congrArg List.length (writeFont_glyphs hr h0)
    simpa [effectiveSet] using this
  have ha : r.glyphs[0]? = some (r.glyphs[0]) := List.getElem?_eq_getElem (by omega)
  have hb : r.glyphs[2]? = some (r.glyphs[2]) := List.getElem?_eq_getElem (by omega)
  exact ⟨r, _, _, hr, h0, ha, hb,
    atlas_cells_disjoint sampleConfig exactFitFace 8 [65] (some [65, 66, 67]) r
      (fun _ _ => (by decide : (0 : Int) ≤ 10)) hr h0 0 2 _ _ (by decide) ha hb⟩

/-! ## C28 and C29: glyphs outside their cell and outside the image -/

/-- C28: the vertical offset `actualfontHeight - bitmap_top` at which
`writeFont` draws a glyph can be negative, and the glyph can end below its
row.  For the character set of one apostrophe (6 rows, top bearing 16) the
offset is `-10`: `drawBitmap` is called with `y = -10`, all its writes fall
before the start of the image buffer, and the texture written holds no pixel
of the glyph.  For a letter of 8 rows and an underscore whose top is 3 rows
below the baseline the row is 12 pixels high, the underscore is drawn at the
offset 11 and ends at 13: its second line is the pixel line 12 of the
texture, below the row. -/
theorem glyph_drawn_outside_row :
    fontHeightOf apostropheFace [39] - (apostropheFace.load Pass.draw 39).bitmap_top = -10 ∧
    (writeFont sampleConfig apostropheFace 8 [65] (some [39])).map
        (fun r => (r.ret, r.file.map (fun f => (f.textureWidth, f.textureHeight, f.pixels)))) =
      some (0, some (8, 16, List.replicate 128 0)) ∧
    drawBitmap (List.replicate 128 0) 0 (-10) 8 (apostropheFace.load Pass.draw 39).buffer 3 6 =
      List.replicate 128 0 ∧
    rowSizeOf sampleConfig underscoreFace [65, 95] = 12 ∧
    fontHeightOf underscoreFace [65, 95] - (underscoreFace.load Pass.draw 95).bitmap_top = 11 ∧
    ¬ (11 + (underscoreFace.load Pass.draw 95).rows ≤
      rowSizeOf sampleConfig underscoreFace [65, 95]) ∧
    (writeFont sampleConfig underscoreFace 8 [65] (some [65, 95])).map
        (fun r => (r.ret, r.file.map (fun f =>
          (f.textureWidth, f.textureHeight, f.pixels.getD (12 * 16 + 6) 0)))) =
      some (0, some (16, 16, 255)) := by
  refine ⟨by decide, by decide, by decide, by decide, by decide, by decide, by decide⟩

/-- C29: `writeFontFromImage` succeeds on a character set with more
characters than the line of the image has glyphs, and writes a record that
lies outside the image.  The strip is 4 pixels wide and holds two glyphs of
width 2; for the character set `ABC` the third record starts at `x = 4` with
`charWidth = 1`, so `x + charWidth = 5 > 4` and its `u1` is `5/4`. -/
theorem image_glyph_outside_image :
    (writeFontFromImage sampleConfig (some stripImage) 1 [65] [65, 66, 67]).ret = 0 ∧
    (writeFontFromImage sampleConfig (some stripImage) 1 [65] [65, 66, 67]).glyphs.map
        (fun g => (g.index, g.width, g.uv0, g.uv2)) =
      [(65, 2, ⟨0, 4⟩, ⟨2, 4⟩), (66, 2, ⟨2, 4⟩, ⟨4, 4⟩), (67, 1, ⟨4, 4⟩, ⟨5, 4⟩)] ∧
    ¬ (4 + 1 ≤ stripImage.width) ∧
    (1 : ℚ) < (Frac.mk 5 4).val := by
  refine ⟨by decide, by decide, by decide, ?_⟩
  norm_num [Frac.val]

/-! ## C30: the conversions between `Font::Style` and its names -/

/-- C30: for each of the five values `e` of `Font::Style`,
`lua_stringFromEnum_FontStyle` returns one of the five names and
`lua_enumFromString_FontStyle` maps this name back to `e`; for every string
`s`, converting `s` to a style and back gives `s` if and only if `s` is one
of the five names; and every other string is mapped to `Font::PLAIN` when
`GP_ERROR` returns. -/
theorem style_string_round_trip (errorReturns : Bool) :
    (∀ e : Style, ∃ name ∈ styleNames,
      lua_stringFromEnum_FontStyle errorReturns e.val = some name ∧
      lua_enumFromString_FontStyle errorReturns name = some e) ∧
    (∀ s : List Nat,
      (lua_enumFromString_FontStyle errorReturns s).bind
          (fun e => lua_stringFromEnum_FontStyle errorReturns e.val) = some s ↔
        s ∈ styleNames) ∧
    (∀ s : List Nat, s ∉ styleNames →
      lua_enumFromString_FontStyle errorReturns s =
        if errorReturns then some Style.PLAIN else none) ∧
    (∀ s : List Nat, s ∉ styleNames → errorReturns = true →
      lua_enumFromString_FontStyle errorReturns s = some Style.PLAIN) := by
  have hother : ∀ s : List Nat, s ∉ styleNames →
      lua_enumFromString_FontStyle errorReturns s =
        if errorReturns then some Style.PLAIN else none := by
    intro s hs
    simp only [styleNames, List.mem_cons, List.mem_singleton, List.not_mem_nil, or_false,
      not_or] at hs
    obtain ⟨h1, h2, h3, h4, h5⟩ := hs
    simp only [lua_enumFromString_FontStyle, if_neg h1, if_neg h2, if_neg h3, if_neg h4, if_neg h5]
  refine ⟨?_, ?_, hother, ?_⟩
  · intro e
    cases errorReturns <;> cases e <;> exact ⟨_, by decide, rfl, by decide⟩
  · intro s
    constructor
    · intro h
      by_contra hs
      rw [hother s hs] at h
      have hne : s ≠ luaEnumString_FontStyle_PLAIN := by
        intro he
        apply hs
        rw [he]
        decide
      cases errorReturns with
      | false => simp at h
      | true =>
        simp only [if_true, Option.some_bind] at h
        have h2 : lua_stringFromEnum_FontStyle true Style.PLAIN.val =
            some luaEnumString_FontStyle_PLAIN := by decide
        rw [h2] at h
        injection h with h
        exact hne h.symm
    · intro hs
      simp only [styleNames, List.mem_cons, List.mem_singleton, List.not_mem_nil, or_false] at hs
      rcases hs with h | h | h | h | h <;> subst h <;> cases errorReturns <;> decide
  · intro s hs hret
    rw [hother s hs, hret]
    rfl

/-- Witness for C30: the string `BOLDER` is none of the five names. -/
theorem style_string_round_trip_witness :
    lua_enumFromString_FontStyle true [66, 79, 76, 68, 69, 82] = some Style.PLAIN :=
  (style_string_round_trip true).2.2.2 [66, 79, 76, 68, 69, 82] (by decide) rfl

end gameplay
